import Mathlib

/-!
# Verification of the `slurp` archive engine

A shallow embedding, in Lean, of the archive format engine of
`slurp.js`: the v4 codec (`pack` / `parseContentV4`), the legacy v1
codec (`parseContentV1`), the compression wrapper (`compress` /
`decompress`), the encryption wrapper (`encrypt` / `decrypt` /
`encryptRaw` / `decryptRaw`), the reader facade (`parseArchive`) and the
materialization paths (`apply` / `unpack`), together with theorems about
round-trips, error behaviour and path handling.

Modelling conventions:

* JavaScript strings are Lean `String`s; all structural work happens on
  `String.data` (`List Char`).  `content.split('\n')` is `splitNL`,
  `arr.join('\n')` is `joinNL`, `arr.join('')` is `joinAll`.
* Byte buffers are `List Nat` with every element `< 256` where it
  matters (hypotheses make this explicit).
* The external primitives used by the code — `zlib.gzipSync` /
  `gunzipSync` (composed with the UTF-8 conversions that always
  surround them in the source), `crypto.pbkdf2Sync`,
  AES-256-GCM encryption/decryption and SHA-256 — are parameters
  gathered in a `CryptoPrims` structure; theorems carry their
  contracts (e.g. gunzip inverts gzip) as hypotheses at the inputs
  where they are used.  `zlib.gunzipSync` throwing on a corrupt stream
  is modelled by `gunzip` returning `none`.
* `throw new Error(...)` sites are an explicit `SlurpError` inductive,
  one constructor per distinct throw site / message.
* JavaScript regular-expression matches are modelled by hand-rolled
  total functions on `List Char` that implement the same
  (anchored, backtracking) semantics; each is documented with the
  regex it embeds.
-/

set_option maxHeartbeats 1000000

namespace Slurp

/-! ## Line splitting and joining -/

/-- `content.split('\n')` on character lists: split at every newline.
The result is always non-empty and none of its elements contains a
newline. -/
def splitNLd : List Char → List (List Char)
  | [] => [[]]
  | c :: cs =>
    if c = '\n' then [] :: splitNLd cs
    else
      match splitNLd cs with
      | [] => [[c]]
      | t :: ts => (c :: t) :: ts

/-- `arr.join('\n')` on character lists. -/
def joinNLd : List (List Char) → List Char
  | [] => []
  | [x] => x
  | x :: xs => x ++ '\n' :: joinNLd xs

theorem splitNLd_ne_nil (l : List Char) : splitNLd l ≠ [] := by
  induction l with
  | nil => simp [splitNLd]
  | cons c cs ih =>
    simp only [splitNLd]
    split
    · simp
    · cases h : splitNLd cs with
      | nil => simp
      | cons t ts => simp

theorem joinNLd_splitNLd (l : List Char) : joinNLd (splitNLd l) = l := by
  induction l with
  | nil => rfl
  | cons c cs ih =>
    simp only [splitNLd]
    split
    · rename_i h
      subst h
      cases h' : splitNLd cs with
      | nil => exact absurd h' (splitNLd_ne_nil cs)
      | cons t ts =>
        rw [h'] at ih
        simp only [joinNLd]
        cases ts <;> simp_all [joinNLd]
    · cases h' : splitNLd cs with
      | nil => exact absurd h' (splitNLd_ne_nil cs)
      | cons t ts =>
        rw [h'] at ih
        cases ts <;> simp_all [joinNLd]

theorem splitNLd_no_nl (l : List Char) :
    ∀ x ∈ splitNLd l, '\n' ∉ x := by
  induction l with
  | nil => simp [splitNLd]
  | cons c cs ih =>
    simp only [splitNLd]
    split
    · intro x hx
      simp only [List.mem_cons] at hx
      rcases hx with hx | hx
      · subst hx; simp
      · exact ih x hx
    · rename_i hc
      cases h' : splitNLd cs with
      | nil => exact absurd h' (splitNLd_ne_nil cs)
      | cons t ts =>
        rw [h'] at ih
        intro x hx
        simp only [List.mem_cons] at hx
        rcases hx with hx | hx
        · subst hx
          intro hmem
          simp only [List.mem_cons] at hmem
          rcases hmem with hmem | hmem
          · exact hc hmem.symm
          · exact ih t (by simp) hmem
        · exact ih x (by simp [hx])

theorem splitNLd_of_no_nl {l : List Char} (h : '\n' ∉ l) :
    splitNLd l = [l] := by
  induction l with
  | nil => rfl
  | cons c cs ih =>
    simp only [splitNLd]
    rw [if_neg (by intro hc; exact h (by simp [hc]))]
    rw [ih (by intro hx; exact h (by simp [hx]))]

theorem splitNLd_append_nl {x : List Char} (hx : '\n' ∉ x) (r : List Char) :
    splitNLd (x ++ '\n' :: r) = x :: splitNLd r := by
  induction x with
  | nil => simp [splitNLd]
  | cons c cs ih =>
    have h1 : (c :: cs) ++ '\n' :: r = c :: (cs ++ '\n' :: r) := rfl
    rw [h1]
    simp only [splitNLd]
    rw [if_neg (by intro hc; exact hx (by simp [hc]))]
    rw [ih (by intro hm; exact hx (by simp [hm]))]

theorem splitNLd_joinNLd {ls : List (List Char)} (hne : ls ≠ [])
    (h : ∀ x ∈ ls, '\n' ∉ x) : splitNLd (joinNLd ls) = ls := by
  induction ls with
  | nil => exact absurd rfl hne
  | cons x xs ih =>
    cases xs with
    | nil => exact splitNLd_of_no_nl (h x (by simp))
    | cons y ys =>
      simp only [joinNLd]
      rw [splitNLd_append_nl (h x (by simp))]
      rw [ih (by simp) (fun z hz => h z (by simp [hz]))]

/-! ## Chunking (`.match(/.{1,76}/g)`) -/

/-- Fuel-indexed chunking (structural recursion so that the kernel can
evaluate it; the fuel is always sufficient). -/
def chunk76F : Nat → List Char → List (List Char)
  | 0, _ => []
  | _, [] => []
  | fuel + 1, c :: cs => (c :: cs).take 76 :: chunk76F fuel ((c :: cs).drop 76)

/-- `b64.match(/.{1,76}/g)`: cut a character list into chunks of at
most 76 characters.  (For the empty list the JavaScript `match` call
returns `null` and `pack`/`compress`/`encrypt` would crash; all
theorems that touch this path assume the chunked list is non-empty.) -/
def chunk76 (l : List Char) : List (List Char) := chunk76F l.length l

theorem chunk76F_fuel : ∀ f1 f2 l, l.length ≤ f1 → l.length ≤ f2 →
    chunk76F f1 l = chunk76F f2 l := by
  intro f1
  induction f1 with
  | zero =>
    intro f2 l h1
    have : l = [] := List.length_eq_zero.mp (by omega)
    subst this
    intro
    cases f2 <;> rfl
  | succ f ih =>
    intro f2 l h1 h2
    cases l with
    | nil => cases f2 <;> rfl
    | cons c cs =>
      cases f2 with
      | zero => simp at h2
      | succ g =>
        rw [chunk76F, chunk76F]
        congr 1
        apply ih
        · simp only [List.length_drop, List.length_cons] at *
          omega
        · simp only [List.length_drop, List.length_cons] at *
          omega

theorem chunk76_eq (l : List Char) :
    chunk76 l =
      match l with
      | [] => []
      | c :: cs => (c :: cs).take 76 :: chunk76 ((c :: cs).drop 76) := by
  cases l with
  | nil => rfl
  | cons c cs =>
    rw [chunk76, List.length_cons, chunk76F]
    dsimp only
    congr 1
    rw [chunk76]
    apply chunk76F_fuel
    · simp only [List.length_drop, List.length_cons]
      omega
    · exact Nat.le_refl _

theorem chunk76_flatten (l : List Char) : (chunk76 l).flatten = l := by
  suffices h : ∀ n l1, List.length l1 = n → (chunk76 l1).flatten = l1 by
    exact h l.length l rfl
  intro n
  induction n using Nat.strong_induction_on with
  | _ n ih =>
    intro l1 hn
    rw [chunk76_eq]
    cases l1 with
    | nil => simp
    | cons c cs =>
      dsimp only
      rw [List.flatten_cons]
      rw [ih ((c :: cs).drop 76).length
        (by simp only [List.length_drop, List.length_cons] at *; omega) _ rfl]
      exact List.take_append_drop _ _

theorem chunk76_mem_subset (l : List Char) :
    ∀ x ∈ chunk76 l, ∀ ch ∈ x, ch ∈ l := by
  suffices h : ∀ n l1, List.length l1 = n →
      ∀ x ∈ chunk76 l1, ∀ ch ∈ x, ch ∈ l1 by
    exact h l.length l rfl
  intro n
  induction n using Nat.strong_induction_on with
  | _ n ih =>
    intro l1 hn
    rw [chunk76_eq]
    cases l1 with
    | nil => simp
    | cons c cs =>
      dsimp only
      intro x hx ch hch
      simp only [List.mem_cons] at hx
      rcases hx with hx | hx
      · subst hx
        exact List.mem_of_mem_take hch
      · exact List.mem_of_mem_drop
          (ih ((c :: cs).drop 76).length
            (by simp only [List.length_drop, List.length_cons] at *; omega) _
            rfl x hx ch hch)

theorem chunk76_ne_nil (l : List Char) : ∀ x ∈ chunk76 l, x ≠ [] := by
  suffices h : ∀ n l1, List.length l1 = n → ∀ x ∈ chunk76 l1, x ≠ [] by
    exact h l.length l rfl
  intro n
  induction n using Nat.strong_induction_on with
  | _ n ih =>
    intro l1 hn
    rw [chunk76_eq]
    cases l1 with
    | nil => simp
    | cons c cs =>
      dsimp only
      intro x hx
      simp only [List.mem_cons] at hx
      rcases hx with hx | hx
      · subst hx; simp
      · exact ih ((c :: cs).drop 76).length
          (by simp only [List.length_drop, List.length_cons] at *; omega) _
          rfl x hx

/-! ## Character predicates -/

/-- A JavaScript `\s` whitespace character (restricted to the ASCII
whitespace that can actually appear in these archives). -/
def isWsChar (c : Char) : Bool :=
  c = ' ' ∨ c = '\t' ∨ c = '\n' ∨ c = '\r' ∨ c = '\x0b' ∨ c = '\x0c'

/-- A lowercase hexadecimal digit, the character class `[0-9a-f]`. -/
def isHexChar (c : Char) : Bool :=
  ('0' ≤ c ∧ c ≤ '9') ∨ ('a' ≤ c ∧ c ≤ 'f')

/-- A decimal digit, the character class `\d`. -/
def isDigitChar (c : Char) : Bool :=
  '0' ≤ c ∧ c ≤ '9'

/-! ## Decimal rendering of numbers (template-literal `${n}`) -/

/-- The character for a single decimal digit. -/
def digitChar (n : Nat) : Char :=
  ([' ', '0', '1', '2', '3', '4', '5', '6', '7', '8', '9'].drop 1).getD n '0'

/-- Fuel-indexed digit expansion (structural recursion so that the
kernel can evaluate it; the fuel is always sufficient). -/
def natDigitsF : Nat → Nat → List Char
  | 0, _ => []
  | fuel + 1, n =>
    if n < 10 then [digitChar n]
    else natDigitsF fuel (n / 10) ++ [digitChar (n % 10)]

/-- Decimal digits of `n`, most significant first.  Models the decimal
rendering a JavaScript template literal applies to a number. -/
def natDigits (n : Nat) : List Char := natDigitsF (n + 1) n

theorem natDigitsF_fuel : ∀ f1 f2 n, n < f1 → n < f2 →
    natDigitsF f1 n = natDigitsF f2 n := by
  intro f1
  induction f1 with
  | zero => intro f2 n h; omega
  | succ f ih =>
    intro f2 n h1 h2
    cases f2 with
    | zero => omega
    | succ g =>
      rw [natDigitsF, natDigitsF]
      split
      · rfl
      · rename_i hn
        rw [ih g (n / 10) (by omega) (by omega)]

theorem natDigits_eq (n : Nat) :
    natDigits n =
      if n < 10 then [digitChar n]
      else natDigits (n / 10) ++ [digitChar (n % 10)] := by
  rw [natDigits, natDigitsF]
  split
  · rfl
  · rw [natDigitsF_fuel n (n / 10 + 1) (n / 10) (by omega) (by omega)]
    rfl

theorem digitChar_isDigit {n : Nat} (h : n < 10) :
    isDigitChar (digitChar n) = true := by
  interval_cases n <;> decide

theorem natDigits_ne_nil (n : Nat) : natDigits n ≠ [] := by
  rw [natDigits_eq]
  split
  · simp
  · simp

theorem natDigits_all_digits (n : Nat) :
    ∀ c ∈ natDigits n, isDigitChar c = true := by
  induction n using Nat.strong_induction_on with
  | _ n ih =>
    rw [natDigits_eq]
    split
    · rename_i h
      intro c hc
      simp only [List.mem_singleton] at hc
      subst hc
      exact digitChar_isDigit h
    · rename_i h
      intro c hc
      rcases List.mem_append.mp hc with hc | hc
      · exact ih (n / 10) (Nat.div_lt_self (by omega) (by omega)) c hc
      · simp only [List.mem_singleton] at hc
        subst hc
        exact digitChar_isDigit (Nat.mod_lt _ (by omega))

theorem isDigitChar_not_ws {c : Char} (h : isDigitChar c = true) :
    isWsChar c = false := by
  simp only [isDigitChar, decide_eq_true_eq] at h
  simp only [isWsChar, decide_eq_false_iff_not]
  rintro (rfl | rfl | rfl | rfl | rfl | rfl) <;> revert h <;> decide

theorem isDigitChar_ne_nl {c : Char} (h : isDigitChar c = true) :
    c ≠ '\n' := by
  rintro rfl; revert h; decide

/-- Decimal string for a natural number. -/
def natStr (n : Nat) : String := ⟨natDigits n⟩

/-- Decimal string for an integer (the sign JavaScript prints). -/
def intStr (i : Int) : String :=
  if i < 0 then ⟨'-' :: natDigits i.natAbs⟩ else natStr i.natAbs

/-- `parseInt(s, 10)` on a non-empty list of decimal digits. -/
def digitsToNat (l : List Char) : Nat :=
  l.foldl (fun acc c => acc * 10 + (c.toNat - 48)) 0

/-! ## Base64 (`Buffer.toString('base64')` / `Buffer.from(b64, 'base64')`) -/

/-- The base64 alphabet, index 0–63. -/
def b64Alphabet : List Char :=
  "ABCDEFGHIJKLMNOPQRSTUVWXYZabcdefghijklmnopqrstuvwxyz0123456789+/".data

/-- Character for a 6-bit group. -/
def b64Char (n : Nat) : Char := b64Alphabet.getD n '/'

/-- 6-bit group for a base64 character (64 for characters outside the
alphabet; the decoder below is only applied to well-formed base64). -/
def b64CharVal (c : Char) : Nat := b64Alphabet.indexOf c

/-- Standard base64 encoding of a byte list (with `=` padding),
modelling `Buffer.prototype.toString('base64')`. -/
def b64EncodeD : List Nat → List Char
  | [] => []
  | [b] => [b64Char (b / 4), b64Char (b % 4 * 16), '=', '=']
  | [b, c] => [b64Char (b / 4), b64Char (b % 4 * 16 + c / 16),
               b64Char (c % 16 * 4), '=']
  | b :: c :: d :: rest =>
      b64Char (b / 4) :: b64Char (b % 4 * 16 + c / 16) ::
      b64Char (c % 16 * 4 + d / 64) :: b64Char (d % 64) :: b64EncodeD rest

/-- Standard base64 decoding, modelling `Buffer.from(s, 'base64')` on
well-formed base64 input (Node additionally ignores invalid characters;
the archives built by this code only ever decode well-formed base64). -/
def b64DecodeD : List Char → List Nat
  | c0 :: c1 :: c2 :: c3 :: rest =>
      if c2 = '=' then [b64CharVal c0 * 4 + b64CharVal c1 / 16]
      else if c3 = '=' then
        [b64CharVal c0 * 4 + b64CharVal c1 / 16,
         b64CharVal c1 % 16 * 16 + b64CharVal c2 / 4]
      else
        (b64CharVal c0 * 4 + b64CharVal c1 / 16) ::
        (b64CharVal c1 % 16 * 16 + b64CharVal c2 / 4) ::
        (b64CharVal c2 % 4 * 64 + b64CharVal c3) :: b64DecodeD rest
  | [c0, c1, c2] =>
      [b64CharVal c0 * 4 + b64CharVal c1 / 16,
       b64CharVal c1 % 16 * 16 + b64CharVal c2 / 4]
  | [c0, c1] => [b64CharVal c0 * 4 + b64CharVal c1 / 16]
  | _ => []

theorem b64CharVal_b64Char_all : ∀ n, n < 64 → b64CharVal (b64Char n) = n := by
  decide

theorem b64CharVal_b64Char {n : Nat} (h : n < 64) :
    b64CharVal (b64Char n) = n := b64CharVal_b64Char_all n h

theorem b64Char_ne_eq_all : ∀ n, n < 64 → b64Char n ≠ '=' := by
  decide

theorem b64Char_ne_eq {n : Nat} (h : n < 64) : b64Char n ≠ '=' :=
  b64Char_ne_eq_all n h

theorem b64_roundtrip (bs : List Nat) (h : ∀ b ∈ bs, b < 256) :
    b64DecodeD (b64EncodeD bs) = bs := by
  induction bs using b64EncodeD.induct with
  | case1 => simp [b64EncodeD, b64DecodeD]
  | case2 b =>
    have hb : b < 256 := h b (by simp)
    rw [b64EncodeD, b64DecodeD]
    rw [if_pos rfl]
    rw [b64CharVal_b64Char (by omega), b64CharVal_b64Char (by omega)]
    have h1 : b % 4 * 16 / 16 = b % 4 := by omega
    rw [h1]
    have h2 : b / 4 * 4 + b % 4 = b := by omega
    rw [h2]
  | case3 b c =>
    have hb : b < 256 := h b (by simp)
    have hc : c < 256 := h c (by simp)
    rw [b64EncodeD, b64DecodeD]
    rw [if_neg (b64Char_ne_eq (by omega)), if_pos rfl]
    rw [b64CharVal_b64Char (by omega), b64CharVal_b64Char (by omega),
        b64CharVal_b64Char (by omega)]
    have h1 : (b % 4 * 16 + c / 16) / 16 = b % 4 := by omega
    have h2 : b / 4 * 4 + b % 4 = b := by omega
    have h3 : (b % 4 * 16 + c / 16) % 16 = c / 16 := by omega
    have h4 : c / 16 * 16 + c % 16 * 4 / 4 = c := by omega
    rw [h1, h2, h3]
    simp only [h4]
  | case4 b c d rest ih =>
    have hb : b < 256 := h b (by simp)
    have hc : c < 256 := h c (by simp)
    have hd : d < 256 := h d (by simp)
    rw [b64EncodeD, b64DecodeD]
    rw [if_neg (b64Char_ne_eq (by omega)), if_neg (b64Char_ne_eq (by omega))]
    rw [b64CharVal_b64Char (by omega), b64CharVal_b64Char (by omega),
        b64CharVal_b64Char (by omega), b64CharVal_b64Char (by omega)]
    have h1 : (b % 4 * 16 + c / 16) / 16 = b % 4 := by omega
    have h2 : b / 4 * 4 + b % 4 = b := by omega
    have h3 : (b % 4 * 16 + c / 16) % 16 = c / 16 := by omega
    have h4 : c / 16 * 16 + (c % 16 * 4 + d / 64) / 4 = c := by omega
    have h5 : (c % 16 * 4 + d / 64) % 4 = d / 64 := by omega
    have h6 : d / 64 * 64 + d % 64 = d := by omega
    rw [h1, h2, h3, h4, h5, h6]
    rw [ih (fun x hx => h x (by simp [hx]))]

/-- Every character the encoder emits is in the alphabet or `=`. -/
theorem b64EncodeD_chars (bs : List Nat) :
    ∀ ch ∈ b64EncodeD bs, ch ∈ b64Alphabet ∨ ch = '=' := by
  have hchar : ∀ n : Nat, b64Char n ∈ b64Alphabet := by
    intro n
    by_cases h : n < 64
    · rw [b64Char, List.getD_eq_getElem _ _ (by simpa [b64Alphabet] using h)]
      exact List.getElem_mem _
    · rw [b64Char, List.getD_eq_default _ _ (by simp [b64Alphabet]; omega)]
      decide
  induction bs using b64EncodeD.induct with
  | case1 => simp [b64EncodeD]
  | case2 b =>
    rw [b64EncodeD]
    intro ch hch
    simp only [List.mem_cons, List.not_mem_nil, or_false] at hch
    rcases hch with rfl | rfl | rfl | rfl
    · exact Or.inl (hchar _)
    · exact Or.inl (hchar _)
    · exact Or.inr rfl
    · exact Or.inr rfl
  | case3 b c =>
    rw [b64EncodeD]
    intro ch hch
    simp only [List.mem_cons, List.not_mem_nil, or_false] at hch
    rcases hch with rfl | rfl | rfl | rfl
    · exact Or.inl (hchar _)
    · exact Or.inl (hchar _)
    · exact Or.inl (hchar _)
    · exact Or.inr rfl
  | case4 b c d rest ih =>
    rw [b64EncodeD]
    intro ch hch
    simp only [List.mem_cons] at hch
    rcases hch with rfl | rfl | rfl | rfl | hch
    · exact Or.inl (hchar _)
    · exact Or.inl (hchar _)
    · exact Or.inl (hchar _)
    · exact Or.inl (hchar _)
    · exact ih ch hch

theorem b64EncodeD_no_space (bs : List Nat) :
    ∀ ch ∈ b64EncodeD bs, ch ≠ ' ' := by
  intro ch hch
  rcases b64EncodeD_chars bs ch hch with h | h
  · intro heq; subst heq; revert h; decide
  · subst h; decide

theorem b64EncodeD_no_nl (bs : List Nat) :
    ∀ ch ∈ b64EncodeD bs, ch ≠ '\n' := by
  intro ch hch
  rcases b64EncodeD_chars bs ch hch with h | h
  · intro heq; subst heq; revert h; decide
  · subst h; decide

theorem b64EncodeD_no_hash (bs : List Nat) :
    ∀ ch ∈ b64EncodeD bs, ch ≠ '#' := by
  intro ch hch
  rcases b64EncodeD_chars bs ch hch with h | h
  · intro heq; subst heq; revert h; decide
  · subst h; decide

/-! ## String-level wrappers -/

/-- `content.split('\n')` as a list of `String` lines. -/
def splitNL (s : String) : List String :=
  (splitNLd s.data).map (⟨·⟩)

/-- `arr.join('\n')`. -/
def joinNL (ls : List String) : String :=
  ⟨joinNLd (ls.map String.data)⟩

/-- `arr.join('')`. -/
def joinAll (ls : List String) : String :=
  ⟨(ls.map String.data).flatten⟩

/-- `s.startsWith(pre)` (JavaScript `String.prototype.startsWith`). -/
def strStarts (s pre : String) : Bool :=
  pre.data.isPrefixOf s.data

/-- `s.endsWith(suf)`. -/
def strEnds (s suf : String) : Bool :=
  suf.data.isSuffixOf s.data

/-- `text.endsWith('\n') ? text.slice(0, -1) : text` — strip exactly one
trailing newline if present. -/
def stripNLd (l : List Char) : List Char :=
  if l.getLast? = some '\n' then l.dropLast else l

/-- String version of `stripNLd`. -/
def stripNL (s : String) : String := ⟨stripNLd s.data⟩

/-- Base64-encode a byte list to a string
(`buffer.toString('base64')`). -/
def b64Encode (bs : List Nat) : String := ⟨b64EncodeD bs⟩

/-- Base64-decode a string to a byte list
(`Buffer.from(s, 'base64')`). -/
def b64Decode (s : String) : List Nat := b64DecodeD s.data

theorem joinNL_splitNL (s : String) : joinNL (splitNL s) = s := by
  cases s with
  | mk data =>
    simp only [joinNL, splitNL, List.map_map]
    have hcomp : (String.data ∘ fun d : List Char => (⟨d⟩ : String)) = id :=
      funext (fun _ => rfl)
    rw [hcomp, List.map_id, joinNLd_splitNLd]

theorem splitNL_joinNL {ls : List String} (hne : ls ≠ [])
    (h : ∀ x ∈ ls, '\n' ∉ x.data) : splitNL (joinNL ls) = ls := by
  simp only [splitNL, joinNL]
  rw [splitNLd_joinNLd (by simpa using hne)
    (by intro x hx
        rcases List.mem_map.mp hx with ⟨y, hy, rfl⟩
        exact h y hy)]
  rw [List.map_map]
  have heq : (fun d : List Char => (⟨d⟩ : String)) ∘ String.data = id :=
    funext (fun s => by cases s; rfl)
  rw [heq, List.map_id]

/-! ## Data model -/

/-- One `throw new Error(...)` site of the engine (plus the
`zlib.gunzipSync` throw on a corrupt stream, `corruptPayload`). -/
inductive SlurpError where
  /-- `parseArchive`: `'archive is encrypted: password required'`. -/
  | passwordRequired
  /-- `decrypt`: `'not a v3 encrypted archive'`. -/
  | notEncrypted
  /-- `decompress`: `'invalid v2 archive: missing payload markers'`. -/
  | missingPayloadMarkersV2
  /-- `decrypt`: `'invalid v3 archive: missing payload markers'`. -/
  | missingPayloadMarkersV3
  /-- `decompress`/`decrypt`: `'checksum mismatch: expected …, got …'`. -/
  | checksumMismatch (expected actual : String)
  /-- `decrypt`: `'invalid v3 archive: payload too short'`. -/
  | payloadTooShort
  /-- `decryptRaw`: `'input too short to be encrypted data'`. -/
  | inputTooShort
  /-- `decrypt`: `'decryption failed: wrong password or corrupted archive'`. -/
  | wrongPasswordOrCorrupt
  /-- `decryptRaw`: `'decryption failed: wrong password or corrupted data'`. -/
  | wrongPasswordOrCorruptData
  /-- An uncaught `zlib.gunzipSync` throw on a corrupt gzip stream. -/
  | corruptPayload
  /-- Modelled from the spec: the `PathTraversal` failure of the Path
  Guard (`safePath`, `'Path traversal blocked'` in the repository's
  tests). -/
  | pathTraversal
deriving DecidableEq

/-- Content of a parsed file entry: a string for text entries, bytes
for `[binary]` entries. -/
inductive PContent where
  | text (s : String)
  | bin (bs : List Nat)
deriving DecidableEq

/-- A parsed file entry (`{ path, binary, content }`; v1 entries also
record the heredoc `marker`). -/
structure PFile where
  path : String
  marker : Option String := none
  content : PContent
deriving DecidableEq

/-- Parsed archive metadata (`# key: value` header lines; fields absent
from the header are `none`). -/
structure Metadata where
  name : Option String := none
  description : Option String := none
  files : Option String := none
  total : Option String := none
  created : Option String := none
  sentinel : Option String := none
deriving DecidableEq

/-- Result of `parseContent…`: `{ metadata, checksums, files }`.  The
`checksums` object is modelled as the association list of manifest
matches in scan order (JavaScript object-key insertion order). -/
structure Parsed where
  metadata : Metadata
  checksums : List (String × String)
  files : List PFile
deriving DecidableEq

/-- One entry of `pack`'s normalized `entries` array (`slurp.js` lines
118–131): `relPath`, raw `content` bytes, decoded `text` (only
meaningful when `binary` is false), the `binary` flag, byte `size`, and
the optional full SHA-256 `checksum` hex string.  The normalization
itself reads the filesystem and is not embedded; `pack` below starts
from this record, exactly as the source's serialization loop does. -/
structure PackEntry where
  relPath : String
  binary : Bool
  text : String
  content : List Nat
  size : Nat
  checksum : Option String
deriving DecidableEq

/-- The options `pack` consults, with the ambient inputs it reads
(`PROMPT.md` via `loadPrompt`, the clock via `new Date().toISOString()`)
made explicit. -/
structure PackOpts where
  name : Option String := none
  description : Option String := none
  prompt : Option String := none
  now : String := ""

/-- The external primitives of `crypto`/`zlib`, as used by the source:
`gzip`/`gunzip` include the UTF-8 conversions that always surround them
(`zlib.gzipSync(Buffer.from(s,'utf-8'))`,
`zlib.gunzipSync(b).toString('utf-8')`); `gunzip` returns `none` where
`gunzipSync` throws; `aesgcmEnc key iv plaintext` returns the
ciphertext and the 16-byte auth tag, and `aesgcmDec key iv ct tag`
returns `none` exactly when GCM authentication fails. -/
structure CryptoPrims where
  sha256 : List Nat → String
  gzip : String → List Nat
  gunzip : List Nat → Option String
  pbkdf2 : String → List Nat → Nat → List Nat
  aesgcmEnc : List Nat → List Nat → List Nat → List Nat × List Nat
  aesgcmDec : List Nat → List Nat → List Nat → List Nat → Option (List Nat)

instance exceptDecEq {e a : Type} [DecidableEq e] [DecidableEq a] :
    DecidableEq (Except e a) := fun x y =>
  match x, y with
  | .error e1, .error e2 =>
    if h : e1 = e2 then .isTrue (h ▸ rfl)
    else .isFalse (fun hc => h (Except.error.inj hc))
  | .ok v1, .ok v2 =>
    if h : v1 = v2 then .isTrue (h ▸ rfl)
    else .isFalse (fun hc => h (Except.ok.inj hc))
  | .error _, .ok _ => .isFalse (fun hc => Except.noConfusion hc)
  | .ok _, .error _ => .isFalse (fun hc => Except.noConfusion hc)

/-- A filesystem side effect of the materializer. -/
inductive FsOp where
  | mkdirRec (dir : String)
  | write (path : String) (content : PContent)
deriving DecidableEq

/-! ## Fixed marker lines -/

def v4Marker : String := "# --- SLURP v4 ---"

def v2Marker : String := "# --- SLURP v2 (compressed) ---"

def v3Marker : String := "# --- SLURP v3 (encrypted) ---"

def payloadStart : String := "--- PAYLOAD ---"

def payloadEnd : String := "--- END PAYLOAD ---"

/-- The single-quote character (written via its code point). -/
def sq : Char := Char.ofNat 39

/-- Legacy v2 payload opening line
(`base64 -d << 'SLURP_COMPRESSED' | gunzip | sh`). -/
def oldV2Start : String :=
  ⟨"base64 -d << ".data ++ sq :: "SLURP_COMPRESSED".data ++
    sq :: " | gunzip | sh".data⟩

def oldV2End : String := "SLURP_COMPRESSED"

/-- Legacy v3 payload opening line
(`SLURP_PAYLOAD=$(base64 -d << 'SLURP_ENCRYPTED'`). -/
def oldV3Start : String :=
  ⟨"SLURP_PAYLOAD=$(base64 -d << ".data ++ sq :: "SLURP_ENCRYPTED".data ++ [sq]⟩

def oldV3End : String := "SLURP_ENCRYPTED"

/-! ## Regex models

Each definition below embeds one regular expression of the source,
with ordinary (anchored, leftmost, greedy/lazy) JavaScript semantics,
specialized to inputs without `'\n'` (every input is a line produced by
`split('\n')`). -/

/-- `line.match(/^=== (.+?) ===$/)`: both affixes are anchored, so the
lazy capture is forced to be exactly the middle of the line. -/
def textDelim (l : String) : Option String :=
  let d := l.data
  if "=== ".data <+: d ∧ " ===".data <:+ d ∧ 9 ≤ d.length then
    some ⟨(d.drop 4).take (d.length - 8)⟩
  else none

/-- `line.match(/^=== (.+?) \[binary\] ===$/)`. -/
def binDelim (l : String) : Option String :=
  let d := l.data
  if "=== ".data <+: d ∧ " [binary] ===".data <:+ d ∧ 18 ≤ d.length then
    some ⟨(d.drop 4).take (d.length - 17)⟩
  else none

/-- The start-delimiter test of the v4 block scanner:
`binary = !!binMatch; filePath = binary ? binMatch[1] : textMatch[1]`. -/
def delimPath (l : String) : Option (String × Bool) :=
  match binDelim l with
  | some p => some (p, true)
  | none =>
    match textDelim l with
    | some p => some (p, false)
    | none => none

/-- The start delimiter `=== ${path} ===` emitted by `pack`. -/
def textStartLine (p : String) : String :=
  ⟨"=== ".data ++ p.data ++ " ===".data⟩

/-- The start delimiter `=== ${path} [binary] ===` emitted by `pack`. -/
def binStartLine (p : String) : String :=
  ⟨"=== ".data ++ p.data ++ " [binary] ===".data⟩

/-- The end delimiter `=== END ${path} ===`. -/
def endLine (p : String) : String :=
  ⟨"=== END ".data ++ p.data ++ " ===".data⟩

/-- The metadata keys, in the source's alternation order
(`name|description|files|total|created|sentinel`). -/
def metaKeys : List String :=
  ["name", "description", "files", "total", "created", "sentinel"]

/-- The `\s*(.+)` tail of the metadata regex: greedy `\s*` backtracking
one character when the remainder would otherwise be empty. -/
def metaValue (rest : List Char) : Option (List Char) :=
  if rest = [] then none
  else
    let t := rest.dropWhile (isWsChar ·)
    if t = [] then rest.getLast?.map ([·]) else some t

/-- `line.match(/^# (name|description|files|total|created|sentinel):\s*(.+)/)`,
returning key and captured value. -/
def metaMatch (l : String) : Option (String × String) :=
  let d := l.data
  if "# ".data <+: d then
    let r := d.drop 2
    match metaKeys.find? (fun k => (k.data ++ [':']).isPrefixOf r) with
    | some k => (metaValue (r.drop (k.data.length + 1))).map (fun v => (k, ⟨v⟩))
    | none => none
  else none

/-- `metadata[m[1]] = m[2]` for a metadata match. -/
def setMeta (md : Metadata) (k v : String) : Metadata :=
  if k = "name" then
    ⟨some v, md.description, md.files, md.total, md.created, md.sentinel⟩
  else if k = "description" then
    ⟨md.name, some v, md.files, md.total, md.created, md.sentinel⟩
  else if k = "files" then
    ⟨md.name, md.description, some v, md.total, md.created, md.sentinel⟩
  else if k = "total" then
    ⟨md.name, md.description, md.files, some v, md.created, md.sentinel⟩
  else if k = "created" then
    ⟨md.name, md.description, md.files, md.total, some v, md.sentinel⟩
  else if k = "sentinel" then
    ⟨md.name, md.description, md.files, md.total, md.created, some v⟩
  else md

/-- Does `sha256:` followed by 16 lowercase hex digits match at the
head of `r`?  If so return those 16 digits. -/
def sha16At (r : List Char) : Option (List Char) :=
  if "sha256:".data.isPrefixOf r then
    let h := (r.drop 7).take 16
    if h.length = 16 ∧ h.all (isHexChar ·) then some h else none
  else none

/-- Rightmost match of `sha256:([0-9a-f]{16})` in `r` (the greedy `.*`
before it in the manifest regex selects the rightmost occurrence). -/
def lastSha16 : List Char → Option (List Char)
  | [] => none
  | c :: cs =>
    match lastSha16 cs with
    | some x => some x
    | none => sha16At (c :: cs)

/-- `line.match(/^#\s+(\S+)\s+.*sha256:([0-9a-f]{16})/)`: a `#`, at
least one whitespace character, a maximal non-whitespace token, at
least one more whitespace character, then (greedily) the rightmost
`sha256:` followed by 16 hex digits. -/
def manifestMatch (l : String) : Option (String × String) :=
  match l.data with
  | '#' :: r =>
    if r.takeWhile (isWsChar ·) = [] then none
    else
      let r1 := r.dropWhile (isWsChar ·)
      let tok := r1.takeWhile (fun c => !isWsChar c)
      let r2 := r1.dropWhile (fun c => !isWsChar c)
      if tok = [] ∨ r2 = [] then none
      else (lastSha16 r2).map (fun h16 => (⟨tok⟩, ⟨h16⟩))
  | _ => none

/-- `line.match(/^# sha256:\s*([0-9a-f]{64})/)`. -/
def shaMatch (l : String) : Option String :=
  if "# sha256:".data <+: l.data then
    let r := (l.data.drop 9).dropWhile (isWsChar ·)
    if 64 ≤ r.length ∧ (r.take 64).all (isHexChar ·) then some ⟨r.take 64⟩
    else none
  else none

/-- `line.match(/^# iterations:\s*(\d+)/)` followed by
`parseInt(m[1], 10)`. -/
def iterMatch (l : String) : Option Nat :=
  if "# iterations:".data <+: l.data then
    let ds := ((l.data.drop 13).dropWhile (isWsChar ·)).takeWhile (isDigitChar ·)
    if ds = [] then none else some (digitsToNat ds)
  else none

/-- `line.match(/^cat > '([^']+)' << '([^']+)'$/)` (with `pre` set to
`cat > '`), and likewise the `base64 -d > '…'` form. -/
def heredocMatch (pre : List Char) (l : String) : Option (String × String) :=
  let d := l.data
  if pre.isPrefixOf d then
    let r := d.drop pre.length
    let p := r.takeWhile (· ≠ sq)
    let r1 := r.drop p.length
    if p ≠ [] ∧ (sq :: " << ".data ++ [sq]).isPrefixOf r1 then
      let r2 := r1.drop 6
      let m := r2.takeWhile (· ≠ sq)
      if m ≠ [] ∧ r2.drop m.length = [sq] then some (⟨p⟩, ⟨m⟩) else none
    else none
  else none

def catCmdPre : List Char := "cat > ".data ++ [sq]

def b64CmdPre : List Char := "base64 -d > ".data ++ [sq]

/-! ## `indexOf` / `slice` -/

/-- `lines.indexOf(m)`. -/
def idxOf? (lines : List String) (m : String) : Option Nat :=
  match lines with
  | [] => none
  | l :: rest => if l = m then some 0 else (idxOf? rest m).map (· + 1)

/-- `lines.indexOf(m, from)`. -/
def idxOfFrom? (lines : List String) (m : String) (start : Nat) : Option Nat :=
  (idxOf? (lines.drop start) m).map (· + start)

/-- `lines.slice(s, e)` (for `s ≤ e`; an empty list otherwise, as in
JavaScript). -/
def sliceL (lines : List String) (s e : Nat) : List String :=
  (lines.drop s).take (e - s)

/-! ## `humanSize` -/

/-- One-decimal fixed-point rendering of `bytes / base`, modelling
`(bytes / base).toFixed(1)` (the exact rational rounded half-up; the
float computed by JavaScript can differ on ties, which no claim
depends on). -/
def tenthsD (bytes base : Nat) : List Char :=
  let t := (20 * bytes + base) / (2 * base)
  natDigits (t / 10) ++ '.' :: natDigits (t % 10)

/-- `humanSize` (`slurp.js` lines 38–42). -/
def humanSizeD (bytes : Nat) : List Char :=
  if bytes < 1024 then natDigits bytes ++ [' ', 'B']
  else if bytes < 1024 * 1024 then tenthsD bytes 1024 ++ [' ', 'K', 'B']
  else tenthsD bytes (1024 * 1024) ++ [' ', 'M', 'B']

def humanSize (bytes : Nat) : String := ⟨humanSizeD bytes⟩

/-- `s.padEnd(n)` with spaces. -/
def padEndD (l : List Char) (n : Nat) : List Char :=
  l ++ List.replicate (n - l.length) ' '

/-- `s.padStart(n)` with spaces. -/
def padStartD (l : List Char) (n : Nat) : List Char :=
  List.replicate (n - l.length) ' ' ++ l

/-! ## `pack` (v4 serialization, `slurp.js` lines 110–183)

`pack` pushes strings (some containing newlines) onto a `lines` array
and returns `lines.join('\n')`.  `packLines` below is that array with
every multi-line push flattened into its lines, so that
`joinNL (packLines …)` is exactly the string the source returns. -/

/-- `opts.name || 'archive'` (the empty string is falsy). -/
def resolveName (o : Option String) : String :=
  match o with
  | none => "archive"
  | some n => if n = "" then "archive" else n

/-- `opts.description || ''`. -/
def resolveDesc (o : Option String) : String :=
  match o with
  | none => ""
  | some d => d

/-- `promptAsComments`: each line prefixed by `# ` (bare `#` for empty
lines), flattened to lines. -/
def promptCommentLines (pr : String) : List String :=
  (splitNL pr).map (fun l => if l = "" then "#" else ⟨'#' :: ' ' :: l.data⟩)

/-- `Math.max(...entries.map(e => e.relPath.length), 4)`. -/
def manifestMaxLen (entries : List PackEntry) : Nat :=
  entries.foldl (fun a e => max a e.relPath.data.length) 4

/-- One manifest line:
``#   ${e.relPath.padEnd(maxLen)}  ${size}${ck}${bin}``. -/
def manifestLine (maxLen : Nat) (e : PackEntry) : String :=
  ⟨'#' :: "   ".data ++ padEndD e.relPath.data maxLen ++ "  ".data ++
    padStartD (humanSizeD e.size) 10 ++
    (match e.checksum with
     | some c => "  sha256:".data ++ c.data.take 16
     | none => []) ++
    (if e.binary then "  [binary]".data else [])⟩

/-- The lines of one file body block (start delimiter, content lines,
end delimiter, blank separator). -/
def entryBlock (e : PackEntry) : List String :=
  if e.binary then
    binStartLine e.relPath ::
      (chunk76 (b64EncodeD e.content)).map (⟨·⟩) ++ [endLine e.relPath, ""]
  else
    textStartLine e.relPath ::
      (splitNLd (stripNLd e.text.data)).map (⟨·⟩) ++ [endLine e.relPath, ""]

/-- The full line array `pack` builds. -/
def packLines (entries : List PackEntry) (opts : PackOpts) : List String :=
  let name := resolveName opts.name
  let description := resolveDesc opts.description
  let totalSize := (entries.map (·.size)).sum
  [v4Marker] ++
  (match opts.prompt with
   | some pr => promptCommentLines pr
   | none => []) ++
  ["#", ⟨"# name: ".data ++ name.data⟩] ++
  (if description = "" then []
   else [⟨"# description: ".data ++ description.data⟩]) ++
  [⟨"# files: ".data ++ natDigits entries.length⟩,
   ⟨"# total: ".data ++ humanSizeD totalSize⟩,
   ⟨"# created: ".data ++ opts.now.data⟩,
   "#"] ++
  (if entries.length > 0 then
    "# MANIFEST:" :: entries.map (manifestLine (manifestMaxLen entries)) ++ ["#"]
   else []) ++
  [""] ++
  (entries.map entryBlock).flatten

/-- `pack(fileList, opts)` — the archive string. -/
def pack (entries : List PackEntry) (opts : PackOpts) : String :=
  joinNL (packLines entries opts)

/-! ## v4 parsing (`parseContentV4`, lines 605–657) -/

def emptyMeta : Metadata := ⟨none, none, none, none, none, none⟩

/-- The header loop of `parseContentV4`: metadata assignments and
manifest checksums, stopping at the first line that neither starts
with `#` nor is empty. -/
def headerScanAux :
    List String → Bool → Metadata → List (String × String) →
    Metadata × List (String × String)
  | [], _, md, cs => (md, cs)
  | l :: rest, inM, md, cs =>
    if strStarts l "#" = false ∧ l ≠ "" then (md, cs)
    else
      let md1 := match metaMatch l with
        | some kv => setMeta md kv.1 kv.2
        | none => md
      if l = "# MANIFEST:" then headerScanAux rest true md1 cs
      else if inM then
        if l = "#" then headerScanAux rest false md1 cs
        else
          headerScanAux rest true md1
            (match manifestMatch l with
             | some pc => cs ++ [pc]
             | none => cs)
      else headerScanAux rest false md1 cs

theorem dropWhile_len_le {α : Type} (p : α → Bool) (l : List α) :
    (l.dropWhile p).length ≤ l.length := by
  induction l with
  | nil => simp [List.dropWhile]
  | cons a l ih =>
    rw [List.dropWhile_cons]
    split
    · exact Nat.le_succ_of_le ih
    · simp

/-- The file entry built from one matched block. -/
def mkBlockFile (p : String) (bin : Bool) (body : List String) : PFile :=
  if bin then
    PFile.mk p none (.bin (b64DecodeD (body.map String.data).flatten))
  else PFile.mk p none (.text (joinNL body))

/-- Fuel-indexed body of the block loop (structural recursion so that
the kernel can evaluate it; the fuel is always sufficient). -/
def scanBlocksF : Nat → List String → List PFile
  | 0, _ => []
  | _, [] => []
  | fuel + 1, l :: rest =>
    match delimPath l with
    | none => scanBlocksF fuel rest
    | some pb =>
      if strStarts pb.1 "END " then scanBlocksF fuel rest
      else
        mkBlockFile pb.1 pb.2 (rest.takeWhile (· ≠ endLine pb.1)) ::
          scanBlocksF fuel ((rest.dropWhile (· ≠ endLine pb.1)).drop 1)

/-- The block loop of `parseContentV4`: scan for start delimiters,
skip `END `-captures, consume content up to the deterministically
computed end delimiter (or the end of input). -/
def scanBlocks (lines : List String) : List PFile :=
  scanBlocksF lines.length lines

theorem scanBlocksF_fuel : ∀ f1 f2 lines, lines.length ≤ f1 →
    lines.length ≤ f2 → scanBlocksF f1 lines = scanBlocksF f2 lines := by
  intro f1
  induction f1 with
  | zero =>
    intro f2 lines h1
    have : lines = [] := List.length_eq_zero.mp (by omega)
    subst this
    intro
    cases f2 <;> rfl
  | succ f ih =>
    intro f2 lines h1 h2
    cases lines with
    | nil => cases f2 <;> rfl
    | cons l rest =>
      cases f2 with
      | zero => simp at h2
      | succ g =>
        rw [scanBlocksF, scanBlocksF]
        simp only [List.length_cons] at h1 h2
        cases hd : delimPath l with
        | none => exact ih g rest (by omega) (by omega)
        | some pb =>
          dsimp only
          split
          · exact ih g rest (by omega) (by omega)
          · congr 1
            apply ih
            · have hw := dropWhile_len_le (· ≠ endLine pb.1) rest
              simp only [List.length_drop]
              omega
            · have hw := dropWhile_len_le (· ≠ endLine pb.1) rest
              simp only [List.length_drop]
              omega

theorem scanBlocks_nil : scanBlocks [] = [] := rfl

theorem scanBlocks_cons (l : String) (rest : List String) :
    scanBlocks (l :: rest) =
      match delimPath l with
      | none => scanBlocks rest
      | some pb =>
        if strStarts pb.1 "END " then scanBlocks rest
        else
          mkBlockFile pb.1 pb.2 (rest.takeWhile (· ≠ endLine pb.1)) ::
            scanBlocks ((rest.dropWhile (· ≠ endLine pb.1)).drop 1) := by
  rw [scanBlocks, List.length_cons, scanBlocksF]
  cases hd : delimPath l with
  | none => exact scanBlocksF_fuel _ _ _ (Nat.le_refl _) (Nat.le_refl _)
  | some pb =>
    dsimp only
    split
    · exact scanBlocksF_fuel _ _ _ (Nat.le_refl _) (Nat.le_refl _)
    · congr 1
      apply scanBlocksF_fuel
      · have hw := dropWhile_len_le (· ≠ endLine pb.1) rest
        simp only [List.length_drop]
        omega
      · exact Nat.le_refl _

/-- `parseContentV4(content)`. -/
def parseContentV4 (content : String) : Parsed :=
  let lines := splitNL content
  let mdcs := headerScanAux lines false emptyMeta []
  ⟨mdcs.1, mdcs.2, scanBlocks lines⟩

/-! ## v1 parsing (`parseContentV1`, lines 659–710) -/

/-- The v1 metadata loop (stops at `set -e`). -/
def v1Meta : List String → Metadata → Metadata
  | [], md => md
  | l :: rest, md =>
    if l = "set -e" then md
    else
      v1Meta rest
        (match metaMatch l with
         | some kv => setMeta md kv.1 kv.2
         | none => md)

/-- The v1 manifest loop (stops at `set -e`). -/
def v1Checks :
    List String → Bool → List (String × String) → List (String × String)
  | [], _, cs => cs
  | l :: rest, inM, cs =>
    if l = "set -e" then cs
    else if l = "# MANIFEST:" then v1Checks rest true cs
    else if inM then
      if l = "#" then v1Checks rest false cs
      else
        v1Checks rest true
          (match manifestMatch l with
           | some pc => cs ++ [pc]
           | none => cs)
    else v1Checks rest false cs

/-- The heredoc start-line test of the v1 block scanner
(`catMatch || b64Match`; `binary = !!b64Match`). -/
def v1Delim (l : String) : Option ((String × String) × Bool) :=
  match heredocMatch catCmdPre l with
  | some pm => some (pm, false)
  | none =>
    match heredocMatch b64CmdPre l with
    | some pm => some (pm, true)
    | none => none

/-- The v1 entry built from one matched heredoc block. -/
def mkBlockFileV1 (p m : String) (bin : Bool) (body : List String) : PFile :=
  if bin then
    PFile.mk p (some m) (.bin (b64DecodeD (body.map String.data).flatten))
  else PFile.mk p (some m) (.text (joinNL body))

/-- Fuel-indexed body of the v1 block loop. -/
def scanBlocksV1F : Nat → List String → List PFile
  | 0, _ => []
  | _, [] => []
  | fuel + 1, l :: rest =>
    match v1Delim l with
    | none => scanBlocksV1F fuel rest
    | some pmb =>
      mkBlockFileV1 pmb.1.1 pmb.1.2 pmb.2 (rest.takeWhile (· ≠ pmb.1.2)) ::
        scanBlocksV1F fuel ((rest.dropWhile (· ≠ pmb.1.2)).drop 1)

/-- The v1 block loop: heredoc-style `cat > '…' << '…'` /
`base64 -d > '…' << '…'` blocks, consuming up to the captured EOF
marker. -/
def scanBlocksV1 (lines : List String) : List PFile :=
  scanBlocksV1F lines.length lines

/-- `parseContentV1(content)`. -/
def parseContentV1 (content : String) : Parsed :=
  let lines := splitNL content
  ⟨v1Meta lines emptyMeta, v1Checks lines false [], scanBlocksV1 lines⟩

/-! ## Format detection and the reader facade -/

/-- Line `i` of the split content (`content.split('\n')[i]`, `none`
standing for `undefined`). -/
def lineAt (c : String) (i : Nat) : Option String := (splitNL c)[i]?

/-- `isV4`: first line equals the v4 marker. -/
def isV4 (c : String) : Bool := decide (lineAt c 0 = some v4Marker)

/-- `isCompressed`: first or second line equals the v2 marker. -/
def isCompressed (c : String) : Bool :=
  decide (lineAt c 0 = some v2Marker ∨ lineAt c 1 = some v2Marker)

/-- `isEncrypted`: first or second line equals the v3 marker. -/
def isEncrypted (c : String) : Bool :=
  decide (lineAt c 0 = some v3Marker ∨ lineAt c 1 = some v3Marker)

/-- `parseContent`: dispatch to the v4 codec on its marker, else to
the legacy v1 codec. -/
def parseContent (content : String) : Parsed :=
  if isV4 content then parseContentV4 content else parseContentV1 content

/-! ## Compression wrapper (v2, lines 187–258) -/

/-- `Math.round((1 - compressedSize / originalSize) * 100)` rendered
with a `%` (the float rounding modelled exactly on rationals;
`originalSize = 0` yields `NaN`).  No claim depends on this line. -/
def ratioD (o c : Nat) : List Char :=
  if o = 0 then "NaN".data ++ ['%']
  else (intStr (Int.fdiv (200 * ((o : Int) - c) + o) (2 * o))).data ++ ['%']

/-- `compress(innerArchive, opts)`. -/
def compress (P : CryptoPrims) (A : String) (nameOpt : Option String) :
    String :=
  let name := resolveName nameOpt
  let gz := P.gzip A
  let b64 := b64EncodeD gz
  let ck := P.sha256 gz
  let o := A.utf8ByteSize
  joinNL
    ([v2Marker, "#",
      "# This is a compressed slurp archive.",
      "# The payload is a gzip-compressed, base64-encoded slurp v4 archive.",
      "#",
      ⟨"# name: ".data ++ name.data⟩,
      ⟨"# original: ".data ++ natDigits o ++ " bytes".data⟩,
      ⟨"# compressed: ".data ++ natDigits b64.length ++ " bytes".data⟩,
      ⟨"# ratio: ".data ++ ratioD o b64.length⟩,
      ⟨"# sha256: ".data ++ ck.data⟩,
      "", payloadStart] ++
     (chunk76 b64).map (⟨·⟩) ++ [payloadEnd, ""])

/-- The checksum pre-scan of `decompress` (breaks at either payload
opening line, keeping the last `# sha256:` match seen before it). -/
def scanShaV2 : List String → Option String → Option String
  | [], acc => acc
  | l :: rest, acc =>
    if l = payloadStart ∨ l = oldV2Start then acc
    else
      scanShaV2 rest
        (match shaMatch l with
         | some v => some v
         | none => acc)

/-- Locate the payload between boundary markers (current pair first,
then the legacy pair) and join its lines
(`lines.slice(startIdx + 1, endIdx).join('')`). -/
def extractPayload (lines : List String) (sM eM oldSM oldEM : String) :
    Option String :=
  let cur :=
    match idxOf? lines sM with
    | some s =>
      match idxOfFrom? lines eM (s + 1) with
      | some e => some (s, e)
      | none => none
    | none => none
  let se :=
    match cur with
    | some se => some se
    | none =>
      match idxOf? lines oldSM with
      | some s =>
        match idxOfFrom? lines oldEM (s + 1) with
        | some e => some (s, e)
        | none => none
      | none => none
  se.map (fun se => joinAll (sliceL lines (se.1 + 1) se.2))

/-- `decompress(content)`. -/
def decompress (P : CryptoPrims) (content : String) :
    Except SlurpError String :=
  let lines := splitNL content
  let expected := scanShaV2 lines none
  match extractPayload lines payloadStart payloadEnd oldV2Start oldV2End with
  | none => .error .missingPayloadMarkersV2
  | some b64 =>
    let gz := b64Decode b64
    match expected with
    | some exp =>
      let actual := P.sha256 gz
      if actual ≠ exp then .error (.checksumMismatch exp actual)
      else
        match P.gunzip gz with
        | none => .error .corruptPayload
        | some s => .ok s
    | none =>
      match P.gunzip gz with
      | none => .error .corruptPayload
      | some s => .ok s

/-! ## Encryption wrapper (v3, lines 262–423)

`crypto.randomBytes(16)` / `crypto.randomBytes(12)` are the `salt` and
`iv` arguments of `encrypt` — the caller's only source of
non-determinism, made explicit. -/

/-- `encrypt(innerArchive, password, opts)`. -/
def encrypt (P : CryptoPrims) (A : String) (pw : String)
    (salt iv : List Nat) (nameOpt : Option String) : String :=
  let name := resolveName nameOpt
  let key := P.pbkdf2 pw salt 100000
  let compressed := P.gzip A
  let ct := (P.aesgcmEnc key iv compressed).1
  let tag := (P.aesgcmEnc key iv compressed).2
  let payload := salt ++ iv ++ tag ++ ct
  let b64 := b64EncodeD payload
  let ck := P.sha256 payload
  let o := A.utf8ByteSize
  joinNL
    ([v3Marker, "#",
      "# This is an encrypted slurp archive.",
      "# The payload is AES-256-GCM encrypted (PBKDF2 key derivation).",
      "# Use: slurp decrypt <archive> to decrypt.",
      "#",
      ⟨"# name: ".data ++ name.data⟩,
      ⟨"# original: ".data ++ natDigits o ++ " bytes".data⟩,
      ⟨"# encrypted: ".data ++ natDigits b64.length ++ " bytes".data⟩,
      ⟨"# sha256: ".data ++ ck.data⟩,
      ⟨"# iterations: ".data ++ natDigits 100000⟩,
      "", payloadStart] ++
     (chunk76 b64).map (⟨·⟩) ++ [payloadEnd, ""])

/-- The header scan of `decrypt`: over every line (no break), the last
`# iterations:` match (default 100000) and the last `# sha256:` match
win. -/
def scanIterSha : List String → Nat → Option String → Nat × Option String
  | [], it, sha => (it, sha)
  | l :: rest, it, sha =>
    scanIterSha rest
      (match iterMatch l with
       | some v => v
       | none => it)
      (match shaMatch l with
       | some v => some v
       | none => sha)

/-- The tail of `decrypt` after checksum verification: length check,
fixed-offset split, key derivation, GCM decryption, gunzip. -/
def decryptBody (P : CryptoPrims) (password : String) (iterations : Nat)
    (payload : List Nat) : Except SlurpError String :=
  if payload.length < 44 then .error .payloadTooShort
  else
    let salt := payload.take 16
    let iv := (payload.drop 16).take 12
    let tag := (payload.drop 28).take 16
    let ct := payload.drop 44
    let key := P.pbkdf2 password salt iterations
    match P.aesgcmDec key iv ct tag with
    | none => .error .wrongPasswordOrCorrupt
    | some pt =>
      match P.gunzip pt with
      | none => .error .corruptPayload
      | some inner => .ok inner

/-- `decrypt(content, password)`. -/
def decrypt (P : CryptoPrims) (content : String) (password : String) :
    Except SlurpError String :=
  if isEncrypted content = false then .error .notEncrypted
  else
    let lines := splitNL content
    let itsha := scanIterSha lines 100000 none
    match extractPayload lines payloadStart payloadEnd oldV3Start oldV3End with
    | none => .error .missingPayloadMarkersV3
    | some b64 =>
      let payload := b64Decode b64
      match itsha.2 with
      | some exp =>
        let actual := P.sha256 payload
        if actual ≠ exp then .error (.checksumMismatch exp actual)
        else decryptBody P password itsha.1 payload
      | none => decryptBody P password itsha.1 payload

/-- `encryptRaw(inputBuffer, password)`. -/
def encryptRaw (P : CryptoPrims) (input : List Nat) (pw : String)
    (salt iv : List Nat) : List Nat :=
  let key := P.pbkdf2 pw salt 100000
  salt ++ iv ++ (P.aesgcmEnc key iv input).2 ++ (P.aesgcmEnc key iv input).1

/-- `decryptRaw(inputBuffer, password)`. -/
def decryptRaw (P : CryptoPrims) (input : List Nat) (pw : String) :
    Except SlurpError (List Nat) :=
  if input.length < 44 then .error .inputTooShort
  else
    let salt := input.take 16
    let iv := (input.drop 16).take 12
    let tag := (input.drop 28).take 16
    let ct := input.drop 44
    let key := P.pbkdf2 pw salt 100000
    match P.aesgcmDec key iv ct tag with
    | none => .error .wrongPasswordOrCorruptData
    | some d => .ok d

/-- The decompress-then-parse tail of `parseArchive`. -/
def decompressStep (P : CryptoPrims) (c : String) :
    Except SlurpError Parsed :=
  if isCompressed c then (decompress P c).map parseContent
  else .ok (parseContent c)

/-- `parseArchive` (lines 432–445), with the file's content and
`opts.password` as inputs. -/
def parseArchive (P : CryptoPrims) (content : String)
    (password : Option String) : Except SlurpError Parsed :=
  if isEncrypted content then
    match password with
    | none => .error .passwordRequired
    | some pw => (decrypt P content pw).bind (decompressStep P)
  else decompressStep P content

/-! ## Paths and the materializer -/

/-- Split on `/`. -/
def splitSlash : List Char → List (List Char)
  | [] => [[]]
  | c :: cs =>
    if c = '/' then [] :: splitSlash cs
    else
      match splitSlash cs with
      | [] => [[c]]
      | t :: ts => (c :: t) :: ts

/-- Join with a separator character. -/
def joinWith (sep : Char) : List (List Char) → List Char
  | [] => []
  | [x] => x
  | x :: xs => x ++ sep :: joinWith sep xs

/-- `path.posix` segment normalization: drop empty and `.` segments,
let `..` pop a previous segment (kept at the front of relative paths,
dropped at the root of absolute ones). -/
def normSegs : List (List Char) → List (List Char) → Bool → List (List Char)
  | [], acc, _ => acc.reverse
  | s :: rest, acc, abs =>
    if s = [] ∨ s = ['.'] then normSegs rest acc abs
    else if s = ['.', '.'] then
      match acc with
      | t :: acc1 =>
        if t = ['.', '.'] then normSegs rest (s :: t :: acc1) abs
        else normSegs rest acc1 abs
      | [] => if abs then normSegs rest [] abs else normSegs rest [s] abs
    else normSegs rest (s :: acc) abs

/-- `path.join(a, b)` (POSIX): concatenate and normalize. -/
def pathJoin (a b : String) : String :=
  let abs := a.data.headD ' ' = '/'
  let segs := normSegs (splitSlash (a.data ++ '/' :: b.data)) [] abs
  if segs = [] then (if abs then "/" else ".")
  else ⟨(if abs then ['/'] else []) ++ joinWith '/' segs⟩

/-- `path.dirname(p)` (POSIX). -/
def dirname (p : String) : String :=
  let d1 := p.data.reverse.dropWhile (· = '/')
  match d1.dropWhile (· ≠ '/') with
  | [] => if p.data.headD ' ' = '/' then "/" else "."
  | r =>
    let r1 := r.dropWhile (· = '/')
    if r1 = [] then "/" else ⟨r1.reverse⟩

/-- `content.endsWith('\n') ? content : content + '\n'` — the
trailing-newline restoration applied when writing text entries. -/
def ensureNL (s : String) : String :=
  if strEnds s "\n" then s else ⟨s.data ++ ['\n']⟩

/-- The filesystem operations of one iteration of `apply`'s write loop
(lines 508–519): optional `mkdirSync` then `writeFileSync(f.path, …)`,
with no path validation of any kind. -/
def applyEntryOps (f : PFile) : List FsOp :=
  let dir := dirname f.path
  (if dir ≠ "" ∧ dir ≠ "." then [FsOp.mkdirRec dir] else []) ++
  [match f.content with
   | .bin bs => FsOp.write f.path (.bin bs)
   | .text s => FsOp.write f.path (.text (ensureNL s))]

/-- The write phase of `apply`. -/
def applyOps (files : List PFile) : List FsOp :=
  (files.map applyEntryOps).flatten

/-- The filesystem operations of one iteration of `unpack`'s write
loop (lines 579–591): `dest = path.join(stagingDir, f.path)`, optional
`mkdirSync`, then `writeFileSync(dest, …)` — again with no validation
of `f.path`. -/
def unpackEntryOps (stagingDir : String) (f : PFile) : List FsOp :=
  let dest := pathJoin stagingDir f.path
  let dir := dirname dest
  (if dir ≠ stagingDir then [FsOp.mkdirRec dir] else []) ++
  [match f.content with
   | .bin bs => FsOp.write dest (.bin bs)
   | .text s => FsOp.write dest (.text (ensureNL s))]

/-- The write phase of `unpack`. -/
def unpackOps (stagingDir : String) (files : List PFile) : List FsOp :=
  (files.map (unpackEntryOps stagingDir)).flatten

/-- Modelled from the spec: the Path Guard
`Resolve(candidatePath, baseDir)` of §4.6 — the `safePath` function
that the repository's own tests import from `slurp.js` and its design
docs require for every write, but which is absent from the source.
It fails with `PathTraversal` if the candidate is absolute or if
resolving it against the base directory leaves the base directory; a
`..` occurring only inside a single segment is allowed. -/
def safePath (candidate base : String) : Except SlurpError String :=
  if candidate.data.headD ' ' = '/' then .error .pathTraversal
  else
    let resolved := pathJoin base candidate
    if resolved = base ∨ strStarts resolved ⟨base.data ++ ['/']⟩ then
      .ok resolved
    else .error .pathTraversal

/-! ## Generic list helpers -/

theorem takeWhile_all {α : Type} (p : α → Bool) (l : List α)
    (h : ∀ x ∈ l, p x = true) : l.takeWhile p = l := by
  induction l with
  | nil => simp
  | cons a l ih =>
    rw [List.takeWhile_cons, if_pos (h a (by simp))]
    rw [ih (fun x hx => h x (by simp [hx]))]

theorem dropWhile_all {α : Type} (p : α → Bool) (l : List α)
    (h : ∀ x ∈ l, p x = true) : l.dropWhile p = [] := by
  induction l with
  | nil => simp
  | cons a l ih =>
    rw [List.dropWhile_cons, if_pos (h a (by simp))]
    exact ih (fun x hx => h x (by simp [hx]))

theorem takeWhile_middle {α : Type} (p : α → Bool) (xs : List α) (m : α)
    (ys : List α) (hxs : ∀ x ∈ xs, p x = true) (hm : p m = false) :
    (xs ++ m :: ys).takeWhile p = xs := by
  induction xs with
  | nil => simp [List.takeWhile_cons, hm]
  | cons a l ih =>
    rw [List.cons_append, List.takeWhile_cons, if_pos (hxs a (by simp))]
    rw [ih (fun x hx => hxs x (by simp [hx]))]

theorem dropWhile_middle {α : Type} (p : α → Bool) (xs : List α) (m : α)
    (ys : List α) (hxs : ∀ x ∈ xs, p x = true) (hm : p m = false) :
    (xs ++ m :: ys).dropWhile p = m :: ys := by
  induction xs with
  | nil => simp [List.dropWhile_cons, hm]
  | cons a l ih =>
    rw [List.cons_append, List.dropWhile_cons, if_pos (hxs a (by simp))]
    exact ih (fun x hx => hxs x (by simp [hx]))

theorem suffix_append_cancel {α : Type} {a b s : List α}
    (h : (a ++ s) <:+ (b ++ s)) : a <:+ b := by
  rcases h with ⟨t, ht⟩
  rw [← List.append_assoc] at ht
  exact ⟨t, List.append_cancel_right ht⟩

theorem suffix_within {α : Type} {s a b : List α} (h : s <:+ a ++ b)
    (hl : s.length ≤ b.length) : s <:+ b := by
  rcases h with ⟨t, ht⟩
  refine ⟨t.drop a.length, ?_⟩
  have hlen : t.length + s.length = a.length + b.length := by
    have hc := congrArg List.length ht
    simpa [List.length_append] using hc
  have hb : b = List.drop a.length (a ++ b) := (List.drop_left a b).symm
  rw [hb, ← ht, List.drop_append_eq_append_drop]
  have hz : a.length - t.length = 0 := by omega
  rw [hz, List.drop_zero]

/-! ## String construction basics -/

theorem mk_ne_empty {l : List Char} (h : l ≠ []) : (⟨l⟩ : String) ≠ "" := by
  intro heq
  exact h (congrArg String.data heq)

theorem textStartLine_ne_empty (p : String) : textStartLine p ≠ "" := by
  apply mk_ne_empty
  simp [textStartLine]

theorem binStartLine_ne_empty (p : String) : binStartLine p ≠ "" := by
  apply mk_ne_empty
  simp [binStartLine]

theorem endLine_ne_empty (p : String) : endLine p ≠ "" := by
  apply mk_ne_empty
  simp [endLine]

theorem textStartLine_not_hash (p : String) :
    strStarts (textStartLine p) "#" = false := rfl

theorem binStartLine_not_hash (p : String) :
    strStarts (binStartLine p) "#" = false := rfl

theorem textStartLine_no_nl {p : String} (h : '\n' ∉ p.data) :
    '\n' ∉ (textStartLine p).data := by
  simp only [textStartLine, List.mem_append]
  rintro ((hc | hc) | hc)
  · revert hc; decide
  · exact h hc
  · revert hc; decide

theorem binStartLine_no_nl {p : String} (h : '\n' ∉ p.data) :
    '\n' ∉ (binStartLine p).data := by
  simp only [binStartLine, List.mem_append]
  rintro ((hc | hc) | hc)
  · revert hc; decide
  · exact h hc
  · revert hc; decide

theorem endLine_no_nl {p : String} (h : '\n' ∉ p.data) :
    '\n' ∉ (endLine p).data := by
  simp only [endLine, List.mem_append]
  rintro ((hc | hc) | hc)
  · revert hc; decide
  · exact h hc
  · revert hc; decide

/-! ## Delimiter construction and inversion -/

theorem data_length_pos {p : String} (h : p ≠ "") : 1 ≤ p.data.length := by
  cases hp : p.data with
  | nil =>
    exfalso
    apply h
    cases p
    simp_all
  | cons c cs => simp

theorem textStartLine_data (p : String) :
    (textStartLine p).data = "=== ".data ++ p.data ++ " ===".data := rfl

theorem binStartLine_data (p : String) :
    (binStartLine p).data = "=== ".data ++ p.data ++ " [binary] ===".data := rfl

theorem textStartLine_length (p : String) :
    (textStartLine p).data.length = p.data.length + 8 := by
  rw [textStartLine_data]
  have l4 : ("=== ".data).length = 4 := by decide
  have l4b : (" ===".data).length = 4 := by decide
  simp [List.length_append, l4, l4b]

theorem binStartLine_length (p : String) :
    (binStartLine p).data.length = p.data.length + 17 := by
  rw [binStartLine_data]
  have l4 : ("=== ".data).length = 4 := by decide
  have l13 : (" [binary] ===".data).length = 13 := by decide
  simp [List.length_append, l4, l13]

theorem textDelim_mk {p : String} (hp : p ≠ "") :
    textDelim (textStartLine p) = some p := by
  have hlen := data_length_pos hp
  have hcond : ("=== ".data <+: (textStartLine p).data) ∧
      (" ===".data <:+ (textStartLine p).data) ∧
      9 ≤ (textStartLine p).data.length := by
    refine ⟨?_, ?_, ?_⟩
    · rw [textStartLine_data, List.append_assoc]
      exact List.prefix_append _ _
    · rw [textStartLine_data]
      exact List.suffix_append _ _
    · rw [textStartLine_length]
      omega
  simp only [textDelim]
  rw [if_pos hcond]
  congr 1
  rw [textStartLine_length, textStartLine_data]
  have h1 : p.data.length + 8 - 8 = p.data.length := by omega
  rw [h1, List.append_assoc]
  have h4 : ("=== ".data).length = 4 := by decide
  rw [← h4, List.drop_left, List.take_left]

theorem binDelim_mk {p : String} (hp : p ≠ "") :
    binDelim (binStartLine p) = some p := by
  have hlen := data_length_pos hp
  have hcond : ("=== ".data <+: (binStartLine p).data) ∧
      (" [binary] ===".data <:+ (binStartLine p).data) ∧
      18 ≤ (binStartLine p).data.length := by
    refine ⟨?_, ?_, ?_⟩
    · rw [binStartLine_data, List.append_assoc]
      exact List.prefix_append _ _
    · rw [binStartLine_data]
      exact List.suffix_append _ _
    · rw [binStartLine_length]
      omega
  simp only [binDelim]
  rw [if_pos hcond]
  congr 1
  rw [binStartLine_length, binStartLine_data]
  have h1 : p.data.length + 17 - 17 = p.data.length := by omega
  rw [h1, List.append_assoc]
  have h4 : ("=== ".data).length = 4 := by decide
  rw [← h4, List.drop_left, List.take_left]

theorem binDelim_textStartLine {p : String}
    (h : strEnds p " [binary]" = false) :
    binDelim (textStartLine p) = none := by
  have hcond : ¬ (("=== ".data <+: (textStartLine p).data) ∧
      (" [binary] ===".data <:+ (textStartLine p).data) ∧
      18 ≤ (textStartLine p).data.length) := by
    rintro ⟨-, hsuf, hl⟩
    rw [textStartLine_length] at hl
    have hplen : 10 ≤ p.data.length := by omega
    have hsplit : " [binary] ===".data = " [binary]".data ++ " ===".data := by
      decide
    rw [textStartLine_data, hsplit] at hsuf
    have h1 : " [binary]".data <:+ ("=== ".data ++ p.data) :=
      suffix_append_cancel hsuf
    have h2 : " [binary]".data <:+ p.data := by
      apply suffix_within h1
      have h9 : (" [binary]".data).length = 9 := by decide
      omega
    rw [strEnds, ← Bool.not_eq_true] at h
    exact h (List.isSuffixOf_iff_suffix.mpr h2)
  simp only [binDelim]
  rw [if_neg hcond]

theorem delimPath_textStartLine {p : String} (hp : p ≠ "")
    (hb : strEnds p " [binary]" = false) :
    delimPath (textStartLine p) = some (p, false) := by
  rw [delimPath, binDelim_textStartLine hb, textDelim_mk hp]

theorem delimPath_binStartLine {p : String} (hp : p ≠ "") :
    delimPath (binStartLine p) = some (p, true) := by
  rw [delimPath, binDelim_mk hp]

/-- A line whose first character is not `=` matches neither delimiter
pattern. -/
theorem delimPath_none_of_head {l : String} (h : l.data.head? ≠ some '=') :
    delimPath l = none := by
  have htext : textDelim l = none := by
    rw [textDelim, if_neg]
    rintro ⟨⟨t, ht⟩, -, -⟩
    apply h
    rw [← ht]
    rfl
  have hbin : binDelim l = none := by
    rw [binDelim, if_neg]
    rintro ⟨⟨t, ht⟩, -, -⟩
    apply h
    rw [← ht]
    rfl
  rw [delimPath, hbin, htext]

/-! ## Lemmas about the block scanner -/

theorem scanBlocksF_no_end :
    ∀ fuel lines, ∀ f ∈ scanBlocksF fuel lines,
      strStarts f.path "END " = false := by
  intro fuel
  induction fuel with
  | zero => intro lines; simp [scanBlocksF]
  | succ n ih =>
    intro lines
    cases lines with
    | nil => simp [scanBlocksF]
    | cons l rest =>
      rw [scanBlocksF]
      cases hd : delimPath l with
      | none => exact ih rest
      | some pb =>
        dsimp only
        by_cases hend : strStarts pb.1 "END " = true
        · rw [if_pos hend]
          exact ih rest
        · rw [if_neg hend]
          simp only [Bool.not_eq_true] at hend
          intro f hf
          simp only [List.mem_cons] at hf
          rcases hf with hf | hf
          · subst hf
            rw [mkBlockFile]
            split <;> exact hend
          · exact ih _ f hf

theorem scanBlocks_no_end :
    ∀ lines, ∀ f ∈ scanBlocks lines, strStarts f.path "END " = false :=
  fun lines => scanBlocksF_no_end lines.length lines

theorem scanBlocks_skip {l : String} (rest : List String)
    (h : delimPath l = none) : scanBlocks (l :: rest) = scanBlocks rest := by
  rw [scanBlocks_cons, h]

theorem headerScan_break {l : String} (rest : List String) (inM : Bool)
    (md : Metadata) (cs : List (String × String))
    (h1 : strStarts l "#" = false) (h2 : l ≠ "") :
    headerScanAux (l :: rest) inM md cs = (md, cs) := by
  rw [headerScanAux, if_pos ⟨h1, h2⟩]

theorem headerScan_plain {l : String} (rest : List String)
    (md : Metadata) (cs : List (String × String))
    (hok : ¬(strStarts l "#" = false ∧ l ≠ ""))
    (hm : metaMatch l = none) (hman : l ≠ "# MANIFEST:") :
    headerScanAux (l :: rest) false md cs = headerScanAux rest false md cs := by
  rw [headerScanAux, if_neg hok]
  simp only [hm]
  rw [if_neg hman]
  simp

/-! ## C10 — the v4 parser never returns an `END `-prefixed path -/

/-- C10: for every input, no entry returned by the v4 parser has a
path beginning with `END `: every `=== END x ===` line is treated as an
end delimiter and skipped by the block scanner, never turned into an
entry — so a file whose archived path starts with `END ` is not
representable in the v4 format. -/
theorem c10_v4_never_end_paths (content : String) :
    ((parseContentV4 content).files.all
      (fun f => !(strStarts f.path "END "))) = true := by
  rw [List.all_eq_true]
  intro f hf
  have h := scanBlocks_no_end (splitNL content) f
    (by simpa [parseContentV4] using hf)
  simp [h]

/-! ## C2 — a missing end delimiter is silently swallowed, not an error -/

/-- C2 counterexample: a v4 archive whose entry `a.txt` has no end
delimiter parses *successfully* — `parseContentV4` (which has no
failure path at all) returns the entry with the remaining input as its
content, rather than failing with a `MalformedArchive` error as the
claim states. -/
theorem c2_counterexample :
    parseContentV4 "# --- SLURP v4 ---\n\n=== a.txt ===\nhello" =
      ⟨emptyMeta, [], [⟨"a.txt", none, .text "hello"⟩]⟩ := by
  decide

/-- C2 (amended): when a start delimiter's end delimiter (computed
deterministically from its path) never occurs in the remaining input,
parsing does not fail: the read succeeds and the unterminated entry's
content is the whole remaining input. -/
theorem c2_missing_end_swallows (p : String) (rest : List String)
    (hp : p ≠ "") (hpn : '\n' ∉ p.data)
    (hpe : strStarts p "END " = false)
    (hpb : strEnds p " [binary]" = false)
    (hr : ∀ l ∈ rest, '\n' ∉ l.data ∧ l ≠ endLine p) :
    parseContentV4 (joinNL (v4Marker :: "" :: textStartLine p :: rest)) =
      ⟨emptyMeta, [], [⟨p, none, .text (joinNL rest)⟩]⟩ := by
  have hsplit : splitNL (joinNL (v4Marker :: "" :: textStartLine p :: rest)) =
      v4Marker :: "" :: textStartLine p :: rest := by
    apply splitNL_joinNL (by simp)
    intro x hx
    simp only [List.mem_cons] at hx
    rcases hx with rfl | rfl | rfl | hx
    · decide
    · decide
    · exact textStartLine_no_nl hpn
    · exact (hr x hx).1
  simp only [parseContentV4]
  rw [hsplit]
  have hheader :
      headerScanAux (v4Marker :: "" :: textStartLine p :: rest) false
        emptyMeta [] = (emptyMeta, []) := by
    rw [headerScan_plain _ _ _ (by decide) (by decide) (by decide)]
    rw [headerScan_plain _ _ _ (by decide) (by decide) (by decide)]
    exact headerScan_break _ _ _ _ (textStartLine_not_hash p)
      (textStartLine_ne_empty p)
  have hblocks :
      scanBlocks (v4Marker :: "" :: textStartLine p :: rest) =
        [⟨p, none, .text (joinNL rest)⟩] := by
    rw [scanBlocks_skip _ (by decide), scanBlocks_skip _ (by decide)]
    rw [scanBlocks_cons, delimPath_textStartLine hp hpb]
    dsimp only
    rw [if_neg (by simp [hpe])]
    have htake : rest.takeWhile (· ≠ endLine p) = rest :=
      takeWhile_all _ _ (fun x hx => by simpa using (hr x hx).2)
    have hdrop : rest.dropWhile (· ≠ endLine p) = [] :=
      dropWhile_all _ _ (fun x hx => by simpa using (hr x hx).2)
    rw [htake, hdrop]
    simp only [List.drop_nil]
    rw [scanBlocks_nil, mkBlockFile]
    simp
  rw [hheader, hblocks]

/-- Witness for the C2 amended theorem at a concrete unterminated
archive. -/
theorem c2_missing_end_swallows_witness :
    (("a.txt" : String) ≠ "" ∧ '\n' ∉ ("a.txt" : String).data ∧
      strStarts "a.txt" "END " = false ∧
      strEnds "a.txt" " [binary]" = false ∧
      (∀ l ∈ (["hello"] : List String), '\n' ∉ l.data ∧ l ≠ endLine "a.txt")) ∧
    parseContentV4 (joinNL (v4Marker :: "" :: textStartLine "a.txt" ::
        ["hello"])) =
      ⟨emptyMeta, [], [⟨"a.txt", none, .text (joinNL ["hello"])⟩]⟩ :=
  ⟨⟨by decide, by decide, by decide, by decide, by decide⟩,
    c2_missing_end_swallows "a.txt" ["hello"] (by decide) (by decide)
      (by decide) (by decide) (by decide)⟩

/-! ## C1 — there is no path guard before materialization -/

/-- A hostile v4 archive whose single entry's path climbs out of the
target directory. -/
def evilArchive : String :=
  "# --- SLURP v4 ---\n\n=== ../../escape.txt ===\nescaped\n=== END ../../escape.txt ===\n"

/-- C1: the claimed path-guard resolution does not happen anywhere in
the code.  For the archive `evilArchive` with entry path
`../../escape.txt`: the v4 parser returns the traversal path verbatim;
`apply`'s write loop emits an unguarded write to `../../escape.txt`
(after `mkdirSync('../..')`); `unpack`'s write loop joins the path onto
the staging directory `/tmp/stage` and writes to `/escape.txt`,
*outside* the staging directory — no `PathTraversal` failure occurs
anywhere.  The spec-modelled `safePath` (present only in the
repository's tests and docs) rejects exactly the inputs the claim
describes and accepts `a/b.txt` and `foo..bar.txt`. -/
theorem c1_no_path_guard :
    (parseContentV4 evilArchive).files =
      [⟨"../../escape.txt", none, .text "escaped"⟩] ∧
    applyOps (parseContentV4 evilArchive).files =
      [.mkdirRec "../..",
       .write "../../escape.txt" (.text "escaped\n")] ∧
    unpackOps "/tmp/stage" (parseContentV4 evilArchive).files =
      [.mkdirRec "/", .write "/escape.txt" (.text "escaped\n")] ∧
    safePath "../../escape.txt" "/tmp/stage" = .error .pathTraversal ∧
    safePath "/etc/passwd" "/tmp/stage" = .error .pathTraversal ∧
    safePath "a/b.txt" "/tmp/stage" = .ok "/tmp/stage/a/b.txt" ∧
    safePath "foo..bar.txt" "/tmp/stage" = .ok "/tmp/stage/foo..bar.txt" := by
  refine ⟨?_, ?_, ?_, ?_, ?_, ?_, ?_⟩ <;> decide

/-! ## C3 — reader layering order; no `UnrecognizedFormat` failure -/

/-- Trivial instantiation of the external primitives (used by closed
evaluations; the primitives are never reached on the inputs below). -/
def constPrims : CryptoPrims :=
  ⟨fun _ => "", fun _ => [], fun _ => none, fun _ _ _ => [],
   fun _ _ _ => ([], []), fun _ _ _ _ => none⟩

/-- C3 counterexample: a byte stream matching no marker at all is
*not* rejected with an `UnrecognizedFormat` error — `parseArchive`
falls through to the legacy codec and succeeds with an empty entry
list. -/
theorem c3_counterexample :
    parseArchive constPrims "definitely not an archive" none =
      .ok ⟨emptyMeta, [], []⟩ := by
  decide

/-- C3 (amended): the reader peels layers in the order encrypted →
compressed → codec dispatch: an encrypted archive without a password
fails with `PasswordRequired` (even when the compressed marker is also
present, showing the encryption layer is consulted first); with a
password it is decrypted first and only then tested for compression; a
plain stream is handed to the codec dispatch, where the v4 marker
selects the v4 codec and anything else — including unrecognizable
input — is handed to the legacy codec, which never fails. -/
theorem c3_reader_order :
    (∀ P content, isEncrypted content = true →
      parseArchive P content none = .error .passwordRequired) ∧
    (∀ P content, isEncrypted content = true → isCompressed content = true →
      parseArchive P content none = .error .passwordRequired) ∧
    (∀ P content pwd, isEncrypted content = true →
      parseArchive P content (some pwd) =
        (decrypt P content pwd).bind (decompressStep P)) ∧
    (∀ P content pw, isEncrypted content = false → isCompressed content = false →
      parseArchive P content pw = .ok (parseContent content)) ∧
    (∀ content, isV4 content = true →
      parseContent content = parseContentV4 content) ∧
    (∀ content, isV4 content = false →
      parseContent content = parseContentV1 content) := by
  refine ⟨?_, ?_, ?_, ?_, ?_, ?_⟩
  · intro P content h
    simp only [parseArchive]
    rw [if_pos h]
  · intro P content h _
    simp only [parseArchive]
    rw [if_pos h]
  · intro P content pwd h
    simp only [parseArchive]
    rw [if_pos h]
  · intro P content pw h1 h2
    simp only [parseArchive]
    rw [if_neg (by simp [h1]), decompressStep, if_neg (by simp [h2])]
  · intro content h
    rw [parseContent, if_pos h]
  · intro content h
    rw [parseContent, if_neg (by simp [h])]

/-- Witness instantiating every conjunct of the C3 amended theorem at
concrete inputs. -/
theorem c3_reader_order_witness :
    parseArchive constPrims "# --- SLURP v3 (encrypted) ---" none =
      .error .passwordRequired ∧
    parseArchive constPrims
      "# --- SLURP v3 (encrypted) ---\n# --- SLURP v2 (compressed) ---" none =
      .error .passwordRequired ∧
    parseArchive constPrims "# --- SLURP v3 (encrypted) ---" (some "pw") =
      (decrypt constPrims "# --- SLURP v3 (encrypted) ---" "pw").bind
        (decompressStep constPrims) ∧
    parseArchive constPrims "# --- SLURP v4 ---" none =
      .ok (parseContent "# --- SLURP v4 ---") ∧
    parseContent "# --- SLURP v4 ---" = parseContentV4 "# --- SLURP v4 ---" ∧
    parseContent "#!/bin/sh" = parseContentV1 "#!/bin/sh" :=
  ⟨c3_reader_order.1 constPrims _ (by decide),
   c3_reader_order.2.1 constPrims _ (by decide) (by decide),
   c3_reader_order.2.2.1 constPrims _ "pw" (by decide),
   c3_reader_order.2.2.2.1 constPrims _ none (by decide) (by decide),
   c3_reader_order.2.2.2.2.1 _ (by decide),
   c3_reader_order.2.2.2.2.2 _ (by decide)⟩

/-! ## Reduction lemmas for the wrappers -/

/-- When the v3 marker matched, the payload was located, and no
`# sha256:` header line exists, `decrypt` is the decode-then-decrypt
pipeline with the scanned iteration count. -/
theorem decrypt_reduction (P : CryptoPrims) (content : String) (pw : String)
    (b64 : String) (hE : isEncrypted content = true)
    (hX : extractPayload (splitNL content) payloadStart payloadEnd
      oldV3Start oldV3End = some b64)
    (hS : (scanIterSha (splitNL content) 100000 none).2 = none) :
    decrypt P content pw =
      decryptBody P pw (scanIterSha (splitNL content) 100000 none).1
        (b64Decode b64) := by
  simp only [decrypt]
  rw [if_neg (by simp [hE])]
  rw [hX]
  dsimp only
  rw [hS]

/-- When the payload was located and no `# sha256:` header line
exists, `decompress` is the decode-then-gunzip pipeline. -/
theorem decompress_reduction (P : CryptoPrims) (content : String)
    (b64 : String)
    (hX : extractPayload (splitNL content) payloadStart payloadEnd
      oldV2Start oldV2End = some b64)
    (hS : scanShaV2 (splitNL content) none = none) :
    decompress P content =
      (match P.gunzip (b64Decode b64) with
       | none => Except.error .corruptPayload
       | some s => Except.ok s) := by
  simp only [decompress]
  rw [hX]
  dsimp only
  rw [hS]

/-- Fixed-offset split of a well-formed v3 binary payload. -/
theorem splitPayload_parts (salt iv tag ct : List Nat)
    (hs : salt.length = 16) (hi : iv.length = 12) (ht : tag.length = 16) :
    (salt ++ iv ++ tag ++ ct).take 16 = salt ∧
    ((salt ++ iv ++ tag ++ ct).drop 16).take 12 = iv ∧
    ((salt ++ iv ++ tag ++ ct).drop 28).take 16 = tag ∧
    (salt ++ iv ++ tag ++ ct).drop 44 = ct ∧
    44 ≤ (salt ++ iv ++ tag ++ ct).length := by
  have hassoc1 : salt ++ iv ++ tag ++ ct = salt ++ (iv ++ (tag ++ ct)) := by
    simp [List.append_assoc]
  have hassoc2 : salt ++ iv ++ tag ++ ct = (salt ++ iv) ++ (tag ++ ct) := by
    simp [List.append_assoc]
  refine ⟨?_, ?_, ?_, ?_, ?_⟩
  · rw [hassoc1, ← hs, List.take_left]
  · rw [hassoc1, ← hs, List.drop_left]
    have h2 : iv ++ (tag ++ ct) = iv ++ (tag ++ ct) := rfl
    rw [← hi, List.take_left]
  · rw [hassoc2]
    have h28 : (salt ++ iv).length = 28 := by
      simp [List.length_append, hs, hi]
    rw [← h28, List.drop_left, ← ht, List.take_left]
  · have h44 : (salt ++ iv ++ tag).length = 44 := by
      simp [List.length_append, hs, hi, ht]
    rw [← h44, List.drop_left]
  · simp [List.length_append, hs, hi, ht]
    omega

/-! ## C6 — truncated v3 payloads -/

/-- C6: a decoded v3 payload shorter than 44 bytes fails with the
`TruncatedPayload` error (`payloadTooShort`), and the result is the
same for *every* choice of the cryptographic primitives — no key
derivation or decryption can influence it; a payload of at least 44
bytes is split at the fixed offsets 16/12/16 into salt, nonce, tag and
ciphertext, which feed PBKDF2 and AES-GCM; `decryptRaw` does the same
on raw input (with its `inputTooShort` error). -/
theorem c6_truncated_payload :
    (∀ (P : CryptoPrims) content pw b64, isEncrypted content = true →
      extractPayload (splitNL content) payloadStart payloadEnd
        oldV3Start oldV3End = some b64 →
      (scanIterSha (splitNL content) 100000 none).2 = none →
      (b64Decode b64).length < 44 →
      decrypt P content pw = .error .payloadTooShort) ∧
    (∀ (P : CryptoPrims) content pw b64 salt iv tag ct,
      isEncrypted content = true →
      extractPayload (splitNL content) payloadStart payloadEnd
        oldV3Start oldV3End = some b64 →
      (scanIterSha (splitNL content) 100000 none).2 = none →
      b64Decode b64 = salt ++ iv ++ tag ++ ct →
      salt.length = 16 → iv.length = 12 → tag.length = 16 →
      decrypt P content pw =
        (match P.aesgcmDec
            (P.pbkdf2 pw salt (scanIterSha (splitNL content) 100000 none).1)
            iv ct tag with
         | none => Except.error .wrongPasswordOrCorrupt
         | some pt =>
           match P.gunzip pt with
           | none => Except.error .corruptPayload
           | some inner => Except.ok inner)) ∧
    (∀ (P : CryptoPrims) (input : List Nat) pw, input.length < 44 →
      decryptRaw P input pw = .error .inputTooShort) ∧
    (∀ (P : CryptoPrims) pw salt iv tag ct,
      salt.length = 16 → iv.length = 12 → tag.length = 16 →
      decryptRaw P (salt ++ iv ++ tag ++ ct) pw =
        (match P.aesgcmDec (P.pbkdf2 pw salt 100000) iv ct tag with
         | none => Except.error .wrongPasswordOrCorruptData
         | some d => Except.ok d)) := by
  refine ⟨?_, ?_, ?_, ?_⟩
  · intro P content pw b64 hE hX hS hlen
    rw [decrypt_reduction P content pw b64 hE hX hS]
    rw [decryptBody, if_pos hlen]
  · intro P content pw b64 salt iv tag ct hE hX hS hpl hs hi ht
    rw [decrypt_reduction P content pw b64 hE hX hS]
    obtain ⟨h1, h2, h3, h4, h5⟩ := splitPayload_parts salt iv tag ct hs hi ht
    rw [decryptBody, hpl, if_neg (by omega)]
    rw [h1, h2, h3, h4]
  · intro P input pw hlen
    rw [decryptRaw, if_pos hlen]
  · intro P pw salt iv tag ct hs hi ht
    obtain ⟨h1, h2, h3, h4, h5⟩ := splitPayload_parts salt iv tag ct hs hi ht
    rw [decryptRaw, if_neg (by omega)]
    rw [h1, h2, h3, h4]

/-- A minimal v3 archive whose decoded payload is 3 bytes. -/
def shortV3 : String :=
  "# --- SLURP v3 (encrypted) ---\n--- PAYLOAD ---\nAAAA\n--- END PAYLOAD ---"

/-- A minimal v3 archive whose decoded payload is 45 zero bytes. -/
def zeroV3 : String :=
  "# --- SLURP v3 (encrypted) ---\n--- PAYLOAD ---\nAAAAAAAAAAAAAAAAAAAAAAAAAAAAAAAAAAAAAAAAAAAAAAAAAAAAAAAAAAAA\n--- END PAYLOAD ---"

/-- Witness instantiating every conjunct of the C6 theorem. -/
theorem c6_truncated_payload_witness :
    decrypt constPrims shortV3 "pw" = .error .payloadTooShort ∧
    decrypt constPrims zeroV3 "pw" =
      (match constPrims.aesgcmDec
          (constPrims.pbkdf2 "pw" (List.replicate 16 0)
            (scanIterSha (splitNL zeroV3) 100000 none).1)
          (List.replicate 12 0) [0] (List.replicate 16 0) with
       | none => Except.error .wrongPasswordOrCorrupt
       | some pt =>
         match constPrims.gunzip pt with
         | none => Except.error .corruptPayload
         | some inner => Except.ok inner) ∧
    decryptRaw constPrims [0, 1, 2] "pw" = .error .inputTooShort ∧
    decryptRaw constPrims
        (List.replicate 16 0 ++ List.replicate 12 0 ++ List.replicate 16 0 ++
          [7]) "pw" =
      (match constPrims.aesgcmDec
          (constPrims.pbkdf2 "pw" (List.replicate 16 0) 100000)
          (List.replicate 12 0) [7] (List.replicate 16 0) with
       | none => Except.error .wrongPasswordOrCorruptData
       | some d => Except.ok d) :=
  ⟨c6_truncated_payload.1 constPrims shortV3 "pw" "AAAA" (by decide)
      (by decide) (by decide) (by decide),
   c6_truncated_payload.2.1 constPrims zeroV3 "pw"
      "AAAAAAAAAAAAAAAAAAAAAAAAAAAAAAAAAAAAAAAAAAAAAAAAAAAAAAAAAAAA"
      (List.replicate 16 0) (List.replicate 12 0) (List.replicate 16 0) [0]
      (by decide) (by decide) (by decide) (by decide) (by decide) (by decide)
      (by decide),
   c6_truncated_payload.2.2.1 constPrims [0, 1, 2] "pw" (by decide),
   c6_truncated_payload.2.2.2 constPrims "pw" (List.replicate 16 0)
      (List.replicate 12 0) (List.replicate 16 0) [7] (by decide) (by decide)
      (by decide)⟩

/-! ## C7 — GCM authentication failure is one indistinguishable error -/

/-- C7: whenever AES-GCM authentication fails during unwrapping — for
*any* key, nonce, ciphertext and tag, which covers both a wrong
password (wrong derived key) and corrupted ciphertext — `decrypt`
fails with the single nullary `wrongPasswordOrCorrupt` error, and
`decryptRaw` with its single `wrongPasswordOrCorruptData` error; the
error value carries no operand that could distinguish the two causes. -/
theorem c7_auth_failure_single_error :
    (∀ (P : CryptoPrims) content pw b64 salt iv tag ct,
      isEncrypted content = true →
      extractPayload (splitNL content) payloadStart payloadEnd
        oldV3Start oldV3End = some b64 →
      (scanIterSha (splitNL content) 100000 none).2 = none →
      b64Decode b64 = salt ++ iv ++ tag ++ ct →
      salt.length = 16 → iv.length = 12 → tag.length = 16 →
      P.aesgcmDec
        (P.pbkdf2 pw salt (scanIterSha (splitNL content) 100000 none).1)
        iv ct tag = none →
      decrypt P content pw = .error .wrongPasswordOrCorrupt) ∧
    (∀ (P : CryptoPrims) pw salt iv tag ct,
      salt.length = 16 → iv.length = 12 → tag.length = 16 →
      P.aesgcmDec (P.pbkdf2 pw salt 100000) iv ct tag = none →
      decryptRaw P (salt ++ iv ++ tag ++ ct) pw =
        .error .wrongPasswordOrCorruptData) := by
  refine ⟨?_, ?_⟩
  · intro P content pw b64 salt iv tag ct hE hX hS hpl hs hi ht hdec
    rw [c6_truncated_payload.2.1 P content pw b64 salt iv tag ct hE hX hS hpl
      hs hi ht]
    rw [hdec]
  · intro P pw salt iv tag ct hs hi ht hdec
    rw [c6_truncated_payload.2.2.2 P pw salt iv tag ct hs hi ht]
    rw [hdec]

/-- Witness for the C7 theorem: `constPrims` rejects every tag, which
subsumes both the wrong-password and the corrupted-ciphertext cause. -/
theorem c7_auth_failure_single_error_witness :
    decrypt constPrims zeroV3 "wrong" = .error .wrongPasswordOrCorrupt ∧
    decryptRaw constPrims
        (List.replicate 16 0 ++ List.replicate 12 0 ++ List.replicate 16 0 ++
          [7]) "wrong" = .error .wrongPasswordOrCorruptData :=
  ⟨c7_auth_failure_single_error.1 constPrims zeroV3 "wrong"
      "AAAAAAAAAAAAAAAAAAAAAAAAAAAAAAAAAAAAAAAAAAAAAAAAAAAAAAAAAAAA"
      (List.replicate 16 0) (List.replicate 12 0) (List.replicate 16 0) [0]
      (by decide) (by decide) (by decide) (by decide) (by decide) (by decide)
      (by decide) (by decide),
   c7_auth_failure_single_error.2 constPrims "wrong" (List.replicate 16 0)
      (List.replicate 12 0) (List.replicate 16 0) [7] (by decide) (by decide)
      (by decide) (by decide)⟩

/-! ## C9 — without a `# sha256:` header there is no integrity check -/

/-- C9: when the scanned header region contains no
`# sha256: <64 hex>` line, unwrapping performs no integrity
verification at all: the v2 result is exactly decode-then-gunzip and
the v3 result depends only on the key-derivation, decryption and
gunzip primitives (never on `sha256`), and neither can fail with the
`checksumMismatch` error — corruption surfaces only as a gunzip
failure (`corruptPayload`) or an authentication failure. -/
theorem c9_no_integrity_without_header :
    (∀ (P Q : CryptoPrims) content, P.gunzip = Q.gunzip →
      scanShaV2 (splitNL content) none = none →
      decompress P content = decompress Q content) ∧
    (∀ (P : CryptoPrims) content exp act,
      scanShaV2 (splitNL content) none = none →
      decompress P content ≠ .error (.checksumMismatch exp act)) ∧
    (∀ (P : CryptoPrims) content b64,
      scanShaV2 (splitNL content) none = none →
      extractPayload (splitNL content) payloadStart payloadEnd
        oldV2Start oldV2End = some b64 →
      decompress P content =
        (match P.gunzip (b64Decode b64) with
         | none => Except.error .corruptPayload
         | some s => Except.ok s)) ∧
    (∀ (P Q : CryptoPrims) content pw, P.pbkdf2 = Q.pbkdf2 →
      P.aesgcmDec = Q.aesgcmDec → P.gunzip = Q.gunzip →
      (scanIterSha (splitNL content) 100000 none).2 = none →
      decrypt P content pw = decrypt Q content pw) ∧
    (∀ (P : CryptoPrims) content pw exp act,
      (scanIterSha (splitNL content) 100000 none).2 = none →
      decrypt P content pw ≠ .error (.checksumMismatch exp act)) := by
  have hv2 : ∀ (P : CryptoPrims) content,
      scanShaV2 (splitNL content) none = none →
      decompress P content =
        (match extractPayload (splitNL content) payloadStart payloadEnd
            oldV2Start oldV2End with
         | none => Except.error .missingPayloadMarkersV2
         | some b64 =>
           match P.gunzip (b64Decode b64) with
           | none => Except.error .corruptPayload
           | some s => Except.ok s) := by
    intro P content hS
    cases hX : extractPayload (splitNL content) payloadStart payloadEnd
        oldV2Start oldV2End with
    | none =>
      simp only [decompress]
      rw [hX]
    | some b64 =>
      rw [decompress_reduction P content b64 hX hS]
  have hv3 : ∀ (P : CryptoPrims) content pw,
      (scanIterSha (splitNL content) 100000 none).2 = none →
      decrypt P content pw =
        (if isEncrypted content = false then .error .notEncrypted
         else
          match extractPayload (splitNL content) payloadStart payloadEnd
              oldV3Start oldV3End with
          | none => Except.error .missingPayloadMarkersV3
          | some b64 =>
            decryptBody P pw (scanIterSha (splitNL content) 100000 none).1
              (b64Decode b64)) := by
    intro P content pw hS
    by_cases hE : isEncrypted content = false
    · rw [decrypt, if_pos hE, if_pos hE]
    · rw [if_neg hE]
      simp only [Bool.not_eq_false] at hE
      cases hX : extractPayload (splitNL content) payloadStart payloadEnd
          oldV3Start oldV3End with
      | none =>
        simp only [decrypt]
        rw [if_neg (by simp [hE]), hX]
      | some b64 =>
        rw [decrypt_reduction P content pw b64 hE hX hS]
  refine ⟨?_, ?_, ?_, ?_, ?_⟩
  · intro P Q content hg hS
    rw [hv2 P content hS, hv2 Q content hS, hg]
  · intro P content exp act hS
    rw [hv2 P content hS]
    cases extractPayload (splitNL content) payloadStart payloadEnd
        oldV2Start oldV2End with
    | none => simp
    | some b64 =>
      dsimp only
      cases P.gunzip (b64Decode b64) <;> simp
  · intro P content b64 hS hX
    exact decompress_reduction P content b64 hX hS
  · intro P Q content pw hp ha hg hS
    rw [hv3 P content pw hS, hv3 Q content pw hS]
    cases extractPayload (splitNL content) payloadStart payloadEnd
        oldV3Start oldV3End with
    | none => rfl
    | some b64 =>
      dsimp only
      rw [decryptBody, decryptBody, hp, ha, hg]
  · intro P content pw exp act hS
    rw [hv3 P content pw hS]
    by_cases hE : isEncrypted content = false
    · rw [if_pos hE]
      simp
    · rw [if_neg hE]
      split
      · simp
      · simp only [decryptBody]
        split
        · simp
        · split
          · simp
          · split <;> simp

/-- A minimal v2 archive with no `# sha256:` header line. -/
def noShaV2 : String :=
  "# --- SLURP v2 (compressed) ---\n--- PAYLOAD ---\nAAAA\n--- END PAYLOAD ---"

/-- Witness instantiating every conjunct of the C9 theorem (`shortV3`
has no checksum line either). -/
theorem c9_no_integrity_without_header_witness :
    decompress constPrims noShaV2 = decompress constPrims noShaV2 ∧
    decompress constPrims noShaV2 ≠ .error (.checksumMismatch "e" "a") ∧
    decompress constPrims noShaV2 =
      (match constPrims.gunzip (b64Decode "AAAA") with
       | none => Except.error .corruptPayload
       | some s => Except.ok s) ∧
    decrypt constPrims shortV3 "pw" = decrypt constPrims shortV3 "pw" ∧
    decrypt constPrims shortV3 "pw" ≠ .error (.checksumMismatch "e" "a") :=
  ⟨c9_no_integrity_without_header.1 constPrims constPrims noShaV2 rfl
      (by decide),
   c9_no_integrity_without_header.2.1 constPrims noShaV2 "e" "a" (by decide),
   c9_no_integrity_without_header.2.2.1 constPrims noShaV2 "AAAA" (by decide)
      (by decide),
   c9_no_integrity_without_header.2.2.2.1 constPrims constPrims shortV3 "pw"
      rfl rfl rfl (by decide),
   c9_no_integrity_without_header.2.2.2.2 constPrims shortV3 "pw" "e" "a"
      (by decide)⟩

/-! ## Prefix-mismatch and payload-extraction machinery -/

theorem prefix_within {α : Type} {pre b t : List α} (h : pre <+: b ++ t)
    (hl : pre.length ≤ b.length) : pre <+: b := by
  rcases h with ⟨r, hr⟩
  refine ⟨b.drop pre.length, ?_⟩
  have h1 : (b ++ t).take pre.length = pre := by
    rw [← hr, List.take_append_eq_append_take, List.take_length]
    have hz : pre.length - pre.length = 0 := by omega
    rw [hz, List.take_zero, List.append_nil]
  have h2 : (b ++ t).take pre.length = b.take pre.length := by
    rw [List.take_append_eq_append_take]
    have hz : pre.length - b.length = 0 := by omega
    rw [hz, List.take_zero, List.append_nil]
  have hb : b.take pre.length = pre := by rw [← h2, h1]
  conv_rhs => rw [← List.take_append_drop pre.length b]
  rw [hb]

theorem prefix_eq_of_length {α : Type} {p1 p2 l : List α} (h1 : p1 <+: l)
    (h2 : p2 <+: l) (hl : p1.length = p2.length) : p1 = p2 := by
  rw [List.prefix_iff_eq_take] at h1 h2
  rw [h1, h2, hl]

theorem prefix_mismatch {pre b x : List Char} (k : Nat)
    (hkp : k ≤ pre.length) (hkb : k ≤ b.length)
    (hne : pre.take k ≠ b.take k) : ¬ (pre <+: b ++ x) := by
  intro h
  apply hne
  apply prefix_eq_of_length
  · exact (List.take_prefix k pre).trans h
  · exact (List.take_prefix k b).trans (List.prefix_append b x)
  · rw [List.length_take, List.length_take]
    omega

/-- Two strings differ when fixed-length prefixes of their data
differ. -/
theorem strMk_append_ne {b : List Char} (x : List Char) {c : String}
    (k : Nat) (hkb : k ≤ b.length) (hkc : k ≤ c.data.length)
    (hne : b.take k ≠ c.data.take k) : (⟨b ++ x⟩ : String) ≠ c := by
  intro h
  apply hne
  have hd : b ++ x = c.data := congrArg String.data h
  rw [← hd, List.take_append_eq_append_take]
  have hz : k - b.length = 0 := by omega
  rw [hz, List.take_zero, List.append_nil]

theorem idxOf?_append {pre : List String} {m : String} (post : List String)
    (h : m ∉ pre) : idxOf? (pre ++ m :: post) m = some pre.length := by
  induction pre with
  | nil => simp [idxOf?]
  | cons a l ih =>
    rw [List.cons_append, idxOf?]
    rw [if_neg (by intro he; exact h (by simp [he]))]
    rw [ih (by intro hm; exact h (by simp [hm]))]
    rfl

theorem extractPayload_mk (pre chunks : List String) (oS oE : String)
    (hpre : payloadStart ∉ pre) (hch : payloadEnd ∉ chunks) :
    extractPayload (pre ++ payloadStart :: (chunks ++ [payloadEnd, ""]))
      payloadStart payloadEnd oS oE = some (joinAll chunks) := by
  have hstart : idxOf? (pre ++ payloadStart :: (chunks ++ [payloadEnd, ""]))
      payloadStart = some pre.length := idxOf?_append _ hpre
  have hdrop : (pre ++ payloadStart :: (chunks ++ [payloadEnd, ""])).drop
      (pre.length + 1) = chunks ++ [payloadEnd, ""] := by
    have hsh : pre ++ payloadStart :: (chunks ++ [payloadEnd, ""]) =
        (pre ++ [payloadStart]) ++ (chunks ++ [payloadEnd, ""]) := by
      simp
    have hlen : (pre ++ [payloadStart]).length = pre.length + 1 := by
      simp
    rw [hsh, ← hlen, List.drop_left]
  have hend : idxOfFrom? (pre ++ payloadStart :: (chunks ++ [payloadEnd, ""]))
      payloadEnd (pre.length + 1) = some (chunks.length + (pre.length + 1)) := by
    rw [idxOfFrom?, hdrop]
    have h2 : chunks ++ [payloadEnd, ""] = chunks ++ payloadEnd :: [""] := rfl
    rw [h2, idxOf?_append _ hch]
    rfl
  rw [extractPayload]
  rw [hstart]
  dsimp only
  rw [hend]
  simp only [Option.map_some', sliceL]
  congr 1
  rw [hdrop]
  have h3 : chunks.length + (pre.length + 1) - (pre.length + 1) =
      chunks.length := by omega
  rw [h3]
  rw [List.take_left' rfl]

/-- `joinAll` over mapped chunks recovers the chunked characters. -/
theorem joinAll_chunks (l : List Char) :
    joinAll ((chunk76 l).map (⟨·⟩)) = ⟨l⟩ := by
  rw [joinAll, List.map_map]
  have hcomp : (String.data ∘ fun d : List Char => (⟨d⟩ : String)) = id :=
    funext (fun _ => rfl)
  rw [hcomp, List.map_id, chunk76_flatten]

/-! ## Matcher facts for constructed header lines -/

/-- 64 lowercase hex characters — the shape of a SHA-256 hex digest. -/
def Hex64 (s : String) : Prop :=
  s.data.length = 64 ∧ s.data.all (isHexChar ·) = true

instance (s : String) : Decidable (Hex64 s) := by
  rw [Hex64]
  infer_instance

theorem isHexChar_not_ws {c : Char} (h : isHexChar c = true) :
    isWsChar c = false := by
  simp only [isHexChar, decide_eq_true_eq] at h
  simp only [isWsChar, decide_eq_false_iff_not]
  rintro (rfl | rfl | rfl | rfl | rfl | rfl) <;> revert h <;> decide

theorem isHexChar_ne_nl {c : Char} (h : isHexChar c = true) : c ≠ '\n' := by
  rintro rfl
  revert h
  decide

theorem shaMatch_none_append (b x : List Char) (k : Nat)
    (hkp : k ≤ 9) (hkb : k ≤ b.length)
    (hne : "# sha256:".data.take k ≠ b.take k) :
    shaMatch ⟨b ++ x⟩ = none := by
  have h9 : ("# sha256:".data).length = 9 := by decide
  rw [shaMatch, if_neg]
  exact prefix_mismatch k (by omega) hkb hne

theorem iterMatch_none_append (b x : List Char) (k : Nat)
    (hkp : k ≤ 13) (hkb : k ≤ b.length)
    (hne : "# iterations:".data.take k ≠ b.take k) :
    iterMatch ⟨b ++ x⟩ = none := by
  have h13 : ("# iterations:".data).length = 13 := by decide
  rw [iterMatch, if_neg]
  exact prefix_mismatch k (by omega) hkb hne

theorem shaMatch_none_head {l : String} (h : l.data.head? ≠ some '#') :
    shaMatch l = none := by
  rw [shaMatch, if_neg]
  rintro ⟨t, ht⟩
  apply h
  rw [← ht]
  rfl

theorem iterMatch_none_head {l : String} (h : l.data.head? ≠ some '#') :
    iterMatch l = none := by
  rw [iterMatch, if_neg]
  rintro ⟨t, ht⟩
  apply h
  rw [← ht]
  rfl

theorem dropWhile_ws_hex {l : List Char} (hl : l ≠ [])
    (h : l.all (isHexChar ·) = true) : l.dropWhile (isWsChar ·) = l := by
  cases l with
  | nil => simp at hl
  | cons c cs =>
    rw [List.dropWhile_cons,
      if_neg (by
        rw [isHexChar_not_ws (by simp [List.all_cons] at h; exact h.1)]
        simp)]

theorem shaMatch_mk_sha {ck : String} (h : Hex64 ck) :
    shaMatch ⟨"# sha256: ".data ++ ck.data⟩ = some ck := by
  obtain ⟨hlen, hhex⟩ := h
  have hsh : ("# sha256: ".data : List Char) =
      "# sha256:".data ++ [' '] := by decide
  have hpre : "# sha256:".data <+: ("# sha256: ".data ++ ck.data) := by
    rw [hsh, List.append_assoc]
    exact List.prefix_append _ _
  rw [shaMatch, if_pos hpre]
  have hdrop9 : (("# sha256: ".data ++ ck.data).drop 9) = ' ' :: ck.data := by
    rw [hsh, List.append_assoc]
    have h9 : ("# sha256:".data).length = 9 := by decide
    rw [← h9, List.drop_left]
    rfl
  rw [hdrop9]
  have hws : isWsChar ' ' = true := by decide
  rw [List.dropWhile_cons, if_pos hws]
  rw [dropWhile_ws_hex (by intro hc; rw [hc] at hlen; simp at hlen) hhex]
  have hcond : 64 ≤ ck.data.length ∧
      ((ck.data.take 64).all (isHexChar ·)) = true := by
    constructor
    · omega
    · rw [List.take_of_length_le (by omega)]
      exact hhex
  rw [if_pos hcond]
  rw [List.take_of_length_le (by omega)]

theorem iterMatch_mk (n : Nat) :
    iterMatch ⟨"# iterations: ".data ++ natDigits n⟩ =
      some (digitsToNat (natDigits n)) := by
  have hit : ("# iterations: ".data : List Char) =
      "# iterations:".data ++ [' '] := by decide
  have hpre : "# iterations:".data <+: ("# iterations: ".data ++ natDigits n) := by
    rw [hit, List.append_assoc]
    exact List.prefix_append _ _
  rw [iterMatch, if_pos hpre]
  have hdrop : (("# iterations: ".data ++ natDigits n).drop 13) =
      ' ' :: natDigits n := by
    rw [hit, List.append_assoc]
    have h13 : ("# iterations:".data).length = 13 := by decide
    rw [← h13, List.drop_left]
    rfl
  rw [hdrop]
  have hws : isWsChar ' ' = true := by decide
  rw [List.dropWhile_cons, if_pos hws]
  have hdigs : (natDigits n).dropWhile (isWsChar ·) = natDigits n := by
    cases hd : natDigits n with
    | nil => simp
    | cons c cs =>
      rw [List.dropWhile_cons, if_neg (by
        rw [isDigitChar_not_ws (natDigits_all_digits n c (by rw [hd]; simp))]
        simp)]
  have htw : ((natDigits n).dropWhile (isWsChar ·)).takeWhile
      (isDigitChar ·) = natDigits n := by
    rw [hdigs]
    exact takeWhile_all _ _ (natDigits_all_digits n)
  rw [htw]
  rw [if_neg (by simp [natDigits_ne_nil n])]

/-! ## No-newline and scan-step helper lemmas -/

theorem no_nl_append {b x : List Char} (hb : '\n' ∉ b) (hx : '\n' ∉ x) :
    '\n' ∉ b ++ x := by
  intro h
  rcases List.mem_append.mp h with h | h
  · exact hb h
  · exact hx h

theorem natDigits_no_nl (n : Nat) : '\n' ∉ natDigits n := by
  intro h
  exact isDigitChar_ne_nl (natDigits_all_digits n _ h) rfl

theorem intStr_no_nl (i : Int) : '\n' ∉ (intStr i).data := by
  rw [intStr]
  split
  · show '\n' ∉ '-' :: natDigits i.natAbs
    intro h
    rcases List.mem_cons.mp h with h | h
    · exact absurd h.symm (by decide)
    · exact natDigits_no_nl _ h
  · exact natDigits_no_nl _

theorem ratioD_no_nl (o c : Nat) : '\n' ∉ ratioD o c := by
  rw [ratioD]
  split
  · decide
  · exact no_nl_append (intStr_no_nl _) (by decide)

theorem hex64_no_nl {ck : String} (h : Hex64 ck) : '\n' ∉ ck.data := by
  intro hm
  exact isHexChar_ne_nl (by
    have := h.2
    rw [List.all_eq_true] at this
    exact this _ hm) rfl

/-- All the facts needed about one base64 chunk line. -/
theorem chunkLine_facts (bs : List Nat) :
    ∀ x ∈ (chunk76 (b64EncodeD bs)).map (fun d => (⟨d⟩ : String)),
      '\n' ∉ x.data ∧ shaMatch x = none ∧ iterMatch x = none ∧
      x ≠ payloadStart ∧ x ≠ payloadEnd ∧ x ≠ oldV2Start ∧ x ≠ oldV3Start := by
  intro x hx
  rcases List.mem_map.mp hx with ⟨ch, hch, rfl⟩
  have hsub : ∀ c ∈ ch, c ∈ b64EncodeD bs := chunk76_mem_subset _ ch hch
  have hnn : '\n' ∉ ch := fun hm => b64EncodeD_no_nl bs _ (hsub _ hm) rfl
  have hnsp : ' ' ∉ ch := fun hm => b64EncodeD_no_space bs _ (hsub _ hm) rfl
  have hnh : '#' ∉ ch := fun hm => b64EncodeD_no_hash bs _ (hsub _ hm) rfl
  have hhead : (⟨ch⟩ : String).data.head? ≠ some '#' := by
    show ch.head? ≠ some '#'
    cases ch with
    | nil => simp
    | cons c cs =>
      intro hc
      have hc1 : c = '#' := Option.some.inj hc
      subst hc1
      exact hnh (List.mem_cons_self _ _)
  refine ⟨hnn, shaMatch_none_head hhead, iterMatch_none_head hhead,
    ?_, ?_, ?_, ?_⟩
  all_goals
    intro he
    apply hnsp
    have hd : ch = _ := congrArg String.data he
    rw [hd]
    decide

/-- A `#`-headed constructed line differs from every payload marker. -/
theorem hashLine_ne_markers {b : List Char} (x : List Char)
    (hb : b.take 1 = ['#']) :
    (⟨b ++ x⟩ : String) ≠ payloadStart ∧
    (⟨b ++ x⟩ : String) ≠ payloadEnd ∧
    (⟨b ++ x⟩ : String) ≠ oldV2Start ∧
    (⟨b ++ x⟩ : String) ≠ oldV3Start := by
  have hb1 : 1 ≤ b.length := by
    cases b
    · simp at hb
    · simp
  refine ⟨?_, ?_, ?_, ?_⟩
  · exact strMk_append_ne x 1 hb1 (by decide) (by rw [hb]; decide)
  · exact strMk_append_ne x 1 hb1 (by decide) (by rw [hb]; decide)
  · exact strMk_append_ne x 1 hb1 (by decide) (by rw [hb]; decide)
  · exact strMk_append_ne x 1 hb1 (by decide) (by rw [hb]; decide)

theorem scanShaV2_break {l : String} (rest : List String) (acc : Option String)
    (h : l = payloadStart ∨ l = oldV2Start) :
    scanShaV2 (l :: rest) acc = acc := by
  rw [scanShaV2, if_pos h]

theorem scanShaV2_step {l : String} (rest : List String) (acc : Option String)
    (hnb : ¬(l = payloadStart ∨ l = oldV2Start)) (hm : shaMatch l = none) :
    scanShaV2 (l :: rest) acc = scanShaV2 rest acc := by
  rw [scanShaV2, if_neg hnb, hm]

theorem scanShaV2_step_set {l : String} (rest : List String)
    (acc : Option String) (v : String)
    (hnb : ¬(l = payloadStart ∨ l = oldV2Start)) (hm : shaMatch l = some v) :
    scanShaV2 (l :: rest) acc = scanShaV2 rest (some v) := by
  rw [scanShaV2, if_neg hnb, hm]

theorem scanIterSha_step {l : String} (rest : List String) (it : Nat)
    (sha : Option String) (hi : iterMatch l = none) (hs : shaMatch l = none) :
    scanIterSha (l :: rest) it sha = scanIterSha rest it sha := by
  rw [scanIterSha, hi, hs]

theorem scanIterSha_step_sha {l : String} (rest : List String) (it : Nat)
    (sha : Option String) (v : String) (hi : iterMatch l = none)
    (hs : shaMatch l = some v) :
    scanIterSha (l :: rest) it sha = scanIterSha rest it (some v) := by
  rw [scanIterSha, hi, hs]

theorem scanIterSha_step_iter {l : String} (rest : List String) (it : Nat)
    (sha : Option String) (v : Nat) (hi : iterMatch l = some v)
    (hs : shaMatch l = none) :
    scanIterSha (l :: rest) it sha = scanIterSha rest v sha := by
  rw [scanIterSha, hi, hs]

theorem scanIterSha_all_none (ls : List String) (it : Nat)
    (sha : Option String)
    (h : ∀ l ∈ ls, iterMatch l = none ∧ shaMatch l = none) :
    scanIterSha ls it sha = (it, sha) := by
  induction ls with
  | nil => rfl
  | cons l rest ih =>
    rw [scanIterSha_step rest it sha (h l (by simp)).1 (h l (by simp)).2]
    exact ih (fun x hx => h x (by simp [hx]))

theorem scanIterSha_append (ls1 ls2 : List String) (it : Nat)
    (sha : Option String) :
    scanIterSha (ls1 ++ ls2) it sha =
      scanIterSha ls2 (scanIterSha ls1 it sha).1 (scanIterSha ls1 it sha).2 := by
  induction ls1 generalizing it sha with
  | nil => rfl
  | cons l rest ih =>
    rw [List.cons_append, scanIterSha, scanIterSha]
    exact ih _ _

theorem scanShaV2_append_no (pre : List String) (X : List String)
    (acc : Option String)
    (h : ∀ l ∈ pre, ¬(l = payloadStart ∨ l = oldV2Start) ∧ shaMatch l = none) :
    scanShaV2 (pre ++ X) acc = scanShaV2 X acc := by
  induction pre with
  | nil => rfl
  | cons l rest ih =>
    rw [List.cons_append,
      scanShaV2_step _ _ (h l (by simp)).1 (h l (by simp)).2]
    exact ih (fun x hx => h x (by simp [hx]))

theorem scanIterSha_skip (pre X : List String) (it : Nat)
    (sha : Option String)
    (h : ∀ l ∈ pre, iterMatch l = none ∧ shaMatch l = none) :
    scanIterSha (pre ++ X) it sha = scanIterSha X it sha := by
  rw [scanIterSha_append, scanIterSha_all_none pre it sha h]

/-- With-checksum variants of the wrapper reductions: the recomputed
digest agrees with the scanned one, so the verification passes. -/
theorem decrypt_reduction_ck (P : CryptoPrims) (content pw b64 ck : String)
    (hE : isEncrypted content = true)
    (hX : extractPayload (splitNL content) payloadStart payloadEnd
      oldV3Start oldV3End = some b64)
    (hS : (scanIterSha (splitNL content) 100000 none).2 = some ck)
    (hck : P.sha256 (b64Decode b64) = ck) :
    decrypt P content pw =
      decryptBody P pw (scanIterSha (splitNL content) 100000 none).1
        (b64Decode b64) := by
  simp only [decrypt]
  rw [if_neg (by simp [hE])]
  rw [hX]
  dsimp only
  rw [hS]
  dsimp only
  rw [if_neg (by simp [hck])]

theorem decompress_reduction_ck (P : CryptoPrims) (content b64 ck : String)
    (hX : extractPayload (splitNL content) payloadStart payloadEnd
      oldV2Start oldV2End = some b64)
    (hS : scanShaV2 (splitNL content) none = some ck)
    (hck : P.sha256 (b64Decode b64) = ck) :
    decompress P content =
      (match P.gunzip (b64Decode b64) with
       | none => Except.error .corruptPayload
       | some s => Except.ok s) := by
  simp only [decompress]
  rw [hX]
  dsimp only
  rw [hS]
  dsimp only
  rw [if_neg (by simp [hck])]

theorem shaMatch_none_append3 (a m s : List Char) (k : Nat) (hk : k ≤ 9)
    (hkb : k ≤ a.length) (hne : "# sha256:".data.take k ≠ a.take k) :
    shaMatch ⟨a ++ m ++ s⟩ = none := by
  have h := shaMatch_none_append a (m ++ s) k hk hkb hne
  rw [← List.append_assoc] at h
  exact h

theorem iterMatch_none_append3 (a m s : List Char) (k : Nat) (hk : k ≤ 13)
    (hkb : k ≤ a.length) (hne : "# iterations:".data.take k ≠ a.take k) :
    iterMatch ⟨a ++ m ++ s⟩ = none := by
  have h := iterMatch_none_append a (m ++ s) k hk hkb hne
  rw [← List.append_assoc] at h
  exact h

theorem hashLine_ne_markers3 (a m s : List Char) (hb : a.take 1 = ['#']) :
    (⟨a ++ m ++ s⟩ : String) ≠ payloadStart ∧
    (⟨a ++ m ++ s⟩ : String) ≠ payloadEnd ∧
    (⟨a ++ m ++ s⟩ : String) ≠ oldV2Start ∧
    (⟨a ++ m ++ s⟩ : String) ≠ oldV3Start := by
  have h := hashLine_ne_markers (b := a) (m ++ s) hb
  rw [← List.append_assoc] at h
  exact h

/-- The compression half of the layered round-trip. -/
theorem decompress_compress_ok (P : CryptoPrims) (A : String)
    (nameOpt : Option String)
    (hname : '\n' ∉ (resolveName nameOpt).data)
    (hgz : P.gunzip (P.gzip A) = some A)
    (hgzb : ∀ b ∈ P.gzip A, b < 256)
    (hck : Hex64 (P.sha256 (P.gzip A))) :
    decompress P (compress P A nameOpt) = .ok A := by
  have hcomp : compress P A nameOpt = joinNL
      ([v2Marker, "#",
        "# This is a compressed slurp archive.",
        "# The payload is a gzip-compressed, base64-encoded slurp v4 archive.",
        "#",
        ⟨"# name: ".data ++ (resolveName nameOpt).data⟩,
        ⟨"# original: ".data ++ natDigits A.utf8ByteSize ++ " bytes".data⟩,
        ⟨"# compressed: ".data ++ natDigits (b64EncodeD (P.gzip A)).length ++
          " bytes".data⟩,
        ⟨"# ratio: ".data ++
          ratioD A.utf8ByteSize (b64EncodeD (P.gzip A)).length⟩,
        ⟨"# sha256: ".data ++ (P.sha256 (P.gzip A)).data⟩,
        "", payloadStart] ++
       (chunk76 (b64EncodeD (P.gzip A))).map (fun d => (⟨d⟩ : String)) ++
       [payloadEnd, ""]) := by
    simp only [compress]
  have hsplit : splitNL (compress P A nameOpt) =
      [v2Marker, "#",
        "# This is a compressed slurp archive.",
        "# The payload is a gzip-compressed, base64-encoded slurp v4 archive.",
        "#",
        ⟨"# name: ".data ++ (resolveName nameOpt).data⟩,
        ⟨"# original: ".data ++ natDigits A.utf8ByteSize ++ " bytes".data⟩,
        ⟨"# compressed: ".data ++ natDigits (b64EncodeD (P.gzip A)).length ++
          " bytes".data⟩,
        ⟨"# ratio: ".data ++
          ratioD A.utf8ByteSize (b64EncodeD (P.gzip A)).length⟩,
        ⟨"# sha256: ".data ++ (P.sha256 (P.gzip A)).data⟩,
        "", payloadStart] ++
       (chunk76 (b64EncodeD (P.gzip A))).map (fun d => (⟨d⟩ : String)) ++
       [payloadEnd, ""] := by
    rw [hcomp]
    apply splitNL_joinNL (by simp)
    intro x hx
    simp only [List.mem_append, List.mem_cons, List.not_mem_nil, or_false,
      List.mem_singleton] at hx
    rcases hx with ((rfl | rfl | rfl | rfl | rfl | rfl | rfl | rfl | rfl |
        rfl | rfl | rfl) | hx) | (rfl | rfl)
    · decide
    · decide
    · decide
    · decide
    · decide
    · exact no_nl_append (by decide) hname
    · exact no_nl_append (no_nl_append (by decide) (natDigits_no_nl _))
        (by decide)
    · exact no_nl_append (no_nl_append (by decide) (natDigits_no_nl _))
        (by decide)
    · exact no_nl_append (by decide) (ratioD_no_nl _ _)
    · exact no_nl_append (by decide) (hex64_no_nl hck)
    · decide
    · decide
    · exact (chunkLine_facts _ x hx).1
    · decide
    · decide
  have hX : extractPayload (splitNL (compress P A nameOpt)) payloadStart
      payloadEnd oldV2Start oldV2End = some ⟨b64EncodeD (P.gzip A)⟩ := by
    rw [hsplit]
    have hshape : ([v2Marker, "#",
        "# This is a compressed slurp archive.",
        "# The payload is a gzip-compressed, base64-encoded slurp v4 archive.",
        "#",
        (⟨"# name: ".data ++ (resolveName nameOpt).data⟩ : String),
        ⟨"# original: ".data ++ natDigits A.utf8ByteSize ++ " bytes".data⟩,
        ⟨"# compressed: ".data ++ natDigits (b64EncodeD (P.gzip A)).length ++
          " bytes".data⟩,
        ⟨"# ratio: ".data ++
          ratioD A.utf8ByteSize (b64EncodeD (P.gzip A)).length⟩,
        ⟨"# sha256: ".data ++ (P.sha256 (P.gzip A)).data⟩,
        "", payloadStart] ++
       (chunk76 (b64EncodeD (P.gzip A))).map (fun d => (⟨d⟩ : String)) ++
       [payloadEnd, ""]) =
        ([v2Marker, "#",
          "# This is a compressed slurp archive.",
          "# The payload is a gzip-compressed, base64-encoded slurp v4 archive.",
          "#",
          ⟨"# name: ".data ++ (resolveName nameOpt).data⟩,
          ⟨"# original: ".data ++ natDigits A.utf8ByteSize ++ " bytes".data⟩,
          ⟨"# compressed: ".data ++
            natDigits (b64EncodeD (P.gzip A)).length ++ " bytes".data⟩,
          ⟨"# ratio: ".data ++
            ratioD A.utf8ByteSize (b64EncodeD (P.gzip A)).length⟩,
          ⟨"# sha256: ".data ++ (P.sha256 (P.gzip A)).data⟩,
          ""] ++ payloadStart ::
          ((chunk76 (b64EncodeD (P.gzip A))).map (fun d => (⟨d⟩ : String)) ++
            [payloadEnd, ""])) := by
      simp
    rw [hshape]
    rw [extractPayload_mk _ _ _ _ ?hpre ?hch]
    case hpre =>
      intro hmem
      simp only [List.mem_cons, List.not_mem_nil, or_false,
        List.mem_singleton] at hmem
      rcases hmem with h | h | h | h | h | h | h | h | h | h | h
      · exact absurd h (by decide)
      · exact absurd h (by decide)
      · exact absurd h (by decide)
      · exact absurd h (by decide)
      · exact absurd h (by decide)
      · exact absurd h.symm (hashLine_ne_markers _ (by decide)).1
      · exact absurd h.symm (hashLine_ne_markers3 _ _ _ (by decide)).1
      · exact absurd h.symm (hashLine_ne_markers3 _ _ _ (by decide)).1
      · exact absurd h.symm (hashLine_ne_markers _ (by decide)).1
      · exact absurd h.symm (hashLine_ne_markers _ (by decide)).1
      · exact absurd h (by decide)
    case hch =>
      intro hmem
      exact (chunkLine_facts _ payloadEnd hmem).2.2.2.2.1 rfl
    rw [joinAll_chunks]
  have hsha : scanShaV2 (splitNL (compress P A nameOpt)) none =
      some (P.sha256 (P.gzip A)) := by
    rw [hsplit]
    have hform : ([v2Marker, "#",
        "# This is a compressed slurp archive.",
        "# The payload is a gzip-compressed, base64-encoded slurp v4 archive.",
        "#",
        (⟨"# name: ".data ++ (resolveName nameOpt).data⟩ : String),
        ⟨"# original: ".data ++ natDigits A.utf8ByteSize ++ " bytes".data⟩,
        ⟨"# compressed: ".data ++ natDigits (b64EncodeD (P.gzip A)).length ++
          " bytes".data⟩,
        ⟨"# ratio: ".data ++
          ratioD A.utf8ByteSize (b64EncodeD (P.gzip A)).length⟩,
        ⟨"# sha256: ".data ++ (P.sha256 (P.gzip A)).data⟩,
        "", payloadStart] ++
       (chunk76 (b64EncodeD (P.gzip A))).map (fun d => (⟨d⟩ : String)) ++
       [payloadEnd, ""]) =
      ([v2Marker, "#",
        "# This is a compressed slurp archive.",
        "# The payload is a gzip-compressed, base64-encoded slurp v4 archive.",
        "#",
        ⟨"# name: ".data ++ (resolveName nameOpt).data⟩,
        ⟨"# original: ".data ++ natDigits A.utf8ByteSize ++ " bytes".data⟩,
        ⟨"# compressed: ".data ++ natDigits (b64EncodeD (P.gzip A)).length ++
          " bytes".data⟩,
        ⟨"# ratio: ".data ++
          ratioD A.utf8ByteSize (b64EncodeD (P.gzip A)).length⟩] ++
       ((⟨"# sha256: ".data ++ (P.sha256 (P.gzip A)).data⟩ : String) ::
        "" :: payloadStart ::
        ((chunk76 (b64EncodeD (P.gzip A))).map (fun d => (⟨d⟩ : String)) ++
          [payloadEnd, ""]))) := by
      simp
    rw [hform]
    rw [scanShaV2_append_no _ _ _ ?hfacts]
    case hfacts =>
      intro l hl
      simp only [List.mem_cons, List.not_mem_nil, or_false] at hl
      rcases hl with rfl | rfl | rfl | rfl | rfl | rfl | rfl | rfl | rfl
      · exact ⟨by decide, by decide⟩
      · exact ⟨by decide, by decide⟩
      · exact ⟨by decide, by decide⟩
      · exact ⟨by decide, by decide⟩
      · exact ⟨by decide, by decide⟩
      · refine ⟨?_, shaMatch_none_append ("# name: ".data)
          (resolveName nameOpt).data 3 (by decide) (by decide) (by decide)⟩
        have h := hashLine_ne_markers (b := "# name: ".data)
          (resolveName nameOpt).data (by decide)
        rintro (he | he)
        · exact h.1 he
        · exact h.2.2.1 he
      · refine ⟨?_, shaMatch_none_append3 ("# original: ".data)
          (natDigits A.utf8ByteSize) (" bytes".data) 3 (by decide) (by decide)
          (by decide)⟩
        have h := hashLine_ne_markers3 "# original: ".data
          (natDigits A.utf8ByteSize) " bytes".data (by decide)
        rintro (he | he)
        · exact h.1 he
        · exact h.2.2.1 he
      · refine ⟨?_, shaMatch_none_append3 ("# compressed: ".data)
          (natDigits (b64EncodeD (P.gzip A)).length) (" bytes".data) 3
          (by decide) (by decide) (by decide)⟩
        have h := hashLine_ne_markers3 "# compressed: ".data
          (natDigits (b64EncodeD (P.gzip A)).length) " bytes".data (by decide)
        rintro (he | he)
        · exact h.1 he
        · exact h.2.2.1 he
      · refine ⟨?_, shaMatch_none_append ("# ratio: ".data)
          (ratioD A.utf8ByteSize (b64EncodeD (P.gzip A)).length) 3
          (by decide) (by decide) (by decide)⟩
        have h := hashLine_ne_markers (b := "# ratio: ".data)
          (ratioD A.utf8ByteSize (b64EncodeD (P.gzip A)).length) (by decide)
        rintro (he | he)
        · exact h.1 he
        · exact h.2.2.1 he
    rw [scanShaV2_step_set _ _ (P.sha256 (P.gzip A)) (by
        have h := hashLine_ne_markers (b := "# sha256: ".data)
          (P.sha256 (P.gzip A)).data (by decide)
        rintro (he | he)
        · exact h.1 he
        · exact h.2.2.1 he)
      (shaMatch_mk_sha hck)]
    rw [scanShaV2_step _ _ (by decide) (by decide)]
    exact scanShaV2_break _ _ (Or.inl rfl)
  have hdec : b64Decode ⟨b64EncodeD (P.gzip A)⟩ = P.gzip A := by
    rw [b64Decode]
    exact b64_roundtrip _ hgzb
  rw [decompress_reduction_ck P _ _ (P.sha256 (P.gzip A)) hX hsha
    (by rw [hdec])]
  rw [hdec, hgz]

/-- The encryption half of the layered round-trip. -/
theorem decrypt_encrypt_ok (P : CryptoPrims) (A pw : String)
    (salt iv ct tag : List Nat) (nameOpt : Option String)
    (hname : '\n' ∉ (resolveName nameOpt).data)
    (hct : (P.aesgcmEnc (P.pbkdf2 pw salt 100000) iv (P.gzip A)).1 = ct)
    (htg : (P.aesgcmEnc (P.pbkdf2 pw salt 100000) iv (P.gzip A)).2 = tag)
    (hs : salt.length = 16) (hi : iv.length = 12) (ht : tag.length = 16)
    (hpb : ∀ b ∈ salt ++ iv ++ tag ++ ct, b < 256)
    (hck : Hex64 (P.sha256 (salt ++ iv ++ tag ++ ct)))
    (hdec : P.aesgcmDec (P.pbkdf2 pw salt 100000) iv ct tag =
      some (P.gzip A))
    (hgz : P.gunzip (P.gzip A) = some A) :
    decrypt P (encrypt P A pw salt iv nameOpt) pw = .ok A := by
  have hcomp : encrypt P A pw salt iv nameOpt = joinNL
      ([v3Marker, "#",
        "# This is an encrypted slurp archive.",
        "# The payload is AES-256-GCM encrypted (PBKDF2 key derivation).",
        "# Use: slurp decrypt <archive> to decrypt.",
        "#",
        ⟨"# name: ".data ++ (resolveName nameOpt).data⟩,
        ⟨"# original: ".data ++ natDigits A.utf8ByteSize ++ " bytes".data⟩,
        ⟨"# encrypted: ".data ++
          natDigits (b64EncodeD (salt ++ iv ++ tag ++ ct)).length ++
          " bytes".data⟩,
        ⟨"# sha256: ".data ++ (P.sha256 (salt ++ iv ++ tag ++ ct)).data⟩,
        ⟨"# iterations: ".data ++ natDigits 100000⟩,
        "", payloadStart] ++
       (chunk76 (b64EncodeD (salt ++ iv ++ tag ++ ct))).map
         (fun d => (⟨d⟩ : String)) ++
       [payloadEnd, ""]) := by
    simp only [encrypt]
    rw [hct, htg]
  have hsplit : splitNL (encrypt P A pw salt iv nameOpt) =
      [v3Marker, "#",
        "# This is an encrypted slurp archive.",
        "# The payload is AES-256-GCM encrypted (PBKDF2 key derivation).",
        "# Use: slurp decrypt <archive> to decrypt.",
        "#",
        ⟨"# name: ".data ++ (resolveName nameOpt).data⟩,
        ⟨"# original: ".data ++ natDigits A.utf8ByteSize ++ " bytes".data⟩,
        ⟨"# encrypted: ".data ++
          natDigits (b64EncodeD (salt ++ iv ++ tag ++ ct)).length ++
          " bytes".data⟩,
        ⟨"# sha256: ".data ++ (P.sha256 (salt ++ iv ++ tag ++ ct)).data⟩,
        ⟨"# iterations: ".data ++ natDigits 100000⟩,
        "", payloadStart] ++
       (chunk76 (b64EncodeD (salt ++ iv ++ tag ++ ct))).map
         (fun d => (⟨d⟩ : String)) ++
       [payloadEnd, ""] := by
    rw [hcomp]
    apply splitNL_joinNL (by simp)
    intro x hx
    simp only [List.mem_append, List.mem_cons, List.not_mem_nil, or_false,
      List.mem_singleton] at hx
    rcases hx with ((rfl | rfl | rfl | rfl | rfl | rfl | rfl | rfl | rfl |
        rfl | rfl | rfl | rfl) | hx) | (rfl | rfl)
    · decide
    · decide
    · decide
    · decide
    · decide
    · decide
    · exact no_nl_append (by decide) hname
    · exact no_nl_append (no_nl_append (by decide) (natDigits_no_nl _))
        (by decide)
    · exact no_nl_append (no_nl_append (by decide) (natDigits_no_nl _))
        (by decide)
    · exact no_nl_append (by decide) (hex64_no_nl hck)
    · exact no_nl_append (by decide) (natDigits_no_nl _)
    · decide
    · decide
    · exact (chunkLine_facts _ x hx).1
    · decide
    · decide
  have hE : isEncrypted (encrypt P A pw salt iv nameOpt) = true := by
    have h0 : lineAt (encrypt P A pw salt iv nameOpt) 0 = some v3Marker := by
      rw [lineAt, hsplit]
      rfl
    simp [isEncrypted, h0]
  have hX : extractPayload (splitNL (encrypt P A pw salt iv nameOpt))
      payloadStart payloadEnd oldV3Start oldV3End =
      some ⟨b64EncodeD (salt ++ iv ++ tag ++ ct)⟩ := by
    rw [hsplit]
    have hshape : ([v3Marker, "#",
        "# This is an encrypted slurp archive.",
        "# The payload is AES-256-GCM encrypted (PBKDF2 key derivation).",
        "# Use: slurp decrypt <archive> to decrypt.",
        "#",
        (⟨"# name: ".data ++ (resolveName nameOpt).data⟩ : String),
        ⟨"# original: ".data ++ natDigits A.utf8ByteSize ++ " bytes".data⟩,
        ⟨"# encrypted: ".data ++
          natDigits (b64EncodeD (salt ++ iv ++ tag ++ ct)).length ++
          " bytes".data⟩,
        ⟨"# sha256: ".data ++ (P.sha256 (salt ++ iv ++ tag ++ ct)).data⟩,
        ⟨"# iterations: ".data ++ natDigits 100000⟩,
        "", payloadStart] ++
       (chunk76 (b64EncodeD (salt ++ iv ++ tag ++ ct))).map
         (fun d => (⟨d⟩ : String)) ++
       [payloadEnd, ""]) =
        ([v3Marker, "#",
          "# This is an encrypted slurp archive.",
          "# The payload is AES-256-GCM encrypted (PBKDF2 key derivation).",
          "# Use: slurp decrypt <archive> to decrypt.",
          "#",
          ⟨"# name: ".data ++ (resolveName nameOpt).data⟩,
          ⟨"# original: ".data ++ natDigits A.utf8ByteSize ++ " bytes".data⟩,
          ⟨"# encrypted: ".data ++
            natDigits (b64EncodeD (salt ++ iv ++ tag ++ ct)).length ++
            " bytes".data⟩,
          ⟨"# sha256: ".data ++ (P.sha256 (salt ++ iv ++ tag ++ ct)).data⟩,
          ⟨"# iterations: ".data ++ natDigits 100000⟩,
          ""] ++ payloadStart ::
          ((chunk76 (b64EncodeD (salt ++ iv ++ tag ++ ct))).map
            (fun d => (⟨d⟩ : String)) ++ [payloadEnd, ""])) := by
      simp
    rw [hshape]
    rw [extractPayload_mk _ _ _ _ ?hpre2 ?hch2]
    case hpre2 =>
      intro hmem
      simp only [List.mem_cons, List.not_mem_nil, or_false,
        List.mem_singleton] at hmem
      rcases hmem with h | h | h | h | h | h | h | h | h | h | h | h
      · exact absurd h (by decide)
      · exact absurd h (by decide)
      · exact absurd h (by decide)
      · exact absurd h (by decide)
      · exact absurd h (by decide)
      · exact absurd h (by decide)
      · exact absurd h.symm (hashLine_ne_markers _ (by decide)).1
      · exact absurd h.symm (hashLine_ne_markers3 _ _ _ (by decide)).1
      · exact absurd h.symm (hashLine_ne_markers3 _ _ _ (by decide)).1
      · exact absurd h.symm (hashLine_ne_markers _ (by decide)).1
      · exact absurd h.symm (hashLine_ne_markers _ (by decide)).1
      · exact absurd h (by decide)
    case hch2 =>
      intro hmem
      exact (chunkLine_facts _ payloadEnd hmem).2.2.2.2.1 rfl
    rw [joinAll_chunks]
  have hscan : scanIterSha (splitNL (encrypt P A pw salt iv nameOpt))
      100000 none =
      (digitsToNat (natDigits 100000),
       some (P.sha256 (salt ++ iv ++ tag ++ ct))) := by
    rw [hsplit]
    have hform : ([v3Marker, "#",
        "# This is an encrypted slurp archive.",
        "# The payload is AES-256-GCM encrypted (PBKDF2 key derivation).",
        "# Use: slurp decrypt <archive> to decrypt.",
        "#",
        (⟨"# name: ".data ++ (resolveName nameOpt).data⟩ : String),
        ⟨"# original: ".data ++ natDigits A.utf8ByteSize ++ " bytes".data⟩,
        ⟨"# encrypted: ".data ++
          natDigits (b64EncodeD (salt ++ iv ++ tag ++ ct)).length ++
          " bytes".data⟩,
        ⟨"# sha256: ".data ++ (P.sha256 (salt ++ iv ++ tag ++ ct)).data⟩,
        ⟨"# iterations: ".data ++ natDigits 100000⟩,
        "", payloadStart] ++
       (chunk76 (b64EncodeD (salt ++ iv ++ tag ++ ct))).map
         (fun d => (⟨d⟩ : String)) ++
       [payloadEnd, ""]) =
      ([v3Marker, "#",
        "# This is an encrypted slurp archive.",
        "# The payload is AES-256-GCM encrypted (PBKDF2 key derivation).",
        "# Use: slurp decrypt <archive> to decrypt.",
        "#",
        ⟨"# name: ".data ++ (resolveName nameOpt).data⟩,
        ⟨"# original: ".data ++ natDigits A.utf8ByteSize ++ " bytes".data⟩,
        ⟨"# encrypted: ".data ++
          natDigits (b64EncodeD (salt ++ iv ++ tag ++ ct)).length ++
          " bytes".data⟩] ++
       ((⟨"# sha256: ".data ++
          (P.sha256 (salt ++ iv ++ tag ++ ct)).data⟩ : String) ::
        (⟨"# iterations: ".data ++ natDigits 100000⟩ : String) ::
        "" :: payloadStart ::
        ((chunk76 (b64EncodeD (salt ++ iv ++ tag ++ ct))).map
          (fun d => (⟨d⟩ : String)) ++ [payloadEnd, ""]))) := by
      simp
    rw [hform]
    rw [scanIterSha_skip _ _ _ _ ?hfacts2]
    case hfacts2 =>
      intro l hl
      simp only [List.mem_cons, List.not_mem_nil, or_false] at hl
      rcases hl with rfl | rfl | rfl | rfl | rfl | rfl | rfl | rfl | rfl
      · exact ⟨by decide, by decide⟩
      · exact ⟨by decide, by decide⟩
      · exact ⟨by decide, by decide⟩
      · exact ⟨by decide, by decide⟩
      · exact ⟨by decide, by decide⟩
      · exact ⟨by decide, by decide⟩
      · exact ⟨iterMatch_none_append ("# name: ".data)
          (resolveName nameOpt).data 3 (by decide) (by decide) (by decide),
          shaMatch_none_append ("# name: ".data)
          (resolveName nameOpt).data 3 (by decide) (by decide) (by decide)⟩
      · exact ⟨iterMatch_none_append3 ("# original: ".data)
          (natDigits A.utf8ByteSize) (" bytes".data) 3 (by decide) (by decide)
          (by decide),
          shaMatch_none_append3 ("# original: ".data)
          (natDigits A.utf8ByteSize) (" bytes".data) 3 (by decide) (by decide)
          (by decide)⟩
      · exact ⟨iterMatch_none_append3 ("# encrypted: ".data)
          (natDigits (b64EncodeD (salt ++ iv ++ tag ++ ct)).length)
          (" bytes".data) 3 (by decide) (by decide) (by decide),
          shaMatch_none_append3 ("# encrypted: ".data)
          (natDigits (b64EncodeD (salt ++ iv ++ tag ++ ct)).length)
          (" bytes".data) 3 (by decide) (by decide) (by decide)⟩
    rw [scanIterSha_step_sha _ _ _ (P.sha256 (salt ++ iv ++ tag ++ ct))
      (iterMatch_none_append ("# sha256: ".data)
        (P.sha256 (salt ++ iv ++ tag ++ ct)).data 3 (by decide) (by decide)
        (by decide))
      (shaMatch_mk_sha hck)]
    rw [scanIterSha_step_iter _ _ _ _ (iterMatch_mk 100000)
      (shaMatch_none_append ("# iterations: ".data) (natDigits 100000) 3
        (by decide) (by decide) (by decide))]
    rw [scanIterSha_step _ _ _ (by decide) (by decide)]
    rw [scanIterSha_step _ _ _ (by decide) (by decide)]
    apply scanIterSha_all_none
    intro l hl
    rcases List.mem_append.mp hl with hl | hl
    · exact ⟨(chunkLine_facts _ l hl).2.2.1, (chunkLine_facts _ l hl).2.1⟩
    · simp only [List.mem_cons, List.not_mem_nil, or_false] at hl
      rcases hl with rfl | rfl
      · exact ⟨by decide, by decide⟩
      · exact ⟨by decide, by decide⟩
  have hb64 : b64Decode ⟨b64EncodeD (salt ++ iv ++ tag ++ ct)⟩ =
      salt ++ iv ++ tag ++ ct := by
    rw [b64Decode]
    exact b64_roundtrip _ hpb
  rw [decrypt_reduction_ck P _ pw _ (P.sha256 (salt ++ iv ++ tag ++ ct)) hE
    hX (by rw [hscan]) (by rw [hb64])]
  rw [hscan, hb64]
  dsimp only
  have hdn : digitsToNat (natDigits 100000) = 100000 := by decide
  rw [hdn]
  obtain ⟨h16, h12, h16b, h44, hlen⟩ := splitPayload_parts salt iv tag ct
    hs hi ht
  simp only [decryptBody]
  have hc : ¬(salt ++ iv ++ tag ++ ct).length < 44 := by omega
  rw [if_neg hc]
  rw [h16, h12, h16b, h44]
  rw [hdec]
  dsimp only
  rw [hgz]

/-- C5: the layered round-trip. For every archive string A,
decompressing the compressed wrapping of A returns exactly A, and (for
every password) decrypting the encrypted wrapping of A with the same
password returns exactly A — under the contracts of the external
cryptographic primitives (gunzip inverts gzip, AES-GCM decryption with
the same derived key and nonce recovers the plaintext from the
ciphertext-tag pair of the encryption, SHA-256 renders as 64 hex
characters, and the binary payloads are byte streams), with the
random salt and nonce of the single encryption call passed explicitly
and of their fixed lengths 16 and 12. -/
theorem c5_layered_roundtrip (P : CryptoPrims) (A pw : String)
    (salt iv ct tag : List Nat) (nameOpt : Option String)
    (hname : '\n' ∉ (resolveName nameOpt).data)
    (hgz : P.gunzip (P.gzip A) = some A)
    (hgzb : ∀ b ∈ P.gzip A, b < 256)
    (hckc : Hex64 (P.sha256 (P.gzip A)))
    (hct : (P.aesgcmEnc (P.pbkdf2 pw salt 100000) iv (P.gzip A)).1 = ct)
    (htg : (P.aesgcmEnc (P.pbkdf2 pw salt 100000) iv (P.gzip A)).2 = tag)
    (hs : salt.length = 16) (hi : iv.length = 12) (ht : tag.length = 16)
    (hpb : ∀ b ∈ salt ++ iv ++ tag ++ ct, b < 256)
    (hcke : Hex64 (P.sha256 (salt ++ iv ++ tag ++ ct)))
    (hdec : P.aesgcmDec (P.pbkdf2 pw salt 100000) iv ct tag =
      some (P.gzip A)) :
    decompress P (compress P A nameOpt) = .ok A ∧
    decrypt P (encrypt P A pw salt iv nameOpt) pw = .ok A :=
  ⟨decompress_compress_ok P A nameOpt hname hgz hgzb hckc,
   decrypt_encrypt_ok P A pw salt iv ct tag nameOpt hname hct htg hs hi ht
     hpb hcke hdec hgz⟩

/-- Concrete primitives for the round-trip witness: a one-byte "gzip"
stream, identity AES-GCM with an all-zero 16-byte tag, and an all-zero
64-hex-character digest. -/
def rtPrims : CryptoPrims :=
  ⟨fun _ => ⟨List.replicate 64 (Char.ofNat 48)⟩,
   fun _ => [0],
   fun _ => some "hi",
   fun _ _ _ => [],
   fun _ _ pt => (pt, List.replicate 16 0),
   fun _ _ c _ => some c⟩

theorem c5_layered_roundtrip_witness :
    decompress rtPrims (compress rtPrims "hi" none) = .ok "hi" ∧
    decrypt rtPrims
      (encrypt rtPrims "hi" "p" (List.replicate 16 0) (List.replicate 12 0)
        none) "p" = .ok "hi" :=
  c5_layered_roundtrip rtPrims "hi" "p" (List.replicate 16 0)
    (List.replicate 12 0) [0] (List.replicate 16 0) none
    (by decide) rfl (by decide) (by decide) rfl rfl (by decide) (by decide)
    (by decide) (by decide) (by decide) rfl

/-- The payload block of an encrypt output decodes back to the binary
payload `salt ++ iv ++ tag ++ ct` that was encoded into it. -/
theorem encrypt_extract (P : CryptoPrims) (A pw : String)
    (salt iv ct tag : List Nat) (nameOpt : Option String)
    (hname : '\n' ∉ (resolveName nameOpt).data)
    (hct : (P.aesgcmEnc (P.pbkdf2 pw salt 100000) iv (P.gzip A)).1 = ct)
    (htg : (P.aesgcmEnc (P.pbkdf2 pw salt 100000) iv (P.gzip A)).2 = tag)
    (hck : Hex64 (P.sha256 (salt ++ iv ++ tag ++ ct))) :
    extractPayload (splitNL (encrypt P A pw salt iv nameOpt))
      payloadStart payloadEnd oldV3Start oldV3End =
      some ⟨b64EncodeD (salt ++ iv ++ tag ++ ct)⟩ := by
  have hcomp : encrypt P A pw salt iv nameOpt = joinNL
      ([v3Marker, "#",
        "# This is an encrypted slurp archive.",
        "# The payload is AES-256-GCM encrypted (PBKDF2 key derivation).",
        "# Use: slurp decrypt <archive> to decrypt.",
        "#",
        ⟨"# name: ".data ++ (resolveName nameOpt).data⟩,
        ⟨"# original: ".data ++ natDigits A.utf8ByteSize ++ " bytes".data⟩,
        ⟨"# encrypted: ".data ++
          natDigits (b64EncodeD (salt ++ iv ++ tag ++ ct)).length ++
          " bytes".data⟩,
        ⟨"# sha256: ".data ++ (P.sha256 (salt ++ iv ++ tag ++ ct)).data⟩,
        ⟨"# iterations: ".data ++ natDigits 100000⟩,
        "", payloadStart] ++
       (chunk76 (b64EncodeD (salt ++ iv ++ tag ++ ct))).map
         (fun d => (⟨d⟩ : String)) ++
       [payloadEnd, ""]) := by
    simp only [encrypt]
    rw [hct, htg]
  have hsplit : splitNL (encrypt P A pw salt iv nameOpt) =
      [v3Marker, "#",
        "# This is an encrypted slurp archive.",
        "# The payload is AES-256-GCM encrypted (PBKDF2 key derivation).",
        "# Use: slurp decrypt <archive> to decrypt.",
        "#",
        ⟨"# name: ".data ++ (resolveName nameOpt).data⟩,
        ⟨"# original: ".data ++ natDigits A.utf8ByteSize ++ " bytes".data⟩,
        ⟨"# encrypted: ".data ++
          natDigits (b64EncodeD (salt ++ iv ++ tag ++ ct)).length ++
          " bytes".data⟩,
        ⟨"# sha256: ".data ++ (P.sha256 (salt ++ iv ++ tag ++ ct)).data⟩,
        ⟨"# iterations: ".data ++ natDigits 100000⟩,
        "", payloadStart] ++
       (chunk76 (b64EncodeD (salt ++ iv ++ tag ++ ct))).map
         (fun d => (⟨d⟩ : String)) ++
       [payloadEnd, ""] := by
    rw [hcomp]
    apply splitNL_joinNL (by simp)
    intro x hx
    simp only [List.mem_append, List.mem_cons, List.not_mem_nil, or_false,
      List.mem_singleton] at hx
    rcases hx with ((rfl | rfl | rfl | rfl | rfl | rfl | rfl | rfl | rfl |
        rfl | rfl | rfl | rfl) | hx) | (rfl | rfl)
    · decide
    · decide
    · decide
    · decide
    · decide
    · decide
    · exact no_nl_append (by decide) hname
    · exact no_nl_append (no_nl_append (by decide) (natDigits_no_nl _))
        (by decide)
    · exact no_nl_append (no_nl_append (by decide) (natDigits_no_nl _))
        (by decide)
    · exact no_nl_append (by decide) (hex64_no_nl hck)
    · exact no_nl_append (by decide) (natDigits_no_nl _)
    · decide
    · decide
    · exact (chunkLine_facts _ x hx).1
    · decide
    · decide
  rw [hsplit]
  have hshape : ([v3Marker, "#",
      "# This is an encrypted slurp archive.",
      "# The payload is AES-256-GCM encrypted (PBKDF2 key derivation).",
      "# Use: slurp decrypt <archive> to decrypt.",
      "#",
      (⟨"# name: ".data ++ (resolveName nameOpt).data⟩ : String),
      ⟨"# original: ".data ++ natDigits A.utf8ByteSize ++ " bytes".data⟩,
      ⟨"# encrypted: ".data ++
        natDigits (b64EncodeD (salt ++ iv ++ tag ++ ct)).length ++
        " bytes".data⟩,
      ⟨"# sha256: ".data ++ (P.sha256 (salt ++ iv ++ tag ++ ct)).data⟩,
      ⟨"# iterations: ".data ++ natDigits 100000⟩,
      "", payloadStart] ++
     (chunk76 (b64EncodeD (salt ++ iv ++ tag ++ ct))).map
       (fun d => (⟨d⟩ : String)) ++
     [payloadEnd, ""]) =
      ([v3Marker, "#",
        "# This is an encrypted slurp archive.",
        "# The payload is AES-256-GCM encrypted (PBKDF2 key derivation).",
        "# Use: slurp decrypt <archive> to decrypt.",
        "#",
        ⟨"# name: ".data ++ (resolveName nameOpt).data⟩,
        ⟨"# original: ".data ++ natDigits A.utf8ByteSize ++ " bytes".data⟩,
        ⟨"# encrypted: ".data ++
          natDigits (b64EncodeD (salt ++ iv ++ tag ++ ct)).length ++
          " bytes".data⟩,
        ⟨"# sha256: ".data ++ (P.sha256 (salt ++ iv ++ tag ++ ct)).data⟩,
        ⟨"# iterations: ".data ++ natDigits 100000⟩,
        ""] ++ payloadStart ::
        ((chunk76 (b64EncodeD (salt ++ iv ++ tag ++ ct))).map
          (fun d => (⟨d⟩ : String)) ++ [payloadEnd, ""])) := by
    simp
  rw [hshape]
  rw [extractPayload_mk _ _ _ _ ?hpre3 ?hch3]
  case hpre3 =>
    intro hmem
    simp only [List.mem_cons, List.not_mem_nil, or_false,
      List.mem_singleton] at hmem
    rcases hmem with h | h | h | h | h | h | h | h | h | h | h | h
    · exact absurd h (by decide)
    · exact absurd h (by decide)
    · exact absurd h (by decide)
    · exact absurd h (by decide)
    · exact absurd h (by decide)
    · exact absurd h (by decide)
    · exact absurd h.symm (hashLine_ne_markers _ (by decide)).1
    · exact absurd h.symm (hashLine_ne_markers3 _ _ _ (by decide)).1
    · exact absurd h.symm (hashLine_ne_markers3 _ _ _ (by decide)).1
    · exact absurd h.symm (hashLine_ne_markers _ (by decide)).1
    · exact absurd h.symm (hashLine_ne_markers _ (by decide)).1
    · exact absurd h (by decide)
  case hch3 =>
    intro hmem
    exact (chunkLine_facts _ payloadEnd hmem).2.2.2.2.1 rfl
  rw [joinAll_chunks]

/-- C8: the encryption wrap is non-deterministic across calls. The only
per-call randomness of `encrypt` is the 16-byte salt and 12-byte nonce
drawn from `crypto.randomBytes`, made explicit arguments here: whenever
the two draws differ (as the claim's fresh randomness guarantees), the
two outputs for the identical plaintext and identical password differ
byte-for-byte, because the emitted payload block decodes injectively
back to `salt ++ iv ++ tag ++ ct`, whose first 28 bytes are the salt
and nonce themselves. -/
theorem c8_encrypt_nondeterminism (P : CryptoPrims) (A pw : String)
    (nameOpt : Option String)
    (salt1 iv1 ct1 tag1 salt2 iv2 ct2 tag2 : List Nat)
    (hname : '\n' ∉ (resolveName nameOpt).data)
    (hct1 : (P.aesgcmEnc (P.pbkdf2 pw salt1 100000) iv1 (P.gzip A)).1 = ct1)
    (htg1 : (P.aesgcmEnc (P.pbkdf2 pw salt1 100000) iv1 (P.gzip A)).2 = tag1)
    (hct2 : (P.aesgcmEnc (P.pbkdf2 pw salt2 100000) iv2 (P.gzip A)).1 = ct2)
    (htg2 : (P.aesgcmEnc (P.pbkdf2 pw salt2 100000) iv2 (P.gzip A)).2 = tag2)
    (hs1 : salt1.length = 16) (hi1 : iv1.length = 12)
    (hs2 : salt2.length = 16) (hi2 : iv2.length = 12)
    (hb1 : ∀ b ∈ salt1 ++ iv1 ++ tag1 ++ ct1, b < 256)
    (hb2 : ∀ b ∈ salt2 ++ iv2 ++ tag2 ++ ct2, b < 256)
    (hck1 : Hex64 (P.sha256 (salt1 ++ iv1 ++ tag1 ++ ct1)))
    (hck2 : Hex64 (P.sha256 (salt2 ++ iv2 ++ tag2 ++ ct2)))
    (hne : (salt1, iv1) ≠ (salt2, iv2)) :
    encrypt P A pw salt1 iv1 nameOpt ≠ encrypt P A pw salt2 iv2 nameOpt := by
  intro heq
  have h1 := encrypt_extract P A pw salt1 iv1 ct1 tag1 nameOpt hname
    hct1 htg1 hck1
  have h2 := encrypt_extract P A pw salt2 iv2 ct2 tag2 nameOpt hname
    hct2 htg2 hck2
  rw [heq, h2] at h1
  have hbeq : b64EncodeD (salt2 ++ iv2 ++ tag2 ++ ct2) =
      b64EncodeD (salt1 ++ iv1 ++ tag1 ++ ct1) :=
    congrArg String.data (Option.some.inj h1)
  have hp : salt2 ++ iv2 ++ tag2 ++ ct2 = salt1 ++ iv1 ++ tag1 ++ ct1 := by
    have hd := congrArg b64DecodeD hbeq
    rwa [b64_roundtrip _ hb2, b64_roundtrip _ hb1] at hd
  have h28a : (salt1 ++ iv1 ++ tag1 ++ ct1).take 28 = salt1 ++ iv1 := by
    have hsh : salt1 ++ iv1 ++ tag1 ++ ct1 =
        (salt1 ++ iv1) ++ (tag1 ++ ct1) := by
      simp [List.append_assoc]
    have hlen : (salt1 ++ iv1).length = 28 := by
      simp [hs1, hi1]
    rw [hsh, ← hlen, List.take_left]
  have h28b : (salt2 ++ iv2 ++ tag2 ++ ct2).take 28 = salt2 ++ iv2 := by
    have hsh : salt2 ++ iv2 ++ tag2 ++ ct2 =
        (salt2 ++ iv2) ++ (tag2 ++ ct2) := by
      simp [List.append_assoc]
    have hlen : (salt2 ++ iv2).length = 28 := by
      simp [hs2, hi2]
    rw [hsh, ← hlen, List.take_left]
  have hsi : salt2 ++ iv2 = salt1 ++ iv1 := by
    rw [← h28b, ← h28a, hp]
  have hsalt : salt2 = salt1 := by
    have h16 := congrArg (List.take 16) hsi
    rwa [← hs2, List.take_left, hs2, ← hs1, List.take_left] at h16
  have hiv : iv2 = iv1 := by
    have hdr := congrArg (List.drop 16) hsi
    rwa [← hs2, List.drop_left, hs2, ← hs1, List.drop_left] at hdr
  exact hne (by rw [hsalt, hiv])

theorem c8_encrypt_nondeterminism_witness :
    encrypt rtPrims "hi" "p" (List.replicate 16 0) (List.replicate 12 0)
      none ≠
    encrypt rtPrims "hi" "p" (List.replicate 16 1) (List.replicate 12 0)
      none :=
  c8_encrypt_nondeterminism rtPrims "hi" "p" none
    (List.replicate 16 0) (List.replicate 12 0) [0] (List.replicate 16 0)
    (List.replicate 16 1) (List.replicate 12 0) [0] (List.replicate 16 0)
    (by decide) rfl rfl rfl rfl (by decide) (by decide) (by decide)
    (by decide) (by decide) (by decide) (by decide) (by decide) (by decide)

/-! ## C4 — the v4 pack/parse round-trip -/

/-- Well-formedness of one pack entry, the conditions under which its
serialized block survives the v4 parser: a nonempty whitespace-free
path not starting with `END `, binary content nonempty (an empty
base64 string makes `b64.match(/.{1,76}/g)` return `null` and `pack`
crash) with byte values, a text path not ending in the marker that
would make the binary delimiter regex match its start line, no text
content line equal to the
entry's own end delimiter, and a checksum of at least 16 hex
characters. -/
def EntryWF (e : PackEntry) : Prop :=
  e.relPath ≠ "" ∧
  (∀ c ∈ e.relPath.data, isWsChar c = false) ∧
  strStarts e.relPath "END " = false ∧
  (if e.binary then e.content ≠ [] ∧ ∀ b ∈ e.content, b < 256
   else strEnds e.relPath " [binary]" = false ∧
     ∀ l ∈ splitNLd (stripNLd e.text.data),
       (⟨l⟩ : String) ≠ endLine e.relPath) ∧
  (∀ c ∈ e.checksum, 16 ≤ c.data.length ∧
    (c.data.take 16).all (isHexChar ·) = true)

instance (e : PackEntry) : Decidable (EntryWF e) := by
  rw [EntryWF]
  infer_instance

/-- Well-formedness of the pack options: the resolved name, the
resolved description and the timestamp are single-line values without
leading whitespace (the regex `\s*(.+)` would strip it), and no prompt
comment line collides with a metadata line or the manifest opener. -/
def OptsWF (opts : PackOpts) : Prop :=
  '\n' ∉ (resolveName opts.name).data ∧
  (resolveName opts.name).data ≠ [] ∧
  ((resolveName opts.name).data.dropWhile (isWsChar ·)) =
    (resolveName opts.name).data ∧
  '\n' ∉ (resolveDesc opts.description).data ∧
  ((resolveDesc opts.description).data.dropWhile (isWsChar ·)) =
    (resolveDesc opts.description).data ∧
  opts.now.data ≠ [] ∧ '\n' ∉ opts.now.data ∧
  (opts.now.data.dropWhile (isWsChar ·)) = opts.now.data ∧
  (∀ pr ∈ opts.prompt, ∀ l ∈ promptCommentLines pr,
    metaMatch l = none ∧ l ≠ "# MANIFEST:")

instance (o : PackOpts) : Decidable (OptsWF o) := by
  rw [OptsWF]
  infer_instance

/-- The metadata object the v4 parser recovers from a packed header. -/
def expectedMeta (entries : List PackEntry) (opts : PackOpts) : Metadata :=
  ⟨some (resolveName opts.name),
   if resolveDesc opts.description = "" then none
   else some (resolveDesc opts.description),
   some ⟨natDigits entries.length⟩,
   some (humanSize ((entries.map (·.size)).sum)),
   some opts.now, none⟩

/-- The file entry the v4 parser recovers from a packed block. -/
def expectedFile (e : PackEntry) : PFile :=
  if e.binary then ⟨e.relPath, none, .bin e.content⟩
  else ⟨e.relPath, none, .text (stripNL e.text)⟩

/-- The checksum pairs the v4 parser recovers from a packed manifest:
one per entry with a checksum, truncated to 16 hex characters. -/
def expectedChecks (entries : List PackEntry) : List (String × String) :=
  entries.filterMap (fun e =>
    e.checksum.map (fun c => (e.relPath, (⟨c.data.take 16⟩ : String))))

theorem isHexChar_ne_s {c : Char} (h : isHexChar c = true) : c ≠ 's' := by
  rintro rfl
  exact absurd h (by decide)

theorem humanSizeD_chars (n : Nat) : ∀ c ∈ humanSizeD n,
    isDigitChar c = true ∨ c = '.' ∨ c = ' ' ∨ c = 'B' ∨ c = 'K' ∨
    c = 'M' := by
  intro c hc
  rw [humanSizeD] at hc
  have hten : ∀ b base, c ∈ tenthsD b base →
      isDigitChar c = true ∨ c = '.' ∨ c = ' ' ∨ c = 'B' ∨ c = 'K' ∨
      c = 'M' := by
    intro b base hm
    rw [tenthsD] at hm
    rcases List.mem_append.mp hm with h | h
    · exact Or.inl (natDigits_all_digits _ _ h)
    · rcases List.mem_cons.mp h with rfl | h
      · exact Or.inr (Or.inl rfl)
      · exact Or.inl (natDigits_all_digits _ _ h)
  split at hc
  · rcases List.mem_append.mp hc with h | h
    · exact Or.inl (natDigits_all_digits _ _ h)
    · rcases List.mem_cons.mp h with rfl | h
      · exact Or.inr (Or.inr (Or.inl rfl))
      · rcases List.mem_cons.mp h with rfl | h
        · exact Or.inr (Or.inr (Or.inr (Or.inl rfl)))
        · exact absurd h (List.not_mem_nil c)
  · split at hc
    all_goals
      rcases List.mem_append.mp hc with h | h
      · exact hten _ _ h
      · rcases List.mem_cons.mp h with rfl | h
        · exact Or.inr (Or.inr (Or.inl rfl))
        · rcases List.mem_cons.mp h with rfl | h
          · first
            | exact Or.inr (Or.inr (Or.inr (Or.inr (Or.inl rfl))))
            | exact Or.inr (Or.inr (Or.inr (Or.inr (Or.inr rfl))))
          · rcases List.mem_cons.mp h with rfl | h
            · exact Or.inr (Or.inr (Or.inr (Or.inl rfl)))
            · exact absurd h (List.not_mem_nil c)

theorem humanSizeD_no_nl (n : Nat) : '\n' ∉ humanSizeD n := by
  intro h
  rcases humanSizeD_chars n _ h with h | h | h | h | h | h
  · exact isDigitChar_ne_nl h rfl
  all_goals exact absurd h (by decide)

theorem humanSizeD_no_s (n : Nat) : 's' ∉ humanSizeD n := by
  intro h
  rcases humanSizeD_chars n _ h with h | h | h | h | h | h
  · exact absurd h (by decide)
  all_goals exact absurd h (by decide)

theorem dropWhile_ws_digits_app (m : Nat) (t : List Char) :
    ((natDigits m ++ t).dropWhile (isWsChar ·)) = natDigits m ++ t := by
  cases hd : natDigits m with
  | nil => exact absurd hd (natDigits_ne_nil m)
  | cons c cs =>
    rw [List.cons_append, List.dropWhile_cons,
      if_neg (by
        rw [isDigitChar_not_ws (natDigits_all_digits m c (by rw [hd]; simp))]
        simp)]

theorem humanSizeD_ne_nil (n : Nat) : humanSizeD n ≠ [] := by
  rw [humanSizeD]
  split
  · intro h
    exact natDigits_ne_nil n (List.append_eq_nil.mp h).1
  · split
    all_goals
      rw [tenthsD]
      intro h
      exact natDigits_ne_nil _ ((List.append_eq_nil.mp
        (List.append_eq_nil.mp h).1).1)

theorem dropWhile_ws_humanSize (n : Nat) :
    ((humanSizeD n).dropWhile (isWsChar ·)) = humanSizeD n := by
  rw [humanSizeD]
  split
  · exact dropWhile_ws_digits_app n _
  · split
    all_goals
      rw [tenthsD, List.append_assoc]
      exact dropWhile_ws_digits_app _ _

theorem lastSha16_none {l : List Char} (h : 's' ∉ l) :
    lastSha16 l = none := by
  induction l with
  | nil => rfl
  | cons c cs ih =>
    rw [lastSha16, ih (fun hm => h (by simp [hm]))]
    rw [sha16At, if_neg]
    intro hp
    rcases (List.isPrefixOf_iff_prefix.mp hp) with ⟨t, ht⟩
    apply h
    have : c = 's' := by
      have := congrArg (List.head? ·) ht
      simpa using this.symm
    simp [this]

theorem lastSha16_append (x l : List Char) (v : List Char)
    (h : lastSha16 l = some v) : lastSha16 (x ++ l) = some v := by
  induction x with
  | nil => exact h
  | cons c cs ih =>
    rw [List.cons_append, lastSha16, ih]

theorem lastSha16_exact (h16 tail : List Char) (hlen : h16.length = 16)
    (hhex : h16.all (isHexChar ·) = true) (hs : 's' ∉ tail) :
    lastSha16 ("sha256:".data ++ (h16 ++ tail)) = some h16 := by
  have hns : 's' ∉ ("ha256:".data ++ (h16 ++ tail)) := by
    intro hm
    rcases List.mem_append.mp hm with h | h
    · exact absurd h (by decide)
    · rcases List.mem_append.mp h with h | h
      · exact isHexChar_ne_s (by
          have := List.all_eq_true.mp hhex _ h
          simpa using this) rfl
      · exact hs h
  show lastSha16 ('s' :: ("ha256:".data ++ (h16 ++ tail))) = some h16
  rw [lastSha16, lastSha16_none hns]
  rw [sha16At, if_pos]
  · have hdr : (('s' :: ("ha256:".data ++ (h16 ++ tail))).drop 7) =
        h16 ++ tail := rfl
    rw [hdr, List.take_left' hlen]
    rw [if_pos ⟨hlen, hhex⟩]
  · exact List.isPrefixOf_iff_prefix.mpr ⟨h16 ++ tail, rfl⟩

theorem metaValue_sp (v : List Char) (hv : v ≠ [])
    (hd : v.dropWhile (isWsChar ·) = v) : metaValue (' ' :: v) = some v := by
  rw [metaValue, if_neg (by simp)]
  have ht : ((' ' :: v).dropWhile (isWsChar ·)) = v := by
    rw [List.dropWhile_cons, if_pos (by decide), hd]
  simp only [ht]
  rw [if_neg hv]

theorem metaMatch_name (v : List Char) : metaMatch ⟨"# name: ".data ++ v⟩ =
    (metaValue (' ' :: v)).map (fun x => ("name", (⟨x⟩ : String))) := rfl

theorem metaMatch_desc (v : List Char) :
    metaMatch ⟨"# description: ".data ++ v⟩ =
    (metaValue (' ' :: v)).map (fun x => ("description", (⟨x⟩ : String))) :=
  rfl

theorem metaMatch_files (v : List Char) :
    metaMatch ⟨"# files: ".data ++ v⟩ =
    (metaValue (' ' :: v)).map (fun x => ("files", (⟨x⟩ : String))) := rfl

theorem metaMatch_total (v : List Char) :
    metaMatch ⟨"# total: ".data ++ v⟩ =
    (metaValue (' ' :: v)).map (fun x => ("total", (⟨x⟩ : String))) := rfl

theorem metaMatch_created (v : List Char) :
    metaMatch ⟨"# created: ".data ++ v⟩ =
    (metaValue (' ' :: v)).map (fun x => ("created", (⟨x⟩ : String))) := rfl

theorem metaMatch_ssp (y : List Char) :
    metaMatch ⟨'#' :: ' ' :: ' ' :: y⟩ = none := rfl

/-- A string whose data extends a block shorter than the target's. -/
theorem mk_append_ne_long {b : List Char} (x : List Char) {c : String}
    (h : c.data.length < b.length) : (⟨b ++ x⟩ : String) ≠ c := by
  intro he
  have hd := congrArg (fun s => s.data.length) he
  simp only [List.length_append] at hd
  omega

theorem headerScan_stop (l : String) (rest : List String) (inM : Bool)
    (md : Metadata) (cs : List (String × String))
    (h1 : strStarts l "#" = false) (h2 : l ≠ "") :
    headerScanAux (l :: rest) inM md cs = (md, cs) := by
  rw [headerScanAux, if_pos ⟨h1, h2⟩]

theorem headerScan_skip1 (l : String) (rest : List String) (md : Metadata)
    (cs : List (String × String)) (hg : ¬(strStarts l "#" = false ∧ l ≠ ""))
    (hm : metaMatch l = none) (hM : l ≠ "# MANIFEST:") :
    headerScanAux (l :: rest) false md cs =
      headerScanAux rest false md cs := by
  rw [headerScanAux, if_neg hg, hm]
  dsimp only
  rw [if_neg hM, if_neg (by decide)]

theorem headerScan_meta (l : String) (rest : List String) (md : Metadata)
    (cs : List (String × String)) (k v : String)
    (hg : strStarts l "#" = true)
    (hm : metaMatch l = some (k, v)) (hM : l ≠ "# MANIFEST:") :
    headerScanAux (l :: rest) false md cs =
      headerScanAux rest false (setMeta md k v) cs := by
  rw [headerScanAux,
    if_neg (by rintro ⟨h1, h2⟩; rw [hg] at h1; exact absurd h1 (by decide)),
    hm]
  dsimp only
  rw [if_neg hM, if_neg (by decide)]

theorem headerScan_manifest_on (rest : List String) (md : Metadata)
    (cs : List (String × String)) :
    headerScanAux ("# MANIFEST:" :: rest) false md cs =
      headerScanAux rest true md cs := by
  rw [headerScanAux, if_neg (by rintro ⟨h1, h2⟩; exact absurd h1 (by decide))]
  rw [show metaMatch "# MANIFEST:" = none from rfl]
  dsimp only
  rw [if_pos rfl]

theorem headerScan_manL (l : String) (rest : List String) (md : Metadata)
    (cs : List (String × String)) (pc : String × String)
    (hg : strStarts l "#" = true) (hm : metaMatch l = none)
    (hM : l ≠ "# MANIFEST:") (hh : l ≠ "#")
    (hman : manifestMatch l = some pc) :
    headerScanAux (l :: rest) true md cs =
      headerScanAux rest true md (cs ++ [pc]) := by
  rw [headerScanAux,
    if_neg (by rintro ⟨h1, h2⟩; rw [hg] at h1; exact absurd h1 (by decide)),
    hm]
  dsimp only
  rw [if_neg hM, if_pos rfl, if_neg hh, hman]

theorem headerScan_manOff (rest : List String) (md : Metadata)
    (cs : List (String × String)) :
    headerScanAux ("#" :: rest) true md cs =
      headerScanAux rest false md cs := by
  rw [headerScanAux, if_neg (by rintro ⟨h1, h2⟩; exact absurd h1 (by decide))]
  rw [show metaMatch "#" = none from rfl]
  dsimp only
  rw [if_neg (by decide), if_pos rfl, if_pos rfl]

theorem headerScan_skipPre (pre : List String) (rest : List String)
    (md : Metadata) (cs : List (String × String))
    (h : ∀ l ∈ pre, ¬(strStarts l "#" = false ∧ l ≠ "") ∧
      metaMatch l = none ∧ l ≠ "# MANIFEST:") :
    headerScanAux (pre ++ rest) false md cs =
      headerScanAux rest false md cs := by
  induction pre with
  | nil => rfl
  | cons l p ih =>
    rw [List.cons_append,
      headerScan_skip1 l _ md cs (h l (by simp)).1 (h l (by simp)).2.1
        (h l (by simp)).2.2]
    exact ih (fun x hx => h x (by simp [hx]))

theorem manifestMatch_hash (r : List Char) : manifestMatch ⟨'#' :: r⟩ =
    (if r.takeWhile (isWsChar ·) = [] then none
     else
       let r1 := r.dropWhile (isWsChar ·)
       let tok := r1.takeWhile (fun c => !isWsChar c)
       let r2 := r1.dropWhile (fun c => !isWsChar c)
       if tok = [] ∨ r2 = [] then none
       else (lastSha16 r2).map
         (fun h16 => ((⟨tok⟩ : String), (⟨h16⟩ : String)))) := rfl

theorem manifestMatch_shape (p T : List Char) (hp : p ≠ [])
    (hpws : ∀ c ∈ p, isWsChar c = false) (hT : T.head? = some ' ') :
    manifestMatch ⟨'#' :: ' ' :: ' ' :: ' ' :: (p ++ T)⟩ =
      (lastSha16 T).map
        (fun h16 => ((⟨p⟩ : String), (⟨h16⟩ : String))) := by
  obtain ⟨t, rfl⟩ : ∃ t, T = ' ' :: t := by
    cases T with
    | nil => exact absurd hT (by simp)
    | cons c cs =>
      refine ⟨cs, ?_⟩
      have hc : c = ' ' := by simpa using hT
      rw [hc]
  rw [manifestMatch_hash]
  rw [if_neg (by
    rw [List.takeWhile_cons, if_pos (by decide)]
    simp)]
  obtain ⟨c, cs, rfl⟩ : ∃ c cs, p = c :: cs := by
    cases p with
    | nil => exact absurd rfl hp
    | cons c cs => exact ⟨c, cs, rfl⟩
  have hcws : isWsChar c = false := hpws c (by simp)
  have hr1 : ((' ' :: ' ' :: ' ' :: (c :: cs ++ ' ' :: t)).dropWhile
      (isWsChar ·)) = c :: cs ++ ' ' :: t := by
    rw [List.dropWhile_cons, if_pos (by decide),
      List.dropWhile_cons, if_pos (by decide),
      List.dropWhile_cons, if_pos (by decide),
      List.cons_append, List.dropWhile_cons, if_neg (by rw [hcws]; decide)]
  dsimp only
  rw [hr1]
  have htok : ((c :: cs ++ ' ' :: t).takeWhile (fun x => !isWsChar x)) =
      c :: cs := by
    have := takeWhile_middle (fun x => !isWsChar x) (c :: cs) ' ' t
      (fun x hx => by simp [hpws x hx]) (by decide)
    simpa using this
  have hr2 : ((c :: cs ++ ' ' :: t).dropWhile (fun x => !isWsChar x)) =
      ' ' :: t := by
    have := dropWhile_middle (fun x => !isWsChar x) (c :: cs) ' ' t
      (fun x hx => by simp [hpws x hx]) (by decide)
    simpa using this
  rw [htok, hr2]
  rw [if_neg (by simp)]

theorem replicate_sp_head (k : Nat) (w : List Char) :
    (List.replicate k ' ' ++ (' ' :: w)).head? = some ' ' := by
  cases k with
  | zero => rfl
  | succ n => rfl

theorem strEta (s : String) : (⟨s.data⟩ : String) = s := rfl

theorem data_ne_nil {s : String} (h : s ≠ "") : s.data ≠ [] := by
  intro hd
  apply h
  rw [← strEta s, hd]

/-- The manifest line, reshaped for the matcher lemmas. -/
theorem manifestLine_eq (maxLen : Nat) (e : PackEntry) :
    manifestLine maxLen e = ⟨'#' :: ' ' :: ' ' :: ' ' ::
      (e.relPath.data ++
        (List.replicate (maxLen - e.relPath.data.length) ' ' ++
          (' ' :: ' ' :: (padStartD (humanSizeD e.size) 10 ++
            ((match e.checksum with
              | some c => "  sha256:".data ++ c.data.take 16
              | none => []) ++
             (if e.binary then "  [binary]".data else []))))))⟩ := by
  simp only [manifestLine, padEndD]
  congr 1
  simp [List.append_assoc]

theorem manifestLine_props (maxLen : Nat) (e : PackEntry) :
    strStarts (manifestLine maxLen e) "#" = true ∧
    metaMatch (manifestLine maxLen e) = none ∧
    manifestLine maxLen e ≠ "# MANIFEST:" ∧
    manifestLine maxLen e ≠ "#" := by
  rw [manifestLine_eq]
  refine ⟨rfl, metaMatch_ssp _, ?_, ?_⟩
  · show (⟨"#   ".data ++ _⟩ : String) ≠ _
    exact strMk_append_ne _ 3 (by decide) (by decide) (by decide)
  · show (⟨"#   ".data ++ _⟩ : String) ≠ _
    exact mk_append_ne_long _ (by decide)

theorem manifestMatch_line (maxLen : Nat) (e : PackEntry)
    (hp : e.relPath ≠ "")
    (hpws : ∀ c ∈ e.relPath.data, isWsChar c = false)
    (hck : ∀ c ∈ e.checksum, 16 ≤ c.data.length ∧
      (c.data.take 16).all (isHexChar ·) = true) :
    manifestMatch (manifestLine maxLen e) =
      e.checksum.map (fun c => (e.relPath, (⟨c.data.take 16⟩ : String))) := by
  rw [manifestLine_eq]
  rw [manifestMatch_shape _ _ (data_ne_nil hp) hpws (replicate_sp_head _ _)]
  cases hc : e.checksum with
  | some c =>
    have hcf := hck c (by rw [hc]; rfl)
    have hres : List.replicate (maxLen - e.relPath.data.length) ' ' ++
        (' ' :: ' ' :: (padStartD (humanSizeD e.size) 10 ++
          (("  sha256:".data ++ c.data.take 16) ++
           (if e.binary then "  [binary]".data else [])))) =
        (List.replicate (maxLen - e.relPath.data.length) ' ' ++
          (' ' :: ' ' :: (padStartD (humanSizeD e.size) 10 ++ "  ".data))) ++
        ("sha256:".data ++ (c.data.take 16 ++
          (if e.binary then "  [binary]".data else []))) := by
      simp [List.append_assoc]
    rw [hres]
    rw [lastSha16_append _ _ (c.data.take 16)
      (lastSha16_exact _ _ (by rw [List.length_take]; omega) hcf.2
        (by split <;> decide))]
    rfl
  | none =>
    rw [lastSha16_none ?hnos]
    case hnos =>
      intro hm
      rcases List.mem_append.mp hm with h | h
      · exact absurd (List.eq_of_mem_replicate h) (by decide)
      · rcases List.mem_cons.mp h with h | h
        · exact absurd h (by decide)
        · rcases List.mem_cons.mp h with h | h
          · exact absurd h (by decide)
          · rcases List.mem_append.mp h with h | h
            · rw [padStartD] at h
              rcases List.mem_append.mp h with h | h
              · exact absurd (List.eq_of_mem_replicate h) (by decide)
              · exact humanSizeD_no_s _ h
            · rcases List.mem_append.mp h with h | h
              · exact absurd h (List.not_mem_nil 's')
              · revert h
                split <;> decide
    rfl

theorem manifestLine_no_nl (maxLen : Nat) (e : PackEntry)
    (hpws : ∀ c ∈ e.relPath.data, isWsChar c = false)
    (hck : ∀ c ∈ e.checksum, 16 ≤ c.data.length ∧
      (c.data.take 16).all (isHexChar ·) = true) :
    '\n' ∉ (manifestLine maxLen e).data := by
  rw [manifestLine_eq]
  intro hm
  simp only [List.mem_cons] at hm
  rcases hm with h | h | h | h | h
  · exact absurd h.symm (by decide)
  · exact absurd h.symm (by decide)
  · exact absurd h.symm (by decide)
  · exact absurd h.symm (by decide)
  rcases List.mem_append.mp h with h | h
  · exact absurd (hpws _ h) (by decide)
  rcases List.mem_append.mp h with h | h
  · exact absurd (List.eq_of_mem_replicate h) (by decide)
  rcases List.mem_cons.mp h with h | h
  · exact absurd h (by decide)
  rcases List.mem_cons.mp h with h | h
  · exact absurd h (by decide)
  rcases List.mem_append.mp h with h | h
  · rw [padStartD] at h
    rcases List.mem_append.mp h with h | h
    · exact absurd (List.eq_of_mem_replicate h) (by decide)
    · exact humanSizeD_no_nl _ h
  rcases List.mem_append.mp h with h | h
  · rcases hcc : e.checksum with _ | c
    · rw [hcc] at h
      exact absurd h (List.not_mem_nil _)
    · rw [hcc] at h
      rcases List.mem_append.mp h with h | h
      · exact absurd h (by decide)
      · exact isHexChar_ne_nl
          (List.all_eq_true.mp (hck c (by rw [hcc]; rfl)).2 _ h) rfl
  · revert h
    split <;> decide

theorem endLine_has_space (p : String) : ' ' ∈ (endLine p).data := by
  rw [endLine]
  simp only [List.mem_append, List.mem_cons]
  left
  left
  decide

/-- One well-formed text block consumed by the block scanner. -/
theorem scanBlocks_text_entry (e : PackEntry) (rest : List String)
    (hb : e.binary = false) (hp : e.relPath ≠ "")
    (hnb : strEnds e.relPath " [binary]" = false)
    (hend : strStarts e.relPath "END " = false)
    (hlines : ∀ l ∈ splitNLd (stripNLd e.text.data),
      (⟨l⟩ : String) ≠ endLine e.relPath) :
    scanBlocks (entryBlock e ++ rest) =
      ⟨e.relPath, none, .text (stripNL e.text)⟩ :: scanBlocks rest := by
  have hshape : entryBlock e ++ rest = textStartLine e.relPath ::
      ((splitNLd (stripNLd e.text.data)).map (fun d => (⟨d⟩ : String)) ++
        (endLine e.relPath :: "" :: rest)) := by
    rw [entryBlock, hb]
    simp [List.append_assoc]
  rw [hshape, scanBlocks_cons, delimPath_textStartLine hp hnb]
  dsimp only
  rw [if_neg (by rw [hend]; exact fun hc => nomatch hc)]
  have hxs : ∀ x ∈ (splitNLd (stripNLd e.text.data)).map
      (fun d => (⟨d⟩ : String)), decide (x ≠ endLine e.relPath) = true := by
    intro x hx
    rcases List.mem_map.mp hx with ⟨lc, hlc, rfl⟩
    simp [hlines lc hlc]
  have htk : (((splitNLd (stripNLd e.text.data)).map (fun d => (⟨d⟩ : String)) ++
      (endLine e.relPath :: "" :: rest)).takeWhile
        (· ≠ endLine e.relPath)) =
      (splitNLd (stripNLd e.text.data)).map (fun d => (⟨d⟩ : String)) :=
    takeWhile_middle (fun x => decide (x ≠ endLine e.relPath))
      ((splitNLd (stripNLd e.text.data)).map (fun d => (⟨d⟩ : String)))
      (endLine e.relPath) ("" :: rest) hxs (by simp)
  have hdr : (((splitNLd (stripNLd e.text.data)).map (fun d => (⟨d⟩ : String)) ++
      (endLine e.relPath :: "" :: rest)).dropWhile
        (· ≠ endLine e.relPath)) =
      endLine e.relPath :: "" :: rest :=
    dropWhile_middle (fun x => decide (x ≠ endLine e.relPath))
      ((splitNLd (stripNLd e.text.data)).map (fun d => (⟨d⟩ : String)))
      (endLine e.relPath) ("" :: rest) hxs (by simp)
  rw [htk, hdr]
  have hdrop : (endLine e.relPath :: "" :: rest).drop 1 = "" :: rest := rfl
  rw [hdrop, scanBlocks_skip rest (by decide)]
  congr 1
  rw [mkBlockFile]
  rw [if_neg (fun hc => nomatch hc)]
  have hbody : ((splitNLd (stripNLd e.text.data)).map (fun d => (⟨d⟩ : String)) :
      List String) = splitNL (stripNL e.text) := rfl
  rw [hbody, joinNL_splitNL]

/-- One well-formed binary block consumed by the block scanner. -/
theorem scanBlocks_bin_entry (e : PackEntry) (rest : List String)
    (hb : e.binary = true) (hp : e.relPath ≠ "")
    (hend : strStarts e.relPath "END " = false)
    (hbytes : ∀ b ∈ e.content, b < 256) :
    scanBlocks (entryBlock e ++ rest) =
      ⟨e.relPath, none, .bin e.content⟩ :: scanBlocks rest := by
  have hshape : entryBlock e ++ rest = binStartLine e.relPath ::
      ((chunk76 (b64EncodeD e.content)).map (fun d => (⟨d⟩ : String)) ++
        (endLine e.relPath :: "" :: rest)) := by
    rw [entryBlock, hb]
    simp [List.append_assoc]
  have hchunk : ∀ x ∈ (chunk76 (b64EncodeD e.content)).map
      (fun d => (⟨d⟩ : String)), x ≠ endLine e.relPath := by
    intro x hx
    rcases List.mem_map.mp hx with ⟨ch, hch, rfl⟩
    intro he
    have hnsp : ' ' ∉ ch := fun hm =>
      b64EncodeD_no_space e.content _
        (chunk76_mem_subset _ ch hch _ hm) rfl
    apply hnsp
    rw [show ch = (⟨ch⟩ : String).data from rfl, he]
    exact endLine_has_space e.relPath
  rw [hshape, scanBlocks_cons, delimPath_binStartLine hp]
  dsimp only
  rw [if_neg (by rw [hend]; exact fun hc => nomatch hc)]
  have hxs : ∀ x ∈ (chunk76 (b64EncodeD e.content)).map
      (fun d => (⟨d⟩ : String)), decide (x ≠ endLine e.relPath) = true := by
    intro x hx
    simp [hchunk x hx]
  have htk : (((chunk76 (b64EncodeD e.content)).map (fun d => (⟨d⟩ : String)) ++
      (endLine e.relPath :: "" :: rest)).takeWhile
        (· ≠ endLine e.relPath)) =
      (chunk76 (b64EncodeD e.content)).map (fun d => (⟨d⟩ : String)) :=
    takeWhile_middle (fun x => decide (x ≠ endLine e.relPath))
      ((chunk76 (b64EncodeD e.content)).map (fun d => (⟨d⟩ : String)))
      (endLine e.relPath) ("" :: rest) hxs (by simp)
  have hdr : (((chunk76 (b64EncodeD e.content)).map (fun d => (⟨d⟩ : String)) ++
      (endLine e.relPath :: "" :: rest)).dropWhile
        (· ≠ endLine e.relPath)) =
      endLine e.relPath :: "" :: rest :=
    dropWhile_middle (fun x => decide (x ≠ endLine e.relPath))
      ((chunk76 (b64EncodeD e.content)).map (fun d => (⟨d⟩ : String)))
      (endLine e.relPath) ("" :: rest) hxs (by simp)
  rw [htk, hdr]
  have hdrop : (endLine e.relPath :: "" :: rest).drop 1 = "" :: rest := rfl
  rw [hdrop, scanBlocks_skip rest (by decide)]
  congr 1
  rw [mkBlockFile]
  rw [if_pos rfl]
  congr 1
  rw [List.map_map]
  have hcomp : (String.data ∘ fun d : List Char => (⟨d⟩ : String)) = id :=
    funext (fun _ => rfl)
  rw [hcomp, List.map_id, chunk76_flatten, b64_roundtrip _ hbytes]

/-- The block scanner over the concatenated entry blocks. -/
theorem scanBlocks_blocks (entries : List PackEntry)
    (h : ∀ e ∈ entries, EntryWF e) :
    scanBlocks ((entries.map entryBlock).flatten) =
      entries.map expectedFile := by
  induction entries with
  | nil => rfl
  | cons e es ih =>
    rw [List.map_cons, List.flatten_cons]
    obtain ⟨hp, hpws, hend, hbody, hck⟩ := h e (by simp)
    cases hb : e.binary with
    | false =>
      rw [hb] at hbody
      simp only [Bool.false_eq_true, if_false] at hbody
      rw [scanBlocks_text_entry e _ hb hp hbody.1 hend hbody.2]
      rw [ih (fun x hx => h x (by simp [hx]))]
      rw [List.map_cons, expectedFile, hb]
      simp only [Bool.false_eq_true, if_false]
    | true =>
      rw [hb] at hbody
      simp only [if_true] at hbody
      rw [scanBlocks_bin_entry e _ hb hp hend hbody.2]
      rw [ih (fun x hx => h x (by simp [hx]))]
      rw [List.map_cons, expectedFile, hb]
      simp only [if_true]

theorem headerScan_manN (l : String) (rest : List String) (md : Metadata)
    (cs : List (String × String))
    (hg : strStarts l "#" = true) (hm : metaMatch l = none)
    (hM : l ≠ "# MANIFEST:") (hh : l ≠ "#")
    (hman : manifestMatch l = none) :
    headerScanAux (l :: rest) true md cs =
      headerScanAux rest true md cs := by
  rw [headerScanAux,
    if_neg (by rintro ⟨h1, h2⟩; rw [hg] at h1; exact absurd h1 (by decide)),
    hm]
  dsimp only
  rw [if_neg hM, if_pos rfl, if_neg hh, hman]

theorem dropWhile_ws_digits (m : Nat) :
    ((natDigits m).dropWhile (isWsChar ·)) = natDigits m := by
  have h := dropWhile_ws_digits_app m []
  simpa using h

theorem promptCommentLines_hash (pr : String) :
    ∀ l ∈ promptCommentLines pr, strStarts l "#" = true := by
  intro l hl
  rcases List.mem_map.mp hl with ⟨x, hx, rfl⟩
  by_cases hx0 : x = ""
  · rw [if_pos hx0]
    rfl
  · rw [if_neg hx0]
    rfl

theorem promptCommentLines_no_nl (pr : String) :
    ∀ l ∈ promptCommentLines pr, '\n' ∉ l.data := by
  intro l hl
  rcases List.mem_map.mp hl with ⟨x, hx, rfl⟩
  rcases List.mem_map.mp hx with ⟨lc, hlc, rfl⟩
  by_cases hx0 : (⟨lc⟩ : String) = ""
  · rw [if_pos hx0]
    decide
  · rw [if_neg hx0]
    intro hm
    show False
    rcases List.mem_cons.mp hm with h | h
    · exact absurd h.symm (by decide)
    rcases List.mem_cons.mp h with h | h
    · exact absurd h.symm (by decide)
    · exact splitNLd_no_nl _ _ hlc h

/-- The manifest segment of the header scan: each line contributes its
checksum pair (entries without a checksum contribute nothing). -/
theorem headerScan_manLines (entries : List PackEntry) (maxLen : Nat)
    (h : ∀ e ∈ entries, e.relPath ≠ "" ∧
      (∀ c ∈ e.relPath.data, isWsChar c = false) ∧
      (∀ c ∈ e.checksum, 16 ≤ c.data.length ∧
        (c.data.take 16).all (isHexChar ·) = true))
    (rest : List String) (md : Metadata) (cs : List (String × String)) :
    headerScanAux (entries.map (manifestLine maxLen) ++ rest) true md cs =
      headerScanAux rest true md (cs ++ expectedChecks entries) := by
  induction entries generalizing cs with
  | nil => simp [expectedChecks]
  | cons e es ih =>
    obtain ⟨hp, hpws, hck⟩ := h e (by simp)
    have hprops := manifestLine_props maxLen e
    have hmm := manifestMatch_line maxLen e hp hpws hck
    rw [List.map_cons, List.cons_append]
    cases hc : e.checksum with
    | some c =>
      rw [hc, Option.map_some'] at hmm
      rw [headerScan_manL _ _ _ _ _ hprops.1 hprops.2.1 hprops.2.2.1
        hprops.2.2.2 hmm]
      rw [ih (fun x hx => h x (by simp [hx])) _]
      congr 1
      simp [expectedChecks, hc, List.append_assoc]
    | none =>
      rw [hc, Option.map_none'] at hmm
      rw [headerScan_manN _ _ _ _ hprops.1 hprops.2.1 hprops.2.2.1
        hprops.2.2.2 hmm]
      rw [ih (fun x hx => h x (by simp [hx])) _]
      congr 1
      simp [expectedChecks, hc]

/-- The header scan stops at the first entry block. -/
theorem headerScan_blocks (entries : List PackEntry) (h : entries ≠ [])
    (inM : Bool) (md : Metadata) (cs : List (String × String)) :
    headerScanAux ((entries.map entryBlock).flatten) inM md cs =
      (md, cs) := by
  cases entries with
  | nil => exact absurd rfl h
  | cons e es =>
    rw [List.map_cons, List.flatten_cons]
    cases hb : e.binary with
    | false =>
      have hshape : entryBlock e = textStartLine e.relPath ::
          ((splitNLd (stripNLd e.text.data)).map
            (fun d => (⟨d⟩ : String)) ++ [endLine e.relPath, ""]) := by
        rw [entryBlock, hb]
        simp
      rw [hshape, List.cons_append]
      exact headerScan_break _ _ _ _ (textStartLine_not_hash _)
        (textStartLine_ne_empty _)
    | true =>
      have hshape : entryBlock e = binStartLine e.relPath ::
          ((chunk76 (b64EncodeD e.content)).map
            (fun d => (⟨d⟩ : String)) ++ [endLine e.relPath, ""]) := by
        rw [entryBlock, hb]
        simp
      rw [hshape, List.cons_append]
      exact headerScan_break _ _ _ _ (binStartLine_not_hash _)
        (binStartLine_ne_empty _)

/-- The header scan from the `# files:` line on. -/
theorem headerScan_fromFiles (entries : List PackEntry) (opts : PackOpts)
    (hw1 : opts.now.data ≠ [])
    (hw3 : (opts.now.data.dropWhile (isWsChar ·)) = opts.now.data)
    (hE : ∀ e ∈ entries, e.relPath ≠ "" ∧
      (∀ c ∈ e.relPath.data, isWsChar c = false) ∧
      (∀ c ∈ e.checksum, 16 ≤ c.data.length ∧
        (c.data.take 16).all (isHexChar ·) = true))
    (md : Metadata) :
    headerScanAux
      ((⟨"# files: ".data ++ natDigits entries.length⟩ : String) ::
       (⟨"# total: ".data ++
         humanSizeD ((entries.map (·.size)).sum)⟩ : String) ::
       (⟨"# created: ".data ++ opts.now.data⟩ : String) :: "#" ::
       ((if entries.length > 0 then
           "# MANIFEST:" ::
             entries.map (manifestLine (manifestMaxLen entries)) ++ ["#"]
         else []) ++
        ("" :: (entries.map entryBlock).flatten))) false md [] =
      (⟨md.name, md.description, some ⟨natDigits entries.length⟩,
        some (humanSize ((entries.map (·.size)).sum)), some opts.now,
        md.sentinel⟩, expectedChecks entries) := by
  have hmf : metaMatch ⟨"# files: ".data ++ natDigits entries.length⟩ =
      some ("files", ⟨natDigits entries.length⟩) := by
    rw [metaMatch_files,
      metaValue_sp _ (natDigits_ne_nil _) (dropWhile_ws_digits _)]
    rfl
  have hmt : metaMatch ⟨"# total: ".data ++
      humanSizeD ((entries.map (·.size)).sum)⟩ =
      some ("total", ⟨humanSizeD ((entries.map (·.size)).sum)⟩) := by
    rw [metaMatch_total,
      metaValue_sp _ (humanSizeD_ne_nil _) (dropWhile_ws_humanSize _)]
    rfl
  have hmc : metaMatch ⟨"# created: ".data ++ opts.now.data⟩ =
      some ("created", ⟨opts.now.data⟩) := by
    rw [metaMatch_created, metaValue_sp _ hw1 hw3]
    rfl
  have hg1 : strStarts
      (⟨"# files: ".data ++ natDigits entries.length⟩ : String) "#" =
      true := rfl
  have hg2 : strStarts (⟨"# total: ".data ++
      humanSizeD ((entries.map (·.size)).sum)⟩ : String) "#" = true := rfl
  have hg3 : strStarts (⟨"# created: ".data ++ opts.now.data⟩ : String)
      "#" = true := rfl
  have hmh : metaMatch "#" = none := rfl
  rw [headerScan_meta _ _ _ _ _ _ hg1 hmf
    (strMk_append_ne _ 3 (by decide) (by decide) (by decide))]
  rw [headerScan_meta _ _ _ _ _ _ hg2 hmt
    (strMk_append_ne _ 3 (by decide) (by decide) (by decide))]
  rw [headerScan_meta _ _ _ _ _ _ hg3 hmc
    (strMk_append_ne _ 3 (by decide) (by decide) (by decide))]
  rw [headerScan_plain _ _ _ (by decide) hmh (by decide)]
  by_cases hlen : entries.length > 0
  · rw [if_pos hlen]
    have hm : ("# MANIFEST:" ::
        entries.map (manifestLine (manifestMaxLen entries)) ++ ["#"]) ++
        ("" :: (entries.map entryBlock).flatten) =
        "# MANIFEST:" ::
          (entries.map (manifestLine (manifestMaxLen entries)) ++
           ("#" :: "" :: (entries.map entryBlock).flatten)) := by
      simp
    have hme : metaMatch "" = none := rfl
    rw [hm, headerScan_manifest_on,
      headerScan_manLines entries _ hE _ _ _, headerScan_manOff,
      headerScan_plain _ _ _ (by simp) hme (by decide)]
    have hne : entries ≠ [] := by
      intro h0
      rw [h0] at hlen
      exact absurd hlen (by decide)
    rw [headerScan_blocks entries hne]
    rfl
  · have hme : metaMatch "" = none := rfl
    rw [if_neg hlen, List.nil_append,
      headerScan_plain _ _ _ (by simp) hme (by decide)]
    have h0 : entries = [] := by
      cases entries with
      | nil => rfl
      | cons e es => exact absurd (by simp) hlen
    rw [h0]
    rfl

/-- The header scan from the first `#` separator and the `# name:` line
on. -/
theorem headerScan_fromName (entries : List PackEntry) (opts : PackOpts)
    (hn2 : (resolveName opts.name).data ≠ [])
    (hn3 : ((resolveName opts.name).data.dropWhile (isWsChar ·)) =
      (resolveName opts.name).data)
    (hd2 : ((resolveDesc opts.description).data.dropWhile (isWsChar ·)) =
      (resolveDesc opts.description).data)
    (hw1 : opts.now.data ≠ [])
    (hw3 : (opts.now.data.dropWhile (isWsChar ·)) = opts.now.data)
    (hE : ∀ e ∈ entries, e.relPath ≠ "" ∧
      (∀ c ∈ e.relPath.data, isWsChar c = false) ∧
      (∀ c ∈ e.checksum, 16 ≤ c.data.length ∧
        (c.data.take 16).all (isHexChar ·) = true)) :
    headerScanAux
      ("#" :: (⟨"# name: ".data ++ (resolveName opts.name).data⟩ : String) ::
       ((if resolveDesc opts.description = "" then []
         else [(⟨"# description: ".data ++
           (resolveDesc opts.description).data⟩ : String)]) ++
        ((⟨"# files: ".data ++ natDigits entries.length⟩ : String) ::
         (⟨"# total: ".data ++
           humanSizeD ((entries.map (·.size)).sum)⟩ : String) ::
         (⟨"# created: ".data ++ opts.now.data⟩ : String) :: "#" ::
         ((if entries.length > 0 then
             "# MANIFEST:" ::
               entries.map (manifestLine (manifestMaxLen entries)) ++ ["#"]
           else []) ++
          ("" :: (entries.map entryBlock).flatten)))))
      false emptyMeta [] =
      (expectedMeta entries opts, expectedChecks entries) := by
  have hmn : metaMatch ⟨"# name: ".data ++ (resolveName opts.name).data⟩ =
      some ("name", ⟨(resolveName opts.name).data⟩) := by
    rw [metaMatch_name, metaValue_sp _ hn2 hn3]
    rfl
  have hmh : metaMatch "#" = none := rfl
  have hgn : strStarts
      (⟨"# name: ".data ++ (resolveName opts.name).data⟩ : String) "#" =
      true := rfl
  rw [headerScan_plain _ _ _ (by decide) hmh (by decide)]
  rw [headerScan_meta _ _ _ _ _ _ hgn hmn
    (strMk_append_ne _ 3 (by decide) (by decide) (by decide))]
  by_cases hdesc : resolveDesc opts.description = ""
  · rw [if_pos hdesc, List.nil_append]
    rw [headerScan_fromFiles entries opts hw1 hw3 hE]
    rw [expectedMeta]
    rw [if_pos hdesc]
    rfl
  · rw [if_neg hdesc, List.singleton_append]
    have hmd : metaMatch ⟨"# description: ".data ++
        (resolveDesc opts.description).data⟩ =
        some ("description", ⟨(resolveDesc opts.description).data⟩) := by
      rw [metaMatch_desc, metaValue_sp _ (data_ne_nil hdesc) hd2]
      rfl
    have hgd : strStarts (⟨"# description: ".data ++
        (resolveDesc opts.description).data⟩ : String) "#" = true := rfl
    rw [headerScan_meta _ _ _ _ _ _ hgd hmd
      (strMk_append_ne _ 3 (by decide) (by decide) (by decide))]
    rw [headerScan_fromFiles entries opts hw1 hw3 hE]
    rw [expectedMeta]
    rw [if_neg hdesc]
    rfl

/-- The canonical line-level shape of the array `pack` builds. -/
theorem packLines_shape (entries : List PackEntry) (opts : PackOpts) :
    packLines entries opts = v4Marker ::
      ((match opts.prompt with
        | some pr => promptCommentLines pr
        | none => []) ++
       ("#" ::
        (⟨"# name: ".data ++ (resolveName opts.name).data⟩ : String) ::
        ((if resolveDesc opts.description = "" then []
          else [(⟨"# description: ".data ++
            (resolveDesc opts.description).data⟩ : String)]) ++
         ((⟨"# files: ".data ++ natDigits entries.length⟩ : String) ::
          (⟨"# total: ".data ++
            humanSizeD ((entries.map (·.size)).sum)⟩ : String) ::
          (⟨"# created: ".data ++ opts.now.data⟩ : String) :: "#" ::
          ((if entries.length > 0 then
              "# MANIFEST:" ::
                entries.map (manifestLine (manifestMaxLen entries)) ++ ["#"]
            else []) ++
           ("" :: (entries.map entryBlock).flatten)))))) := by
  simp [packLines, List.append_assoc]

/-- The header loop of the v4 parser applied to `pack`'s line array. -/
theorem headerScan_packLines (entries : List PackEntry) (opts : PackOpts)
    (hO : OptsWF opts)
    (hE : ∀ e ∈ entries, e.relPath ≠ "" ∧
      (∀ c ∈ e.relPath.data, isWsChar c = false) ∧
      (∀ c ∈ e.checksum, 16 ≤ c.data.length ∧
        (c.data.take 16).all (isHexChar ·) = true)) :
    headerScanAux (packLines entries opts) false emptyMeta [] =
      (expectedMeta entries opts, expectedChecks entries) := by
  obtain ⟨hn1, hn2, hn3, hd1, hd2, hw2, hw1, hw3, hpp⟩ := hO
  rw [packLines_shape]
  have hmv : metaMatch v4Marker = none := rfl
  rw [headerScan_plain _ _ _ (by decide) hmv (by decide)]
  cases hprompt : opts.prompt with
  | none =>
    rw [List.nil_append]
    exact headerScan_fromName entries opts hn2 hn3 hd2 hw2 hw3 hE
  | some pr =>
    rw [headerScan_skipPre _ _ _ _ ?hfacts]
    case hfacts =>
      intro l hl
      refine ⟨?_, (hpp pr (by rw [hprompt]; rfl) l hl).1,
        (hpp pr (by rw [hprompt]; rfl) l hl).2⟩
      rintro ⟨h1, -⟩
      rw [promptCommentLines_hash pr l hl] at h1
      exact absurd h1 (by decide)
    exact headerScan_fromName entries opts hn2 hn3 hd2 hw2 hw3 hE

/-- The header segment of `pack`'s line array (everything before the
file blocks). -/
def packHeader (entries : List PackEntry) (opts : PackOpts) : List String :=
  v4Marker ::
  ((match opts.prompt with
    | some pr => promptCommentLines pr
    | none => []) ++
   ("#" :: (⟨"# name: ".data ++ (resolveName opts.name).data⟩ : String) ::
    ((if resolveDesc opts.description = "" then []
      else [(⟨"# description: ".data ++
        (resolveDesc opts.description).data⟩ : String)]) ++
     ((⟨"# files: ".data ++ natDigits entries.length⟩ : String) ::
      (⟨"# total: ".data ++
        humanSizeD ((entries.map (·.size)).sum)⟩ : String) ::
      (⟨"# created: ".data ++ opts.now.data⟩ : String) :: "#" ::
      ((if entries.length > 0 then
          "# MANIFEST:" ::
            entries.map (manifestLine (manifestMaxLen entries)) ++ ["#"]
        else []) ++
       [""])))))

theorem packLines_split (entries : List PackEntry) (opts : PackOpts) :
    packLines entries opts =
      packHeader entries opts ++ (entries.map entryBlock).flatten := by
  simp [packLines, packHeader, List.append_assoc]

theorem delimPath_none_hash (x : List Char) :
    delimPath ⟨'#' :: x⟩ = none :=
  delimPath_none_of_head (by simp)

theorem scanBlocks_skipAll (pre rest : List String)
    (h : ∀ l ∈ pre, delimPath l = none) :
    scanBlocks (pre ++ rest) = scanBlocks rest := by
  induction pre with
  | nil => rfl
  | cons l p ih =>
    rw [List.cons_append, scanBlocks_skip _ (h l (by simp))]
    exact ih (fun x hx => h x (by simp [hx]))

theorem prompt_mem_delim (pr : String) :
    ∀ l ∈ promptCommentLines pr, delimPath l = none := by
  intro l hl
  rcases List.mem_map.mp hl with ⟨x, hx, rfl⟩
  by_cases hx0 : x = ""
  · rw [if_pos hx0]
    decide
  · rw [if_neg hx0]
    exact delimPath_none_hash _

theorem packHeader_no_delim (entries : List PackEntry) (opts : PackOpts) :
    ∀ l ∈ packHeader entries opts, delimPath l = none := by
  intro l hl
  rw [packHeader] at hl
  rcases List.mem_cons.mp hl with rfl | hl
  · exact delimPath_none_hash _
  rcases List.mem_append.mp hl with hl | hl
  · rcases hprompt : opts.prompt with _ | pr
    all_goals rw [hprompt] at hl
    · exact absurd hl (List.not_mem_nil l)
    · exact prompt_mem_delim pr l hl
  rcases List.mem_cons.mp hl with rfl | hl
  · decide
  rcases List.mem_cons.mp hl with rfl | hl
  · exact delimPath_none_hash _
  rcases List.mem_append.mp hl with hl | hl
  · revert hl
    split
    · intro hl
      exact absurd hl (List.not_mem_nil l)
    · intro hl
      rw [List.mem_singleton] at hl
      subst hl
      exact delimPath_none_hash _
  rcases List.mem_cons.mp hl with rfl | hl
  · exact delimPath_none_hash _
  rcases List.mem_cons.mp hl with rfl | hl
  · exact delimPath_none_hash _
  rcases List.mem_cons.mp hl with rfl | hl
  · exact delimPath_none_hash _
  rcases List.mem_cons.mp hl with rfl | hl
  · decide
  rcases List.mem_append.mp hl with hl | hl
  · revert hl
    split
    · intro hl
      rcases List.mem_cons.mp hl with rfl | hl
      · decide
      rcases List.mem_append.mp hl with hl | hl
      · rcases List.mem_map.mp hl with ⟨e, he, rfl⟩
        rw [manifestLine]
        exact delimPath_none_hash _
      · rw [List.mem_singleton] at hl
        subst hl
        decide
    · intro hl
      exact absurd hl (List.not_mem_nil l)
  · rw [List.mem_singleton] at hl
    subst hl
    decide

theorem entryBlock_no_nl (e : PackEntry) (hwf : EntryWF e) :
    ∀ x ∈ entryBlock e, '\n' ∉ x.data := by
  obtain ⟨hp, hpws, hend, hbody, hck⟩ := hwf
  have hpnl : '\n' ∉ e.relPath.data := fun hm =>
    absurd (hpws _ hm) (by decide)
  intro x hx
  rw [entryBlock] at hx
  revert hx
  split
  · intro hx
    rcases List.mem_cons.mp hx with rfl | hx
    · exact binStartLine_no_nl hpnl
    rcases List.mem_append.mp hx with hx | hx
    · rcases List.mem_map.mp hx with ⟨ch, hch, rfl⟩
      intro hm
      exact b64EncodeD_no_nl e.content _
        (chunk76_mem_subset _ ch hch _ hm) rfl
    rcases List.mem_cons.mp hx with rfl | hx
    · exact endLine_no_nl hpnl
    · rw [List.mem_singleton] at hx
      subst hx
      decide
  · intro hx
    rcases List.mem_cons.mp hx with rfl | hx
    · exact textStartLine_no_nl hpnl
    rcases List.mem_append.mp hx with hx | hx
    · rcases List.mem_map.mp hx with ⟨lc, hlc, rfl⟩
      exact splitNLd_no_nl _ lc hlc
    rcases List.mem_cons.mp hx with rfl | hx
    · exact endLine_no_nl hpnl
    · rw [List.mem_singleton] at hx
      subst hx
      decide

theorem packLines_no_nl (entries : List PackEntry) (opts : PackOpts)
    (hO : OptsWF opts) (hE : ∀ e ∈ entries, EntryWF e) :
    ∀ x ∈ packLines entries opts, '\n' ∉ x.data := by
  obtain ⟨hn1, hn2, hn3, hd1, hd2, hw2, hw1, hw3, hpp⟩ := hO
  intro x hx
  rw [packLines_split] at hx
  rcases List.mem_append.mp hx with hx | hx
  · rw [packHeader] at hx
    rcases List.mem_cons.mp hx with rfl | hx
    · decide
    rcases List.mem_append.mp hx with hx | hx
    · rcases hprompt : opts.prompt with _ | pr
      all_goals rw [hprompt] at hx
      · exact absurd hx (List.not_mem_nil x)
      · exact promptCommentLines_no_nl pr x hx
    rcases List.mem_cons.mp hx with rfl | hx
    · decide
    rcases List.mem_cons.mp hx with rfl | hx
    · exact no_nl_append (by decide) hn1
    rcases List.mem_append.mp hx with hx | hx
    · revert hx
      split
      · intro hx
        exact absurd hx (List.not_mem_nil x)
      · intro hx
        rw [List.mem_singleton] at hx
        subst hx
        exact no_nl_append (by decide) hd1
    rcases List.mem_cons.mp hx with rfl | hx
    · exact no_nl_append (by decide) (natDigits_no_nl _)
    rcases List.mem_cons.mp hx with rfl | hx
    · exact no_nl_append (by decide) (humanSizeD_no_nl _)
    rcases List.mem_cons.mp hx with rfl | hx
    · exact no_nl_append (by decide) hw1
    rcases List.mem_cons.mp hx with rfl | hx
    · decide
    rcases List.mem_append.mp hx with hx | hx
    · revert hx
      split
      · intro hx
        rcases List.mem_cons.mp hx with rfl | hx
        · decide
        rcases List.mem_append.mp hx with hx | hx
        · rcases List.mem_map.mp hx with ⟨e, he, rfl⟩
          exact manifestLine_no_nl _ e (hE e he).2.1 (hE e he).2.2.2.2
        · rw [List.mem_singleton] at hx
          subst hx
          decide
      · intro hx
        exact absurd hx (List.not_mem_nil x)
    · rw [List.mem_singleton] at hx
      subst hx
      decide
  · rcases List.mem_flatten.mp hx with ⟨blk, hblk, hxb⟩
    rcases List.mem_map.mp hblk with ⟨e, he, rfl⟩
    exact entryBlock_no_nl e (hE e he) x hxb

theorem packLines_ne_nil (entries : List PackEntry) (opts : PackOpts) :
    packLines entries opts ≠ [] := by
  rw [packLines_shape]
  simp

theorem splitNL_pack (entries : List PackEntry) (opts : PackOpts)
    (hO : OptsWF opts) (hE : ∀ e ∈ entries, EntryWF e) :
    splitNL (pack entries opts) = packLines entries opts := by
  rw [pack]
  exact splitNL_joinNL (packLines_ne_nil entries opts)
    (packLines_no_nl entries opts hO hE)

/-- C4 counterexample: the round-trip claim fails without further
conditions — a text entry whose content is its own end delimiter line
(path `a`, content `=== END a ===`) packs into a block whose content is
swallowed by the parser's end-marker search: the parsed entry comes
back with empty content, which no checksum truncation or
trailing-newline normalization maps back to the original content. -/
theorem c4_counterexample :
    (parseContentV4 (pack
      [⟨"a", false, "=== END a ===", [], 13, none⟩]
      ⟨none, none, none, "T"⟩)).files =
      [⟨"a", none, .text ""⟩] ∧
    stripNL "=== END a ===" = "=== END a ===" ∧
    ("" : String) ≠ "=== END a ===" := by
  decide

/-- C4 (amended): for every entry list whose entries are well formed
(nonempty whitespace-free path not starting with `END `, nonempty
binary content of byte values, a text start line the binary delimiter
regex does not match, no text content line equal to the entry's own
end delimiter, checksums of at least 16 hex characters) and well-formed
options (single-line name/description/timestamp without leading
whitespace, prompt comment lines that collide with neither the
metadata regex nor the manifest opener), parsing the packed v4 archive
returns exactly: the resolved name, the description (absent when
empty), the rendered file count, total size and timestamp, no sentinel;
the checksum pairs truncated to 16 hex characters in entry order; and
one file per entry, binary content byte-identical and text content
equal to the original with exactly one trailing newline stripped (the
parser does not restore it). -/
theorem c4_pack_parse_roundtrip (entries : List PackEntry)
    (opts : PackOpts) (hE : ∀ e ∈ entries, EntryWF e) (hO : OptsWF opts) :
    parseContentV4 (pack entries opts) =
      ⟨expectedMeta entries opts, expectedChecks entries,
       entries.map expectedFile⟩ := by
  have hsplit := splitNL_pack entries opts hO hE
  have hEfacts : ∀ e ∈ entries, e.relPath ≠ "" ∧
      (∀ c ∈ e.relPath.data, isWsChar c = false) ∧
      (∀ c ∈ e.checksum, 16 ≤ c.data.length ∧
        (c.data.take 16).all (isHexChar ·) = true) :=
    fun e he => ⟨(hE e he).1, (hE e he).2.1, (hE e he).2.2.2.2⟩
  have hhs := headerScan_packLines entries opts hO hEfacts
  have hsb : scanBlocks (packLines entries opts) =
      entries.map expectedFile := by
    rw [packLines_split,
      scanBlocks_skipAll _ _ (packHeader_no_delim entries opts),
      scanBlocks_blocks entries hE]
  rw [parseContentV4, hsplit, hhs, hsb]

def entriesW : List PackEntry :=
  [⟨"a.txt", false, "hello\n", [], 6, some "0123456789abcdef"⟩,
   ⟨"b.bin", true, "", [0, 255, 10], 3, none⟩]

def optsW : PackOpts :=
  ⟨some "n", some "d", some "hi\n\nthere", "2024-01-01T00:00:00Z"⟩

theorem c4_pack_parse_roundtrip_witness :
    (∀ e ∈ entriesW, EntryWF e) ∧ OptsWF optsW ∧
    parseContentV4 (pack entriesW optsW) =
      ⟨expectedMeta entriesW optsW, expectedChecks entriesW,
       entriesW.map expectedFile⟩ :=
  ⟨by decide, by decide,
   c4_pack_parse_roundtrip entriesW optsW (by decide) (by decide)⟩

end Slurp



